import Mathlib

/-!
Spreadsheet core: the classes `Cell` and `Sheet`.

A shallow embedding of `cell.cpp` / `sheet.cpp`.

* `std::string` is `String`; only the first character, the size and the tail
  after the first character are inspected by the code, and only against the
  one-byte characters `=` and the apostrophe, so that counting characters
  instead of bytes makes no difference.
* A `Cell*` is modelled by the position of the slot that owns the cell
  (`none` for a cell that is not stored in the sheet yet).
* Exceptions are explicit results; a null-pointer dereference is the result
  `Outcome.undefined`; recursion that the code does not bound is bounded by a
  fuel argument, and running out of fuel is the result `none`.
* The formula collaborator (`formula.h`) is not part of the sources: the
  parser is a parameter `ParseFormula` and evaluation is a parameter
  `Evaluate`.
* An output stream is the string written so far; the stream formatting of a
  `double` is a parameter `formatDouble`.
-/

namespace Spreadsheet

/-! ## Declarations of `common.h` and `formula.h` -/

/-- Modelled from the spec: `Position` of `common.h`, a pair (row, column) of
C++ `int`s. -/
structure Position where
  row : Int
  col : Int
deriving DecidableEq, Repr

/-- Modelled from the spec: the upper bound on rows of `common.h` ("e.g. 16384"). -/
def Position.MAX_ROWS : Int := 16384

/-- Modelled from the spec: the upper bound on columns of `common.h` ("e.g. 16384"). -/
def Position.MAX_COLS : Int := 16384

/-- Modelled from the spec: `Position::IsValid` of `common.h`,
"Validity: 0 ≤ row, col < MAX_DIM". -/
def Position.IsValid (p : Position) : Bool :=
  decide (0 ≤ p.row) && decide (0 ≤ p.col) &&
    decide (p.row < Position.MAX_ROWS) && decide (p.col < Position.MAX_COLS)

/-- Modelled from the spec: `Position::operator<` of `common.h`, "totally ordered
lexicographically (row, then col)". -/
def Position.lt (a b : Position) : Bool :=
  decide (a.row < b.row) || (decide (a.row = b.row) && decide (a.col < b.col))

/-- Modelled from the spec: `Size` of `common.h`. -/
structure Size where
  rows : Int
  cols : Int
deriving DecidableEq, Repr

/-- Modelled from the spec: the closed set of formula-error categories. -/
inductive FormulaError
  | Ref
  | Value
  | Arithm
  | Div0
deriving DecidableEq, Repr

/-- Modelled from the spec: a C++ `double` as far as the code inspects it, that
is, through `std::isfinite`. -/
inductive Double
  | finite (q : Int)
  | infinite
  | nan
deriving DecidableEq, Repr

/-- The test `std::isfinite`. -/
def Double.isfinite : Double → Bool
  | .finite _ => true
  | _ => false

/-- Modelled from the spec: the variant `FormulaInterface::Value` of `formula.h`, a
number or a formula error. -/
inductive FormulaValue
  | number (d : Double)
  | error (e : FormulaError)
deriving DecidableEq, Repr

/-- Modelled from the spec: the variant `CellInterface::Value` of `common.h`, a
string, a number or a formula error. -/
inductive Value
  | text (s : String)
  | number (d : Double)
  | error (e : FormulaError)
deriving DecidableEq, Repr

/-- Modelled from the spec: the parsed formula object of `formula.h`, with its
canonical expression and the positions it reads. -/
structure FormulaInterface where
  GetExpression : String
  GetReferencedCells : List Position
deriving DecidableEq, Repr

/-- Modelled from the spec: the exceptions of `common.h` that the sheet throws
(invalid-position, formula-syntax, circular-dependency). -/
inductive Exception
  | InvalidPositionException
  | FormulaException
  | CircularDependencyException
deriving DecidableEq, Repr

/-- Modelled from the spec: the formula sigil `=`, the constant `FORMULA_SIGN` of
`common.h`. -/
def FORMULA_SIGN : Char := '='

/-- Modelled from the spec: the escape sigil (the apostrophe), the constant
`ESCAPE_SIGN` of `common.h`. -/
def ESCAPE_SIGN : Char := Char.ofNat 39

/-! ## `std::string` operations used by the code -/

/-- The test `text.empty()`. -/
def strEmpty (s : String) : Bool := s.data.isEmpty

/-- The character `text[0]`; the terminating NUL when the string is empty. -/
def strFront (s : String) : Char := s.data.headD (Char.ofNat 0)

/-- The string without its first character: `std::string{text.begin() + 1, text.end()}`
and `text.substr(1, text.size() - 1)`. -/
def strTail (s : String) : String := ⟨s.data.drop 1⟩

/-- The string `c + s` with a leading character. -/
def strCons (c : Char) (s : String) : String := ⟨c :: s.data⟩

/-! ## `cell.cpp` -/

/-- The three implementations behind `Cell::impl_`. -/
inductive Impl
  | EmptyImpl
  | TextImpl (cell_text_ : String) (escaped_ : Bool)
  | FormulaImpl (formula_ : FormulaInterface) (cached_value_ : Option Value)
deriving DecidableEq, Repr

/-- The constructor `Cell::TextImpl::TextImpl`. -/
def Impl.newTextImpl (text : String) : Impl :=
  .TextImpl text (if strFront text = ESCAPE_SIGN then true else false)

/-- The constructor `Cell::FormulaImpl::FormulaImpl`; `none` when `ParseFormula` throws. -/
def Impl.newFormulaImpl (ParseFormula : String → Option FormulaInterface) (formula : String) :
    Option Impl :=
  match ParseFormula formula with
  | some f => some (.FormulaImpl f none)
  | none => none

/-- The methods `IGetValue` of the three implementations. `Evaluate` is
`formula_->Evaluate(sheet_)` of the collaborator. The method is `const` and
`cached_value_` is not `mutable`: the implementation is left as it is. -/
def Impl.IGetValue (Evaluate : FormulaInterface → FormulaValue) : Impl → Value
  | .EmptyImpl => .number (.finite 0)
  | .TextImpl cell_text_ escaped_ =>
      if escaped_ then .text (strTail cell_text_) else .text cell_text_
  | .FormulaImpl formula_ cached_value_ =>
      match cached_value_ with
      | none =>
          match Evaluate formula_ with
          | .number d => if d.isfinite then .number d else .error .Div0
          | .error e => .error e
      | some v => v

/-- The methods `IGetText`. -/
def Impl.IGetText : Impl → String
  | .EmptyImpl => ""
  | .TextImpl cell_text_ _ => cell_text_
  | .FormulaImpl formula_ _ => strCons FORMULA_SIGN formula_.GetExpression

/-- The methods `IGetReferencedCells`. -/
def Impl.IGetReferencedCells : Impl → List Position
  | .FormulaImpl formula_ _ => formula_.GetReferencedCells
  | _ => []

/-- The methods `IInvalidateCache`. -/
def Impl.IInvalidateCache : Impl → Impl
  | .FormulaImpl formula_ _ => .FormulaImpl formula_ none
  | i => i

/-- The methods `ICached`. -/
def Impl.ICached : Impl → Bool
  | .FormulaImpl _ cached_value_ => cached_value_.isSome
  | _ => true

/-- The class `Cell`: the owned implementation. -/
structure Cell where
  impl_ : Impl
deriving DecidableEq, Repr

/-- The method `Cell::Set`: the cell after the call, or the exception thrown, in
which case `impl_` has not been assigned. -/
def Cell.Set (ParseFormula : String → Option FormulaInterface) (text : String) :
    Except Exception Cell :=
  if strEmpty text then
    .ok ⟨.EmptyImpl⟩
  else if strFront text ≠ FORMULA_SIGN ∨ (strFront text = FORMULA_SIGN ∧ text.length = 1) then
    .ok ⟨Impl.newTextImpl text⟩
  else
    match Impl.newFormulaImpl ParseFormula (strTail text) with
    | some i => .ok ⟨i⟩
    | none => .error .FormulaException

/-- The method `Cell::Clear`. -/
def Cell.Clear (_c : Cell) : Cell := ⟨.EmptyImpl⟩

/-- The method `Cell::GetValue`. -/
def Cell.GetValue (Evaluate : FormulaInterface → FormulaValue) (c : Cell) : Value :=
  c.impl_.IGetValue Evaluate

/-- The method `Cell::GetText`. -/
def Cell.GetText (c : Cell) : String := c.impl_.IGetText

/-- The method `Cell::GetReferencedCells`. -/
def Cell.GetReferencedCells (c : Cell) : List Position := c.impl_.IGetReferencedCells

/-- The method `Cell::InvalidateCache`. -/
def Cell.InvalidateCache (c : Cell) : Cell := ⟨c.impl_.IInvalidateCache⟩

/-- The method `Cell::IsCacheValid`. -/
def Cell.IsCacheValid (c : Cell) : Bool := c.impl_.ICached

/-! ## `sheet.cpp` -/

/-- The data members of `Sheet`: the map "cell -> cells that depend on it", the
rows of optional cells, and the printable area with its validity flag. -/
structure Sheet where
  cells_dependencies_ : List (Position × List Position)
  sheet_ : List (List (Option Cell))
  max_row_ : Int
  max_col_ : Int
  area_is_valid_ : Bool
deriving DecidableEq, Repr

/-- The sheet made by `CreateSheet`. -/
def Sheet.empty : Sheet :=
  { cells_dependencies_ := [], sheet_ := [], max_row_ := 0, max_col_ := 0, area_is_valid_ := true }

/-- How a call on the sheet ends: it returns, it throws, or it dereferences a
null pointer. -/
inductive Outcome (α : Type)
  | returned (a : α) (s : Sheet)
  | threw (e : Exception) (s : Sheet)
  | undefined
deriving DecidableEq, Repr

/-- The call `std::vector::resize(n)` with value-initialised new elements. -/
def vecResize {α : Type} (v : List α) (n : Nat) (d : α) : List α :=
  v.take n ++ List.replicate (n - v.length) d

/-- The row `sheet_.at(r)`, empty when there is no such row. -/
def Sheet.rowAt (s : Sheet) (r : Nat) : List (Option Cell) := s.sheet_.getD r []

/-- The pointer `sheet_.at(r).at(c)`, null when there is no such slot. -/
def Sheet.slot (s : Sheet) (r c : Nat) : Option Cell := (s.rowAt r).getD c none

/-- The assignment `sheet_.at(pos.row).at(pos.col) = v`. -/
def Sheet.setSlot (s : Sheet) (pos : Position) (v : Option Cell) : Sheet :=
  { s with sheet_ := s.sheet_.set pos.row.toNat ((s.rowAt pos.row.toNat).set pos.col.toNat v) }

/-- The method `Sheet::CellExists`. -/
def Sheet.CellExists (s : Sheet) (pos : Position) : Bool :=
  decide (pos.row < (s.sheet_.length : Int)) &&
    decide (pos.col < ((s.rowAt pos.row.toNat).length : Int))

/-- The method `Sheet::Reserve`. -/
def Sheet.Reserve (s : Sheet) (pos : Position) : Sheet :=
  if !pos.IsValid then s
  else
    let s1 : Sheet :=
      if (s.sheet_.length : Int) < pos.row + 1 then
        { s with sheet_ := vecResize s.sheet_ (pos.row + 1).toNat [] }
      else s
    if ((s1.rowAt pos.row.toNat).length : Int) < pos.col + 1 then
      { s1 with sheet_ :=
          s1.sheet_.set pos.row.toNat (vecResize (s1.rowAt pos.row.toNat) (pos.col + 1).toNat none) }
    else s1

/-- The method `Sheet::GetCell`: the cell behind the returned pointer, `none` for
a null pointer. -/
def Sheet.GetCell (s : Sheet) (pos : Position) : Except Exception (Option Cell) :=
  if !pos.IsValid then .error .InvalidPositionException
  else if s.CellExists pos then
    match s.slot pos.row.toNat pos.col.toNat with
    | some c => .ok (some c)
    | none => .ok none
  else .ok none

/-- The scan of `Sheet::UpdatePrintableSize` over one row `x`. -/
def Sheet.scanRow (s : Sheet) (x : Nat) (acc : Int × Int) : Int × Int :=
  (List.range (s.rowAt x).length).foldl
    (fun a y => if (s.slot x y).isSome then (max a.1 ((x : Int) + 1), max a.2 ((y : Int) + 1)) else a)
    acc

/-- The method `Sheet::UpdatePrintableSize`. -/
def Sheet.UpdatePrintableSize (s : Sheet) : Sheet :=
  let m := (List.range s.sheet_.length).foldl (fun a x => s.scanRow x a) ((0 : Int), (0 : Int))
  { s with max_row_ := m.1, max_col_ := m.2, area_is_valid_ := true }

/-- The method `Sheet::GetPrintableSize`. -/
def Sheet.GetPrintableSize (s : Sheet) : Except Exception Size :=
  if s.area_is_valid_ then .ok ⟨s.max_row_, s.max_col_⟩
  else .error .InvalidPositionException

/-- The method `Sheet::ClearCell`. -/
def Sheet.ClearCell (s : Sheet) (pos : Position) : Outcome Unit :=
  if !pos.IsValid then .threw .InvalidPositionException s
  else if s.CellExists pos then
    let s1 := s.setSlot pos none
    if pos.row + 1 = s1.max_row_ ∨ pos.col + 1 = s1.max_col_ then
      .returned () ({ s1 with area_is_valid_ := false }).UpdatePrintableSize
    else .returned () s1
  else .returned () s

/-- The call `std::set<Position>::insert`. -/
def setInsert (p : Position) : List Position → List Position
  | [] => [p]
  | q :: qs =>
      if p = q then q :: qs
      else if p.lt q then p :: q :: qs
      else q :: setInsert p qs

/-- The call `cells_dependencies_[key].insert(p)` on the map. -/
def mapInsert (key p : Position) : List (Position × List Position) → List (Position × List Position)
  | [] => [(key, setInsert p [])]
  | (k, v) :: rest =>
      if k = key then (k, setInsert p v) :: rest
      else (k, v) :: mapInsert key p rest

/-- The lookup `cells_dependencies_.at(key)`, `none` when `count(key)` is zero. -/
def mapFind (key : Position) : List (Position × List Position) → Option (List Position)
  | [] => none
  | (k, v) :: rest => if k = key then some v else mapFind key rest

/-- The method `Sheet::AddDependentCell`. -/
def Sheet.AddDependentCell (s : Sheet) (main_cell dependent_cell : Position) : Sheet :=
  { s with cells_dependencies_ := mapInsert main_cell dependent_cell s.cells_dependencies_ }

/-- The method `Sheet::GetDependentCells`. -/
def Sheet.GetDependentCells (s : Sheet) (pos : Position) : List Position :=
  match mapFind pos s.cells_dependencies_ with
  | some consumers => consumers
  | none => []

/-- The method `Sheet::DeleteDependencies`. -/
def Sheet.DeleteDependencies (s : Sheet) (pos : Position) : Sheet :=
  { s with cells_dependencies_ := s.cells_dependencies_.filter (fun e => decide (e.1 ≠ pos)) }

/-- The loop of `Sheet::InvalidateCellCash` over the dependent cells, with the
recursive call as `recur`. -/
def invalidateLoop (recur : Sheet → Position → Option (Outcome Unit)) :
    List Position → Sheet → Option (Outcome Unit)
  | [], s => some (.returned () s)
  | dependent_cell :: rest, s =>
      match s.GetCell dependent_cell with
      | .error e => some (.threw e s)
      | .ok none => some .undefined
      | .ok (some cell) =>
          match recur (s.setSlot dependent_cell (some cell.InvalidateCache)) dependent_cell with
          | some (.returned _ s1) => invalidateLoop recur rest s1
          | other => other

/-- The method `Sheet::InvalidateCellCash`; the fuel bounds the depth of the recursion. -/
def Sheet.InvalidateCellCash : Nat → Sheet → Position → Option (Outcome Unit)
  | 0, _, _ => none
  | fuel + 1, s, pos =>
      invalidateLoop (fun s1 p => Sheet.InvalidateCellCash fuel s1 p) (s.GetDependentCells pos) s

/-- The loop of `Cell::IsCyclicDependent` over the referenced cells of `this`, with
`sheet_.SetCell` as `setCell` and the recursive call as `recur`. The pointer
`start_cell_ptr` is the position whose slot owns the start cell, `none` for a
start cell that no slot owns. -/
def probeLoop (setCell : Sheet → Position → String → Option (Outcome Unit))
    (recur : Sheet → Cell → Option (Outcome Bool))
    (start_cell_ptr : Option Position) (end_pos : Position) :
    List Position → Sheet → Option (Outcome Bool)
  | [], s => some (.returned false s)
  | referenced_cell_pos :: rest, s =>
      if referenced_cell_pos = end_pos then some (.returned true s)
      else
        match s.GetCell referenced_cell_pos with
        | .error e => some (.threw e s)
        | .ok (some ref_cell) =>
            if start_cell_ptr = some referenced_cell_pos then some (.returned true s)
            else
              match recur s ref_cell with
              | some (.returned true s1) => some (.returned true s1)
              | some (.returned false s1) => probeLoop setCell recur start_cell_ptr end_pos rest s1
              | other => other
        | .ok none =>
            match setCell s referenced_cell_pos "" with
            | some (.returned _ s1) =>
                match s1.GetCell referenced_cell_pos with
                | .error e => some (.threw e s1)
                | .ok none => some .undefined
                | .ok (some ref_cell) =>
                    if start_cell_ptr = some referenced_cell_pos then some (.returned true s1)
                    else
                      match recur s1 ref_cell with
                      | some (.returned true s2) => some (.returned true s2)
                      | some (.returned false s2) =>
                          probeLoop setCell recur start_cell_ptr end_pos rest s2
                      | other => other
            | some (.threw e s1) => some (.threw e s1)
            | some .undefined => some .undefined
            | none => none

/-- The loop of `Sheet::SetCell` that stores the dependencies:
`AddDependentCell(ref_cell, pos)` for every referenced cell. -/
def Sheet.addReferences (s : Sheet) (refs : List Position) (pos : Position) : Sheet :=
  refs.foldl (fun t ref_cell => t.AddDependentCell ref_cell pos) s

/-- The body of `Sheet::SetCell`, with `InvalidateCellCash` as `invalidate` and
`Cell::IsCyclicDependent` as `probe`. -/
def Sheet.SetCellWith (ParseFormula : String → Option FormulaInterface)
    (invalidate : Sheet → Position → Option (Outcome Unit))
    (probe : Sheet → Cell → Option Position → Position → Option (Outcome Bool))
    (s : Sheet) (pos : Position) (text : String) : Option (Outcome Unit) :=
  if !pos.IsValid then some (.threw .InvalidPositionException s)
  else
    let s0 := s.Reserve pos
    match s0.GetCell pos with
    | .error e => some (.threw e s0)
    | .ok (some cell) =>
        let old_text := cell.GetText
        match invalidate s0 pos with
        | some (.returned _ s1) =>
            let s2 := s1.DeleteDependencies pos
            let s3 := s2.setSlot pos (some (Cell.Clear cell))
            match Cell.Set ParseFormula text with
            | .error e => some (.threw e s3)
            | .ok new_content =>
                let s4 := s3.setSlot pos (some new_content)
                match probe s4 new_content (some pos) pos with
                | some (.returned true s5) =>
                    match Cell.Set ParseFormula old_text with
                    | .error e => some (.threw e s5)
                    | .ok restored =>
                        some (.threw .CircularDependencyException (s5.setSlot pos (some restored)))
                | some (.returned false s5) =>
                    some (.returned () (s5.addReferences new_content.GetReferencedCells pos))
                | some (.threw e s5) => some (.threw e s5)
                | some .undefined => some .undefined
                | none => none
        | some (.threw e s1) => some (.threw e s1)
        | some .undefined => some .undefined
        | none => none
    | .ok none =>
        match Cell.Set ParseFormula text with
        | .error e => some (.threw e s0)
        | .ok new_cell =>
            match probe s0 new_cell none pos with
            | some (.returned true s1) => some (.threw .CircularDependencyException s1)
            | some (.returned false s1) =>
                let s2 := s1.addReferences new_cell.GetReferencedCells pos
                some (.returned () (s2.setSlot pos (some new_cell)).UpdatePrintableSize)
            | some (.threw e s1) => some (.threw e s1)
            | some .undefined => some .undefined
            | none => none

/-- The method `Cell::IsCyclicDependent`, called on the cell `this`; the fuel bounds
the depth of the recursion. -/
def Cell.IsCyclicDependent (ParseFormula : String → Option FormulaInterface) :
    Nat → Sheet → Cell → Option Position → Position → Option (Outcome Bool)
  | 0, _, _, _, _ => none
  | fuel + 1, s, this, start_cell_ptr, end_pos =>
      probeLoop
        (fun s1 p t =>
          Sheet.SetCellWith ParseFormula (fun s2 q => Sheet.InvalidateCellCash fuel s2 q)
            (fun s2 c st e => Cell.IsCyclicDependent ParseFormula fuel s2 c st e) s1 p t)
        (fun s1 c => Cell.IsCyclicDependent ParseFormula fuel s1 c start_cell_ptr end_pos)
        start_cell_ptr end_pos this.GetReferencedCells s

/-- The method `Sheet::SetCell`. -/
def Sheet.SetCell (ParseFormula : String → Option FormulaInterface) (fuel : Nat)
    (s : Sheet) (pos : Position) (text : String) : Option (Outcome Unit) :=
  Sheet.SetCellWith ParseFormula (fun s1 q => Sheet.InvalidateCellCash fuel s1 q)
    (fun s1 c st e => Cell.IsCyclicDependent ParseFormula fuel s1 c st e) s pos text

/-- The inner loop of `Sheet::PrintTexts` for the row `x` over the columns `ys`, with
the flag `need_separator`; `none` when `sheet_.at(x)` throws `std::out_of_range`. -/
def Sheet.printTextsRow (s : Sheet) (x : Nat) : List Nat → Bool → String → Option String
  | [], _, output => some output
  | y :: ys, need_separator, output =>
      let output1 := if need_separator then output ++ "\t" else output
      if x < s.sheet_.length then
        match s.slot x y with
        | some cell => Sheet.printTextsRow s x ys true (output1 ++ cell.GetText)
        | none => Sheet.printTextsRow s x ys true output1
      else none

/-- The outer loop of `Sheet::PrintTexts` over the rows `xs`. -/
def Sheet.printTextsRows (s : Sheet) : List Nat → String → Option String
  | [], output => some output
  | x :: xs, output =>
      match s.printTextsRow x (List.range s.max_col_.toNat) false output with
      | some output1 => Sheet.printTextsRows s xs (output1 ++ "\n")
      | none => none

/-- The method `Sheet::PrintTexts`: the stream after the call, `none` when
`std::vector::at` throws. -/
def Sheet.PrintTexts (s : Sheet) (output : String) : Option String :=
  s.printTextsRows (List.range s.max_row_.toNat) output

/-- Modelled from the spec: the canonical tokens of the formula errors, written by
`operator<<` of `common.h`. -/
def FormulaError.ToString : FormulaError → String
  | .Ref => "#REF!"
  | .Value => "#VALUE!"
  | .Arithm => "#ARITHM!"
  | .Div0 => "#DIV/0!"

/-- The three writes of `Sheet::PrintValues` for a value: the alternative that the
variant holds is written, the string as it is, the number by `formatDouble`
(the stream's formatting of a `double`), the error by its token. -/
def printValue (formatDouble : Double → String) (output : String) : Value → String
  | .text str => output ++ str
  | .number d => output ++ formatDouble d
  | .error e => output ++ e.ToString

/-- The inner loop of `Sheet::PrintValues` for the row `x` over the columns `ys`, with
the flag `need_separator`; `none` when `sheet_.at(x)` throws `std::out_of_range`. -/
def Sheet.printValuesRow (Evaluate : FormulaInterface → FormulaValue)
    (formatDouble : Double → String) (s : Sheet) (x : Nat) :
    List Nat → Bool → String → Option String
  | [], _, output => some output
  | y :: ys, need_separator, output =>
      let output1 := if need_separator then output ++ "\t" else output
      if x < s.sheet_.length then
        match s.slot x y with
        | some cell =>
            Sheet.printValuesRow Evaluate formatDouble s x ys true
              (printValue formatDouble output1 (cell.GetValue Evaluate))
        | none => Sheet.printValuesRow Evaluate formatDouble s x ys true output1
      else none

/-- The outer loop of `Sheet::PrintValues` over the rows `xs`. -/
def Sheet.printValuesRows (Evaluate : FormulaInterface → FormulaValue)
    (formatDouble : Double → String) (s : Sheet) : List Nat → String → Option String
  | [], output => some output
  | x :: xs, output =>
      match s.printValuesRow Evaluate formatDouble x (List.range s.max_col_.toNat) false output with
      | some output1 => Sheet.printValuesRows Evaluate formatDouble s xs (output1 ++ "\n")
      | none => none

/-- The method `Sheet::PrintValues`: the stream after the call, `none` when
`std::vector::at` throws. -/
def Sheet.PrintValues (Evaluate : FormulaInterface → FormulaValue)
    (formatDouble : Double → String) (s : Sheet) (output : String) : Option String :=
  s.printValuesRows Evaluate formatDouble (List.range s.max_row_.toNat) output

/-! ## Auxiliary definitions for the statements and proofs -/

/-- The slot `(r, c)` lies inside the stored rows. -/
def Sheet.InRange (s : Sheet) (r c : Nat) : Prop :=
  r < s.sheet_.length ∧ c < (s.rowAt r).length

instance Sheet.decInRange (s : Sheet) (r c : Nat) : Decidable (s.InRange r c) := by
  unfold Sheet.InRange; infer_instance

/-- The first resize of `Reserve`: the rows. -/
def Sheet.reserveRows (s : Sheet) (pos : Position) : Sheet :=
  if (s.sheet_.length : Int) < pos.row + 1 then
    { s with sheet_ := vecResize s.sheet_ (pos.row + 1).toNat [] }
  else s

/-- The pair `(R, C)` is the componentwise maximum of `(r + 1, c + 1)` over the
slots `(r, c)` in `S`, and `(0, 0)` when `S` holds no slot. -/
def IsMaxOver (S : Nat → Nat → Prop) (R C : Int) : Prop :=
  (∀ r c, S r c → (r : Int) + 1 ≤ R ∧ (c : Int) + 1 ≤ C) ∧
    (R = 0 ∨ ∃ r c, S r c ∧ (r : Int) + 1 = R) ∧
    (C = 0 ∨ ∃ r c, S r c ∧ (c : Int) + 1 = C)

/-- The pair `(R, C)` is the bounding box of the slots of `s` that hold a cell. -/
def Sheet.IsBoundingBox (s : Sheet) (R C : Int) : Prop :=
  IsMaxOver (fun r c => (s.slot r c).isSome = true) R C

/-- The sheet in which a call ends, when it returns or throws. -/
def Outcome.state? {α : Type} : Outcome α → Option Sheet
  | .returned _ s => some s
  | .threw _ s => some s
  | .undefined => none

/-- The call ends in a sheet that satisfies `R` when it returns or throws, and the
only exception it throws is invalid-position. -/
def Outcome.Via {α : Type} (R : Sheet → Prop) : Outcome α → Prop
  | .returned _ s => R s
  | .threw ex s => ex = .InvalidPositionException ∧ R s
  | .undefined => True

/-- The effect on the sheet of `SetCell(r, "")` for a position whose slot is null. -/
def Sheet.materialise (s : Sheet) (r : Position) : Sheet :=
  ((s.Reserve r).setSlot r (some ⟨.EmptyImpl⟩)).UpdatePrintableSize

/-- The sheet `s'` arises from `s` by materialising Empty cells at valid positions
other than `end_pos` whose slots were null. -/
inductive Materialised (end_pos : Position) : Sheet → Sheet → Prop
  | refl (s : Sheet) : Materialised end_pos s s
  | step {s s' : Sheet} (r : Position) (hne : r ≠ end_pos) (hv : r.IsValid = true)
      (hnull : s.slot r.row.toNat r.col.toNat = none)
      (rest : Materialised end_pos (s.materialise r) s') : Materialised end_pos s s'

/-- The sheet `s'` arises from `s` by calls of `InvalidateCache` on stored cells. -/
inductive Invalidated : Sheet → Sheet → Prop
  | refl (s : Sheet) : Invalidated s s
  | step {s s' : Sheet} (d : Position) (cell : Cell) (hv : d.IsValid = true)
      (hcell : s.slot d.row.toNat d.col.toNat = some cell)
      (rest : Invalidated (s.setSlot d (some cell.InvalidateCache)) s') : Invalidated s s'

/-- The printable area is valid and is the bounding box of the stored cells. -/
def Sheet.AreaOk (s : Sheet) : Prop :=
  s.area_is_valid_ = true ∧ s.IsBoundingBox s.max_row_ s.max_col_

/-- What `SetCell` does when no cell lives at `pos`. -/
def Sheet.NewBranch (P : String → Option FormulaInterface) (s : Sheet) (pos : Position)
    (text : String) (o : Outcome Unit) : Prop :=
  (∃ e, Cell.Set P text = .error e ∧ o = .threw e (s.Reserve pos)) ∨
  (∃ nc, Cell.Set P text = .ok nc ∧
    (o = .undefined ∨
      ∃ s1, Materialised pos (s.Reserve pos) s1 ∧
        (o = .threw .InvalidPositionException s1 ∨
          o = .threw .CircularDependencyException s1 ∨
          o = .returned ()
            ((s1.addReferences nc.GetReferencedCells pos).setSlot pos (some nc)).UpdatePrintableSize)))

/-- What `SetCell` does when the cell `cell` lives at `pos`. -/
def Sheet.ExistingBranch (P : String → Option FormulaInterface) (s : Sheet) (pos : Position)
    (text : String) (cell : Cell) (o : Outcome Unit) : Prop :=
  o = .undefined ∨
  ∃ s1, Invalidated (s.Reserve pos) s1 ∧
    (o = .threw .InvalidPositionException s1 ∨
      (∃ e, Cell.Set P text = .error e ∧
        o = .threw e ((s1.DeleteDependencies pos).setSlot pos (some ⟨.EmptyImpl⟩))) ∨
      (∃ nc, Cell.Set P text = .ok nc ∧
        ∃ s5, Materialised pos
            (((s1.DeleteDependencies pos).setSlot pos (some ⟨.EmptyImpl⟩)).setSlot pos (some nc)) s5 ∧
          (o = .undefined ∨ o = .threw .InvalidPositionException s5 ∨
            o = .returned () (s5.addReferences nc.GetReferencedCells pos) ∨
            (∃ e, Cell.Set P cell.GetText = .error e ∧ o = .threw e s5) ∨
            (∃ restored, Cell.Set P cell.GetText = .ok restored ∧
              o = .threw .CircularDependencyException (s5.setSlot pos (some restored))))))

/-- The invariants of a sheet: the printable area is the bounding box, every
stored cell is one that `Cell::Set` makes, and every stored cell sits at a
valid position. -/
structure Sheet.Inv (P : String → Option FormulaInterface) (s : Sheet) : Prop where
  area : s.AreaOk
  cells : ∀ r c x, s.slot r c = some x → ∃ t, Cell.Set P t = .ok x
  valid : ∀ r c x, s.slot r c = some x →
    ∃ p : Position, p.IsValid = true ∧ p.row.toNat = r ∧ p.col.toNat = c

/-- The sheets reachable from the empty sheet by calls of `SetCell` and `ClearCell`
that return or throw. -/
inductive Reachable (P : String → Option FormulaInterface) : Sheet → Prop
  | empty : Reachable P Sheet.empty
  | setCell {s s' : Sheet} (fuel : Nat) (pos : Position) (text : String) (o : Outcome Unit)
      (hs : Reachable P s) (hcall : Sheet.SetCell P fuel s pos text = some o)
      (hstate : o.state? = some s') : Reachable P s'
  | clearCell {s s' : Sheet} (pos : Position) (o : Outcome Unit)
      (hs : Reachable P s) (hcall : s.ClearCell pos = o)
      (hstate : o.state? = some s') : Reachable P s'

/-- The input is classified as Text (rule 2 of the classification): it is not
empty, and its first character is not `=` or it is exactly `"="`. -/
def IsTextInput (t : String) : Prop :=
  t ≠ "" ∧ (strFront t ≠ FORMULA_SIGN ∨ t = "=")

/-- The input is classified as a formula (rule 3): it begins with `=` and is
longer than one character. -/
def IsFormulaInput (t : String) : Prop :=
  strFront t = FORMULA_SIGN ∧ 1 < t.length

/-- The position A1. -/
def A1 : Position := ⟨0, 0⟩

/-- The position B1. -/
def B1 : Position := ⟨0, 1⟩

/-- The position A2. -/
def A2 : Position := ⟨1, 0⟩

/-- Modelled from the spec: a sample formula collaborator for the concrete runs. It
parses the expressions `A1`, `B1`, `A1+B1` and `1`, reports the positions they
read, and rejects every other string. -/
def sampleParse (str : String) : Option FormulaInterface :=
  if str = "A1" then some ⟨"A1", [A1]⟩
  else if str = "B1" then some ⟨"B1", [B1]⟩
  else if str = "A1+B1" then some ⟨"A1+B1", [A1, B1]⟩
  else if str = "1" then some ⟨"1", []⟩
  else none

/-- Modelled from the spec: a sample evaluation for the concrete runs; the
expression `1` evaluates to the number 1 and every other one to 0. -/
def sampleEvaluate (f : FormulaInterface) : FormulaValue :=
  if f.GetExpression = "1" then .number (.finite 1) else .number (.finite 0)

/-- The sheet after `SetCell(A1, "=B1")` on the empty sheet. -/
def sheetA1refB1 : Sheet :=
  { cells_dependencies_ := [(B1, [A1])]
    sheet_ := [[some ⟨.FormulaImpl ⟨"B1", [B1]⟩ none⟩, some ⟨.EmptyImpl⟩]]
    max_row_ := 1, max_col_ := 2, area_is_valid_ := true }

/-- The sheet after `SetCell(A1, "hello")` on the empty sheet. -/
def sheetA1hello : Sheet :=
  { cells_dependencies_ := []
    sheet_ := [[some ⟨.TextImpl "hello" false⟩]]
    max_row_ := 1, max_col_ := 1, area_is_valid_ := true }

/-- The sheet with an Empty cell at A1 and the reserved null slot at B1. -/
def sheetA1empty : Sheet :=
  { cells_dependencies_ := []
    sheet_ := [[some ⟨.EmptyImpl⟩, none]]
    max_row_ := 1, max_col_ := 1, area_is_valid_ := true }

/-- The sheet after `SetCell(B1, "=1")` on the empty sheet. -/
def sheetB1const : Sheet :=
  { cells_dependencies_ := []
    sheet_ := [[none, some ⟨.FormulaImpl ⟨"1", []⟩ none⟩]]
    max_row_ := 1, max_col_ := 2, area_is_valid_ := true }

/-- The sheet after the failing `SetCell(B1, "=A1+B1")` on `sheetB1const`. -/
def sheetB1const_A1empty : Sheet :=
  { cells_dependencies_ := []
    sheet_ := [[some ⟨.EmptyImpl⟩, some ⟨.FormulaImpl ⟨"1", []⟩ none⟩]]
    max_row_ := 1, max_col_ := 2, area_is_valid_ := true }

/-- Modelled from the spec: a sample formula collaborator whose canonical
expressions do not parse back to the formula they print: the expression `B1+0`
gives a formula that reads B1 and prints as `A1`, and the expression `A1` gives a
formula that reads A1. -/
def sampleParseAlias (str : String) : Option FormulaInterface :=
  if str = "B1+0" then some ⟨"A1", [B1]⟩
  else if str = "A1" then some ⟨"A1", [A1]⟩
  else none

/-- The sheet after `SetCell(A1, "=B1+0")` with the collaborator `sampleParseAlias`. -/
def sheetA1alias : Sheet :=
  { cells_dependencies_ := [(B1, [A1])]
    sheet_ := [[some ⟨.FormulaImpl ⟨"A1", [B1]⟩ none⟩, some ⟨.EmptyImpl⟩]]
    max_row_ := 1, max_col_ := 2, area_is_valid_ := true }

/-- The sheet after the failing `SetCell(A1, "=A1")` on `sheetA1alias`. -/
def sheetA1aliasSelf : Sheet :=
  { cells_dependencies_ := [(B1, [A1])]
    sheet_ := [[some ⟨.FormulaImpl ⟨"A1", [A1]⟩ none⟩, some ⟨.EmptyImpl⟩]]
    max_row_ := 1, max_col_ := 2, area_is_valid_ := true }

/-- The sheet after the failing `SetCell(B1, "=A1")` on `sheetA1refB1`. -/
def sheetA1refB1_noDeps : Sheet :=
  { cells_dependencies_ := []
    sheet_ := [[some ⟨.FormulaImpl ⟨"B1", [B1]⟩ none⟩, some ⟨.EmptyImpl⟩]]
    max_row_ := 1, max_col_ := 2, area_is_valid_ := true }

/-- The sheet after the failing `SetCell(A1, "=bad")` on `sheetA1hello`. -/
def sheetA1wiped : Sheet :=
  { cells_dependencies_ := []
    sheet_ := [[some ⟨.EmptyImpl⟩]]
    max_row_ := 1, max_col_ := 1, area_is_valid_ := true }

/-- The sheet after `SetCell(A1, "=B1")` and `ClearCell(A1)`. -/
def sheetA1cleared : Sheet :=
  { cells_dependencies_ := [(B1, [A1])]
    sheet_ := [[none, some ⟨.EmptyImpl⟩]]
    max_row_ := 1, max_col_ := 2, area_is_valid_ := true }

/-- A call of `GetValue()` as a step on the cell: the value returned and the cell
after the call. `Cell::GetValue` and `IGetValue` are `const` and assign no
member, so the cell after the call is the cell before it. -/
def Cell.callGetValue (Evaluate : FormulaInterface → FormulaValue) (c : Cell) : Value × Cell :=
  (c.GetValue Evaluate, c)

/-- The cell at `x` holds a formula that references `y`. -/
def Sheet.Refs (s : Sheet) (x y : Position) : Prop :=
  ∃ c, s.GetCell x = .ok (some c) ∧ y ∈ c.GetReferencedCells

/-- The cell at `x`, which is not `e`, holds a formula that references `y`: the edges
that the cycle probe for `e` follows. -/
def Sheet.RefsAvoiding (s : Sheet) (e x y : Position) : Prop :=
  x ≠ e ∧ s.Refs x y

/-- The position `e` is reached from one of `refs` along references of cells other
than `e`. -/
def Sheet.ReachesFrom (s : Sheet) (e : Position) (refs : List Position) : Prop :=
  ∃ r ∈ refs, Relation.ReflTransGen (s.RefsAvoiding e) r e

/-- The references of the cells other than `e` go to valid positions and strictly
decrease `rank`: these references form a directed acyclic graph. -/
def Sheet.Ranked (s : Sheet) (e : Position) (rank : Position → Nat) : Prop :=
  ∀ x y, s.RefsAvoiding e x y → rank y < rank x ∧ y.IsValid = true

/-- The sheet in which the cell at `pos` holds the content `nc` and every other
slot is as in `s`: the configuration that `SetCell` probes. -/
def Sheet.installed (s : Sheet) (pos : Position) (nc : Cell) : Sheet :=
  (s.Reserve pos).setSlot pos (some nc)

/-- The formula collaborator parses the canonical expression of every formula it
has produced. -/
def Reparses (P : String → Option FormulaInterface) : Prop :=
  ∀ str f, P str = some f → ∃ f', P f.GetExpression = some f'

/-- The sheet after `SetCell(A2, "x")` on the empty sheet. -/
def sheetA2x : Sheet :=
  { cells_dependencies_ := []
    sheet_ := [[], [some ⟨.TextImpl "x" false⟩]]
    max_row_ := 2, max_col_ := 1, area_is_valid_ := true }

/-- The sheet after `SetCell(A2, "x")` and `SetCell(A2, "")`. -/
def sheetA2blank : Sheet :=
  { cells_dependencies_ := []
    sheet_ := [[], [some ⟨.EmptyImpl⟩]]
    max_row_ := 2, max_col_ := 1, area_is_valid_ := true }

/-- The sheet after `SetCell(A1, "=B1")` and `SetCell(B1, "2")`. -/
def sheetA1refB1_B1two : Sheet :=
  { cells_dependencies_ := []
    sheet_ := [[some ⟨.FormulaImpl ⟨"B1", [B1]⟩ none⟩, some ⟨.TextImpl "2" false⟩]]
    max_row_ := 1, max_col_ := 2, area_is_valid_ := true }

/-- The sheet after `SetCell(A1, "=B1")` and `SetCell(A1, "5")`. -/
def sheetA1five : Sheet :=
  { cells_dependencies_ := [(B1, [A1])]
    sheet_ := [[some ⟨.TextImpl "5" false⟩, some ⟨.EmptyImpl⟩]]
    max_row_ := 1, max_col_ := 2, area_is_valid_ := true }

/-- The sheet after `SetCell(B1, "=A1")` on the empty sheet. -/
def sheetB1refA1 : Sheet :=
  { cells_dependencies_ := [(A1, [B1])]
    sheet_ := [[some ⟨.EmptyImpl⟩, some ⟨.FormulaImpl ⟨"A1", [A1]⟩ none⟩]]
    max_row_ := 1, max_col_ := 2, area_is_valid_ := true }

/-- The sheet after `SetCell(B1, "=A1")` and `SetCell(B1, "1")`. -/
def sheetB1one : Sheet :=
  { cells_dependencies_ := [(A1, [B1])]
    sheet_ := [[some ⟨.EmptyImpl⟩, some ⟨.TextImpl "1" false⟩]]
    max_row_ := 1, max_col_ := 2, area_is_valid_ := true }

/-- The sheet after `SetCell(B1, "=A1")`, `SetCell(B1, "1")` and `ClearCell(A1)`. -/
def sheetB1one_A1cleared : Sheet :=
  { cells_dependencies_ := [(A1, [B1])]
    sheet_ := [[none, some ⟨.TextImpl "1" false⟩]]
    max_row_ := 1, max_col_ := 2, area_is_valid_ := true }

/-- The sheet after `SetCell(B1, "=A1")`, `SetCell(B1, "1")`, `ClearCell(A1)` and
`SetCell(A1, "=B1")`: its stored dependency graph has the cycle A1 -> B1 -> A1. -/
def sheetStoredCycle : Sheet :=
  { cells_dependencies_ := [(A1, [B1]), (B1, [A1])]
    sheet_ := [[some ⟨.FormulaImpl ⟨"B1", [B1]⟩ none⟩, some ⟨.TextImpl "1" false⟩]]
    max_row_ := 1, max_col_ := 2, area_is_valid_ := true }

/-- The field of the slot `(r, c)` in the printed texts: the text of the cell, and
the empty string when the slot holds no cell. -/
def Sheet.textField (s : Sheet) (r c : Nat) : String :=
  match s.slot r c with
  | some cell => cell.GetText
  | none => ""

/-- The fields, each preceded by a tab. -/
def tabbedFields : List String → String
  | [] => ""
  | f :: rest => "\t" ++ f ++ tabbedFields rest

/-- The fields of a row joined by single tabs. -/
def joinTabs : List String → String
  | [] => ""
  | f :: rest => f ++ tabbedFields rest

/-- The rows, each joined by tabs and followed by one newline, one after the other. -/
def joinRows : List (List String) → String
  | [] => ""
  | fields :: rest => joinTabs fields ++ "\n" ++ joinRows rest

/-- The printed texts of the spec for the printable size `(R, C)`: for the rows
`0 .. R-1` in order, the `C` fields of the row joined by tabs, then a newline. -/
def Sheet.printedTexts (s : Sheet) (R C : Nat) : String :=
  joinRows ((List.range R).map fun r => (List.range C).map fun c => s.textField r c)

/-- The sheet after `SetCell(A1, "")` on the empty sheet. -/
def sheetA1blank : Sheet :=
  { cells_dependencies_ := []
    sheet_ := [[some ⟨.EmptyImpl⟩]]
    max_row_ := 1, max_col_ := 1, area_is_valid_ := true }

/-- Every reference of a stored cell goes to a valid position. -/
def Sheet.RefsValid (s : Sheet) : Prop :=
  ∀ x y, s.Refs x y → y.IsValid = true

/-- The formula collaborator reports only valid positions as referenced cells. -/
def ValidRefs (P : String → Option FormulaInterface) : Prop :=
  ∀ str f, P str = some f → ∀ r ∈ f.GetReferencedCells, r.IsValid = true

/-- The formula collaborator parses the canonical expression of a formula it has
produced back to that formula. -/
def CanonicalFixed (P : String → Option FormulaInterface) : Prop :=
  ∀ str f, P str = some f → P f.GetExpression = some f

/-- The reference graph of the sheet has no cycle. -/
def Sheet.Acyclic (s : Sheet) : Prop :=
  ∀ x, ¬ Relation.TransGen s.Refs x x

/-- How `SetCell` ends on the existing-cell path after the cycle probe has ended
with `probed`. -/
def Sheet.finishExisting (P : String → Option FormulaInterface) (pos : Position)
    (old_text : String) (new_content : Cell) : Outcome Bool → Outcome Unit
  | .returned true s5 =>
      match Cell.Set P old_text with
      | .error e => .threw e s5
      | .ok restored => .threw .CircularDependencyException (s5.setSlot pos (some restored))
  | .returned false s5 => .returned () (s5.addReferences new_content.GetReferencedCells pos)
  | .threw e s5 => .threw e s5
  | .undefined => .undefined

/-- How `SetCell` ends on the new-cell path after the cycle probe has ended with
`probed`. -/
def Sheet.finishNew (pos : Position) (new_cell : Cell) : Outcome Bool → Outcome Unit
  | .returned true s1 => .threw .CircularDependencyException s1
  | .returned false s1 =>
      .returned ()
        ((s1.addReferences new_cell.GetReferencedCells pos).setSlot pos (some new_cell)).UpdatePrintableSize
  | .threw e s1 => .threw e s1
  | .undefined => .undefined

/-! ## Lemmas and theorems -/

theorem getD_nil_length {α : Type} (l : List (List α)) (r : Nat) (h : l.length ≤ r) :
    (l.getD r []).length = 0 := by
  simp [List.getD_eq_getElem?_getD, List.getElem?_eq_none h]

theorem Sheet.slot_eq_none_of_not_inRange (s : Sheet) (r c : Nat) (h : ¬ s.InRange r c) :
    s.slot r c = none := by
  unfold Sheet.InRange at h
  unfold Sheet.slot
  by_cases h1 : r < s.sheet_.length
  · have h2 : (s.rowAt r).length ≤ c := by
      by_contra hc; exact h ⟨h1, by omega⟩
    simp [List.getD_eq_getElem?_getD, List.getElem?_eq_none h2]
  · have : s.rowAt r = [] := by
      unfold Sheet.rowAt
      simp [List.getD_eq_getElem?_getD, List.getElem?_eq_none (Nat.le_of_not_lt h1)]
    simp [this]

theorem Sheet.inRange_of_slot (s : Sheet) (r c : Nat) (x : Cell) (h : s.slot r c = some x) :
    s.InRange r c := by
  by_contra hn
  rw [s.slot_eq_none_of_not_inRange r c hn] at h
  exact absurd h (by simp)

theorem Sheet.rowAt_setSlot (s : Sheet) (p : Position) (v : Option Cell) (r : Nat) :
    (s.setSlot p v).rowAt r =
      if r = p.row.toNat then (s.rowAt r).set p.col.toNat v else s.rowAt r := by
  unfold Sheet.setSlot Sheet.rowAt
  simp only [List.getD_eq_getElem?_getD, List.getElem?_set]
  by_cases h : p.row.toNat = r
  · subst h
    by_cases h2 : p.row.toNat < s.sheet_.length
    · simp [h2]
    · simp [h2, List.getElem?_eq_none (Nat.le_of_not_lt h2)]
  · have h' : ¬ r = p.row.toNat := fun e => h e.symm
    simp [h, h']

theorem Sheet.length_setSlot (s : Sheet) (p : Position) (v : Option Cell) :
    (s.setSlot p v).sheet_.length = s.sheet_.length := by
  simp [Sheet.setSlot]

theorem Sheet.slot_setSlot (s : Sheet) (p : Position) (v : Option Cell) (r c : Nat) :
    (s.setSlot p v).slot r c =
      if r = p.row.toNat ∧ c = p.col.toNat ∧ s.InRange r c then v else s.slot r c := by
  unfold Sheet.slot Sheet.InRange
  rw [Sheet.rowAt_setSlot]
  by_cases h : r = p.row.toNat
  · subst h
    simp only [if_true, true_and]
    by_cases h2 : c = p.col.toNat
    · subst h2
      by_cases h3 : p.col.toNat < (s.rowAt p.row.toNat).length
      · by_cases h4 : p.row.toNat < s.sheet_.length
        · simp [List.getD_eq_getElem?_getD, h3, h4]
        · exfalso
          have := getD_nil_length s.sheet_ p.row.toNat (Nat.le_of_not_lt h4)
          unfold Sheet.rowAt at h3
          omega
      · have e1 : ((s.rowAt p.row.toNat).set p.col.toNat v)[p.col.toNat]? = none :=
          List.getElem?_eq_none (by simpa using Nat.le_of_not_lt h3)
        simp [List.getD_eq_getElem?_getD, h3, e1, List.getElem?_eq_none (Nat.le_of_not_lt h3)]
    · have h2' : ¬ p.col.toNat = c := fun e => h2 e.symm
      simp [List.getD_eq_getElem?_getD, List.getElem?_set, h2, h2']
  · simp [h]

theorem Sheet.inRange_setSlot (s : Sheet) (p : Position) (v : Option Cell) (r c : Nat) :
    (s.setSlot p v).InRange r c ↔ s.InRange r c := by
  unfold Sheet.InRange
  rw [Sheet.rowAt_setSlot, Sheet.length_setSlot]
  by_cases h : r = p.row.toNat
  · simp [h]
  · simp [h]

theorem getD_vecResize_rows {α : Type} (l : List (List α)) (n r : Nat) (h : l.length < n) :
    (vecResize l n []).getD r [] = l.getD r [] := by
  unfold vecResize
  rw [List.take_of_length_le (Nat.le_of_lt h)]
  simp only [List.getD_eq_getElem?_getD]
  by_cases hr : r < l.length
  · rw [List.getElem?_append_left hr]
  · rw [List.getElem?_append_right (Nat.le_of_not_lt hr), List.getElem?_eq_none (Nat.le_of_not_lt hr)]
    by_cases h2 : r - l.length < n - l.length
    · simp [List.getElem?_replicate, h2]
    · simp [List.getElem?_replicate, h2]

theorem length_vecResize {α : Type} (l : List α) (n : Nat) (d : α) :
    (vecResize l n d).length = n := by
  unfold vecResize
  simp
  omega

theorem getD_vecResize_cols {α : Type} (l : List (Option α)) (n c : Nat) (h : l.length < n) :
    (vecResize l n none).getD c none = l.getD c none := by
  unfold vecResize
  rw [List.take_of_length_le (Nat.le_of_lt h)]
  simp only [List.getD_eq_getElem?_getD]
  by_cases hr : c < l.length
  · rw [List.getElem?_append_left hr]
  · rw [List.getElem?_append_right (Nat.le_of_not_lt hr), List.getElem?_eq_none (Nat.le_of_not_lt hr)]
    by_cases h2 : c - l.length < n - l.length
    · simp [List.getElem?_replicate, h2]
    · simp [List.getElem?_replicate, h2]

theorem Position.IsValid_iff (p : Position) :
    p.IsValid = true ↔ 0 ≤ p.row ∧ 0 ≤ p.col ∧ p.row < Position.MAX_ROWS ∧ p.col < Position.MAX_COLS := by
  unfold Position.IsValid
  simp only [Bool.and_eq_true, decide_eq_true_eq]
  tauto

theorem Sheet.Reserve_eq (s : Sheet) (pos : Position) (h : pos.IsValid = true) :
    s.Reserve pos =
      if (((s.reserveRows pos).rowAt pos.row.toNat).length : Int) < pos.col + 1 then
        { (s.reserveRows pos) with sheet_ := (s.reserveRows pos).sheet_.set pos.row.toNat (vecResize ((s.reserveRows pos).rowAt pos.row.toNat) (pos.col + 1).toNat none) }
      else s.reserveRows pos := by
  unfold Sheet.Reserve Sheet.reserveRows
  simp [h]

theorem Sheet.rowAt_reserveRows (s : Sheet) (pos : Position) (r : Nat) :
    (s.reserveRows pos).rowAt r = s.rowAt r := by
  unfold Sheet.reserveRows
  split
  · rename_i h
    unfold Sheet.rowAt
    exact getD_vecResize_rows _ _ _ (by omega)
  · rfl

theorem Sheet.length_reserveRows (s : Sheet) (pos : Position) (h : 0 ≤ pos.row) :
    pos.row.toNat < (s.reserveRows pos).sheet_.length ∧
      s.sheet_.length ≤ (s.reserveRows pos).sheet_.length := by
  unfold Sheet.reserveRows
  split
  · rename_i h1
    simp only [length_vecResize]
    omega
  · rename_i h1
    omega

theorem Sheet.rowAt_Reserve (s : Sheet) (pos : Position) (h : pos.IsValid = true) (r : Nat) :
    (s.Reserve pos).rowAt r =
      if r = pos.row.toNat ∧ ((s.rowAt r).length : Int) < pos.col + 1 then
        vecResize (s.rowAt r) (pos.col + 1).toNat none
      else s.rowAt r := by
  have hv := (Position.IsValid_iff pos).1 h
  rw [Sheet.Reserve_eq s pos h]
  have hl := s.length_reserveRows pos hv.1
  by_cases hc : (((s.reserveRows pos).rowAt pos.row.toNat).length : Int) < pos.col + 1
  · rw [if_pos hc]
    rw [Sheet.rowAt_reserveRows] at hc ⊢
    by_cases hr : r = pos.row.toNat
    · subst hr
      rw [if_pos ⟨rfl, hc⟩]
      unfold Sheet.rowAt
      simp [List.getD_eq_getElem?_getD, hl.1]
    · have hr' : ¬ pos.row.toNat = r := fun e => hr e.symm
      rw [if_neg (fun hh => hr hh.1)]
      rw [← Sheet.rowAt_reserveRows s pos r]
      unfold Sheet.rowAt
      simp [List.getD_eq_getElem?_getD, List.getElem?_set, hr']
  · rw [if_neg hc, Sheet.rowAt_reserveRows]
    rw [Sheet.rowAt_reserveRows] at hc
    by_cases hr : r = pos.row.toNat
    · subst hr
      rw [if_neg (fun hh => hc hh.2)]
    · rw [if_neg (fun hh => hr hh.1)]

theorem Sheet.length_Reserve (s : Sheet) (pos : Position) (h : pos.IsValid = true) :
    pos.row.toNat < (s.Reserve pos).sheet_.length ∧
      s.sheet_.length ≤ (s.Reserve pos).sheet_.length := by
  have hv := (Position.IsValid_iff pos).1 h
  rw [Sheet.Reserve_eq s pos h]
  have hl := s.length_reserveRows pos hv.1
  split
  · simpa using hl
  · exact hl

theorem Sheet.slot_Reserve (s : Sheet) (pos : Position) (r c : Nat) :
    (s.Reserve pos).slot r c = s.slot r c := by
  by_cases h : pos.IsValid = true
  · unfold Sheet.slot
    rw [Sheet.rowAt_Reserve s pos h]
    split
    · rename_i hh
      exact getD_vecResize_cols _ _ _ (by omega)
    · rfl
  · unfold Sheet.Reserve
    simp [h]

theorem Sheet.inRange_Reserve_self (s : Sheet) (pos : Position) (h : pos.IsValid = true) :
    (s.Reserve pos).InRange pos.row.toNat pos.col.toNat := by
  have hv := (Position.IsValid_iff pos).1 h
  refine ⟨(s.length_Reserve pos h).1, ?_⟩
  rw [Sheet.rowAt_Reserve s pos h]
  split
  · rw [length_vecResize]; omega
  · rename_i hh
    simp only [true_and] at hh
    omega

theorem Sheet.inRange_Reserve_mono (s : Sheet) (pos : Position) (r c : Nat)
    (hr : s.InRange r c) : (s.Reserve pos).InRange r c := by
  by_cases h : pos.IsValid = true
  · refine ⟨Nat.lt_of_lt_of_le hr.1 (s.length_Reserve pos h).2, ?_⟩
    rw [Sheet.rowAt_Reserve s pos h]
    split
    · rename_i hh
      rw [length_vecResize]
      have := hr.2
      omega
    · exact hr.2
  · unfold Sheet.Reserve
    simpa [h] using hr

theorem Sheet.reserveRows_fields (s : Sheet) (pos : Position) :
    (s.reserveRows pos).cells_dependencies_ = s.cells_dependencies_ ∧
      (s.reserveRows pos).max_row_ = s.max_row_ ∧ (s.reserveRows pos).max_col_ = s.max_col_ ∧
      (s.reserveRows pos).area_is_valid_ = s.area_is_valid_ := by
  unfold Sheet.reserveRows
  split <;> simp

theorem Sheet.Reserve_fields (s : Sheet) (pos : Position) :
    (s.Reserve pos).cells_dependencies_ = s.cells_dependencies_ ∧
      (s.Reserve pos).max_row_ = s.max_row_ ∧ (s.Reserve pos).max_col_ = s.max_col_ ∧
      (s.Reserve pos).area_is_valid_ = s.area_is_valid_ := by
  by_cases h : pos.IsValid = true
  · rw [Sheet.Reserve_eq s pos h]
    split
    · exact s.reserveRows_fields pos
    · exact s.reserveRows_fields pos
  · unfold Sheet.Reserve
    simp [h]

theorem Sheet.GetCell_eq (s : Sheet) (pos : Position) (h : pos.IsValid = true) :
    s.GetCell pos = .ok (s.slot pos.row.toNat pos.col.toNat) := by
  have hv := (Position.IsValid_iff pos).1 h
  unfold Sheet.GetCell
  simp only [h, Bool.not_true, Bool.false_eq_true, if_false]
  by_cases he : s.CellExists pos = true
  · simp only [he, if_true]
    cases s.slot pos.row.toNat pos.col.toNat <;> rfl
  · simp only [he, if_false, Bool.false_eq_true]
    have : ¬ s.InRange pos.row.toNat pos.col.toNat := by
      intro hr
      apply he
      unfold Sheet.CellExists
      unfold Sheet.InRange at hr
      simp only [Bool.and_eq_true, decide_eq_true_eq]
      omega
    rw [s.slot_eq_none_of_not_inRange _ _ this]

theorem Sheet.GetCell_invalid (s : Sheet) (pos : Position) (h : pos.IsValid = false) :
    s.GetCell pos = .error .InvalidPositionException := by
  unfold Sheet.GetCell
  simp [h]

theorem Sheet.CellExists_iff (s : Sheet) (pos : Position) (h : pos.IsValid = true) :
    s.CellExists pos = true ↔ s.InRange pos.row.toNat pos.col.toNat := by
  have hv := (Position.IsValid_iff pos).1 h
  unfold Sheet.CellExists Sheet.InRange
  simp only [Bool.and_eq_true, decide_eq_true_eq]
  omega

theorem IsMaxOver.congr {S S' : Nat → Nat → Prop} {R C : Int}
    (h : IsMaxOver S R C) (hS : ∀ r c, S' r c ↔ S r c) : IsMaxOver S' R C := by
  obtain ⟨h1, h2, h3⟩ := h
  refine ⟨fun r c hs => h1 r c ((hS r c).1 hs), ?_, ?_⟩
  · rcases h2 with h2 | ⟨r, c, hs, e⟩
    · exact Or.inl h2
    · exact Or.inr ⟨r, c, (hS r c).2 hs, e⟩
  · rcases h3 with h3 | ⟨r, c, hs, e⟩
    · exact Or.inl h3
    · exact Or.inr ⟨r, c, (hS r c).2 hs, e⟩

theorem IsMaxOver.nonneg {S : Nat → Nat → Prop} {R C : Int} (h : IsMaxOver S R C) :
    0 ≤ R ∧ 0 ≤ C := by
  obtain ⟨_, h2, h3⟩ := h
  constructor
  · rcases h2 with h2 | ⟨r, c, _, e⟩ <;> omega
  · rcases h3 with h3 | ⟨r, c, _, e⟩ <;> omega

theorem IsMaxOver.insert {S S' : Nat → Nat → Prop} {R C : Int} (x y : Nat)
    (h : IsMaxOver S R C) (hS : ∀ r c, S' r c ↔ (S r c ∨ (r = x ∧ c = y))) :
    IsMaxOver S' (max R ((x : Int) + 1)) (max C ((y : Int) + 1)) := by
  have hn := h.nonneg
  obtain ⟨h1, h2, h3⟩ := h
  have hxy : S' x y := (hS x y).2 (Or.inr ⟨rfl, rfl⟩)
  refine ⟨?_, ?_, ?_⟩
  · intro r c hs
    rcases (hS r c).1 hs with hs | ⟨rfl, rfl⟩
    · have := h1 r c hs
      omega
    · omega
  · right
    by_cases hle : R ≤ (x : Int) + 1
    · exact ⟨x, y, hxy, by omega⟩
    · rcases h2 with h2 | ⟨r, c, hs, e⟩
      · omega
      · exact ⟨r, c, (hS r c).2 (Or.inl hs), by omega⟩
  · right
    by_cases hle : C ≤ (y : Int) + 1
    · exact ⟨x, y, hxy, by omega⟩
    · rcases h3 with h3 | ⟨r, c, hs, e⟩
      · omega
      · exact ⟨r, c, (hS r c).2 (Or.inl hs), by omega⟩

theorem IsMaxOver.mono {S S' : Nat → Nat → Prop} {R C R' C' : Int}
    (h : IsMaxOver S R C) (h' : IsMaxOver S' R' C') (hS : ∀ r c, S r c → S' r c) :
    R ≤ R' ∧ C ≤ C' := by
  have hn := h'.nonneg
  obtain ⟨_, h2, h3⟩ := h
  obtain ⟨k1, _, _⟩ := h'
  constructor
  · rcases h2 with h2 | ⟨r, c, hs, e⟩
    · omega
    · have := k1 r c (hS r c hs)
      omega
  · rcases h3 with h3 | ⟨r, c, hs, e⟩
    · omega
    · have := k1 r c (hS r c hs)
      omega

theorem IsMaxOver.unique {S : Nat → Nat → Prop} {R C R' C' : Int}
    (h : IsMaxOver S R C) (h' : IsMaxOver S R' C') : R = R' ∧ C = C' := by
  have a := h.mono h' (fun _ _ x => x)
  have b := h'.mono h (fun _ _ x => x)
  omega

theorem Sheet.scanRow_spec (s : Sheet) (x : Nat) (acc : Int × Int) (m : Nat)
    (h : IsMaxOver (fun r c => (s.slot r c).isSome = true ∧ r < x) acc.1 acc.2) :
    IsMaxOver (fun r c => (s.slot r c).isSome = true ∧ (r < x ∨ (r = x ∧ c < m)))
      ((List.range m).foldl
        (fun a y => if (s.slot x y).isSome then (max a.1 ((x : Int) + 1), max a.2 ((y : Int) + 1)) else a)
        acc).1
      ((List.range m).foldl
        (fun a y => if (s.slot x y).isSome then (max a.1 ((x : Int) + 1), max a.2 ((y : Int) + 1)) else a)
        acc).2 := by
  induction m with
  | zero =>
      simp only [List.range_zero, List.foldl_nil]
      exact h.congr (fun r c => by constructor <;> intro hh <;> [exact ⟨hh.1, by omega⟩; exact ⟨hh.1, by omega⟩])
  | succ m ih =>
      rw [List.range_succ, List.foldl_append]
      simp only [List.foldl_cons, List.foldl_nil]
      by_cases hp : (s.slot x m).isSome = true
      · rw [if_pos hp]
        refine ih.insert x m (fun r c => ?_)
        constructor
        · rintro ⟨h1, h2⟩
          by_cases hc : r = x ∧ c = m
          · exact Or.inr hc
          · exact Or.inl ⟨h1, by omega⟩
        · rintro (⟨h1, h2⟩ | ⟨rfl, rfl⟩)
          · exact ⟨h1, by omega⟩
          · exact ⟨hp, by omega⟩
      · rw [if_neg hp]
        refine ih.congr (fun r c => ?_)
        constructor
        · rintro ⟨h1, h2⟩
          refine ⟨h1, ?_⟩
          by_cases hc : r = x ∧ c = m
          · obtain ⟨rfl, rfl⟩ := hc
            exact absurd h1 hp
          · omega
        · rintro ⟨h1, h2⟩
          exact ⟨h1, by omega⟩

theorem Sheet.scanRows_spec (s : Sheet) (n : Nat) :
    IsMaxOver (fun r c => (s.slot r c).isSome = true ∧ r < n)
      ((List.range n).foldl (fun a x => s.scanRow x a) ((0 : Int), (0 : Int))).1
      ((List.range n).foldl (fun a x => s.scanRow x a) ((0 : Int), (0 : Int))).2 := by
  induction n with
  | zero =>
      simp only [List.range_zero, List.foldl_nil]
      exact ⟨fun r c hh => by omega, Or.inl rfl, Or.inl rfl⟩
  | succ n ih =>
      rw [List.range_succ, List.foldl_append]
      simp only [List.foldl_cons, List.foldl_nil]
      have := s.scanRow_spec n _ (s.rowAt n).length ih
      refine IsMaxOver.congr this (fun r c => ?_)
      constructor
      · rintro ⟨h1, h2⟩
        refine ⟨h1, ?_⟩
        by_cases hr : r < n
        · exact Or.inl hr
        · right
          have e : r = n := by omega
          subst e
          refine ⟨rfl, ?_⟩
          obtain ⟨v, hv⟩ := Option.isSome_iff_exists.1 h1
          exact (s.inRange_of_slot r c v hv).2
      · rintro ⟨h1, h2⟩
        exact ⟨h1, by omega⟩

theorem Sheet.UpdatePrintableSize_slot (s : Sheet) (r c : Nat) :
    s.UpdatePrintableSize.slot r c = s.slot r c := rfl

theorem Sheet.UpdatePrintableSize_spec (s : Sheet) :
    s.UpdatePrintableSize.area_is_valid_ = true ∧
      s.UpdatePrintableSize.IsBoundingBox s.UpdatePrintableSize.max_row_
        s.UpdatePrintableSize.max_col_ := by
  refine ⟨rfl, ?_⟩
  unfold Sheet.IsBoundingBox
  have := s.scanRows_spec s.sheet_.length
  refine IsMaxOver.congr this (fun r c => ?_)
  rw [Sheet.UpdatePrintableSize_slot]
  constructor
  · intro h1
    refine ⟨h1, ?_⟩
    obtain ⟨v, hv⟩ := Option.isSome_iff_exists.1 h1
    exact (s.inRange_of_slot r c v hv).1
  · exact fun h => h.1

theorem Outcome.Via.weaken {α : Type} {R R' : Sheet → Prop} {o : Outcome α}
    (h : o.Via R) (hR : ∀ x, R x → R' x) : o.Via R' := by
  cases o with
  | returned a s => exact hR _ h
  | threw ex s => exact ⟨h.1, hR _ h.2⟩
  | undefined => trivial

theorem Sheet.GetCell_error (s : Sheet) (pos : Position) (ex : Exception)
    (h : s.GetCell pos = .error ex) : ex = .InvalidPositionException := by
  unfold Sheet.GetCell at h
  split at h
  · cases h; rfl
  · split at h
    · split at h <;> cases h
    · cases h

theorem Materialised.chain {e : Position} {a b c : Sheet}
    (h1 : Materialised e a b) (h2 : Materialised e b c) : Materialised e a c := by
  induction h1 with
  | refl => exact h2
  | step r hne hv hnull _ ih => exact .step r hne hv hnull (ih h2)

theorem Sheet.GetCell_ok_valid (s : Sheet) (pos : Position) (x : Option Cell)
    (h : s.GetCell pos = .ok x) : pos.IsValid = true := by
  by_contra hv
  have hv' : pos.IsValid = false := by simpa using hv
  rw [s.GetCell_invalid pos hv'] at h
  cases h

theorem Sheet.GetCell_ok_slot (s : Sheet) (pos : Position) (x : Option Cell)
    (h : s.GetCell pos = .ok x) : s.slot pos.row.toNat pos.col.toNat = x := by
  have hv := s.GetCell_ok_valid pos x h
  rw [s.GetCell_eq pos hv] at h
  cases h
  rfl

theorem Cell.Set_empty (P : String → Option FormulaInterface) :
    Cell.Set P "" = .ok ⟨.EmptyImpl⟩ := rfl

theorem Sheet.SetCellWith_materialise (P : String → Option FormulaInterface)
    (inv : Sheet → Position → Option (Outcome Unit)) (fuel : Nat) (s : Sheet) (r : Position)
    (hn : s.GetCell r = .ok none) (o : Outcome Unit)
    (h : Sheet.SetCellWith P inv (fun s2 c st e => Cell.IsCyclicDependent P fuel s2 c st e) s r ""
      = some o) :
    o = .returned () (s.materialise r) := by
  have hv := s.GetCell_ok_valid r none hn
  have hs := s.GetCell_ok_slot r none hn
  have h0 : (s.Reserve r).GetCell r = .ok none := by
    rw [Sheet.GetCell_eq _ r hv, Sheet.slot_Reserve, hs]
  unfold Sheet.SetCellWith at h
  simp only [hv, Bool.not_true, Bool.false_eq_true, if_false, h0, Cell.Set_empty] at h
  cases fuel with
  | zero => simp [Cell.IsCyclicDependent] at h
  | succ k =>
      simp only [Cell.IsCyclicDependent, Cell.GetReferencedCells, Impl.IGetReferencedCells,
        probeLoop, Sheet.addReferences, List.foldl_nil, Option.some.injEq] at h
      rw [← h]
      rfl

theorem probeLoop_materialised
    (setCell : Sheet → Position → String → Option (Outcome Unit))
    (recur : Sheet → Cell → Option (Outcome Bool))
    (start : Option Position) (e : Position)
    (hset : ∀ s r, s.GetCell r = .ok none → ∀ o, setCell s r "" = some o →
      o = .returned () (s.materialise r))
    (hrec : ∀ s c o, recur s c = some o → o.Via (Materialised e s)) :
    ∀ (refs : List Position) (s : Sheet) (o : Outcome Bool),
      probeLoop setCell recur start e refs s = some o → o.Via (Materialised e s) := by
  intro refs
  induction refs with
  | nil =>
      intro s o h
      simp only [probeLoop, Option.some.injEq] at h
      subst h
      exact .refl _
  | cons r rest ih =>
      intro s o h
      simp only [probeLoop] at h
      split at h
      · simp only [Option.some.injEq] at h
        subst h
        exact .refl _
      · rename_i hne
        split at h
        · rename_i ex hg
          simp only [Option.some.injEq] at h
          subst h
          exact ⟨s.GetCell_error r ex hg, .refl _⟩
        · split at h
          · simp only [Option.some.injEq] at h
            subst h
            exact .refl _
          · split at h
            · rename_i s1 hr
              simp only [Option.some.injEq] at h
              subst h
              exact hrec _ _ _ hr
            · rename_i s1 hr
              have m1 : Materialised e s s1 := hrec _ _ _ hr
              exact (ih s1 o h).weaken (fun x hx => m1.chain hx)
            · exact hrec _ _ _ h
        · rename_i hg
          have hv := s.GetCell_ok_valid r none hg
          have hsl := s.GetCell_ok_slot r none hg
          split at h
          · rename_i u s1 hsc
            have e1 := hset s r hg _ hsc
            simp only [Outcome.returned.injEq] at e1
            obtain ⟨_, rfl⟩ := e1
            have m1 : Materialised e s (s.materialise r) :=
              .step r hne hv hsl (.refl _)
            split at h
            · rename_i ex hg2
              simp only [Option.some.injEq] at h
              subst h
              exact ⟨Sheet.GetCell_error _ r ex hg2, m1⟩
            · simp only [Option.some.injEq] at h
              subst h
              trivial
            · split at h
              · simp only [Option.some.injEq] at h
                subst h
                exact m1
              · split at h
                · rename_i s2 hr
                  simp only [Option.some.injEq] at h
                  subst h
                  have m2 : Materialised e _ s2 := hrec _ _ _ hr
                  exact m1.chain m2
                · rename_i s2 hr
                  have m2 : Materialised e _ s2 := hrec _ _ _ hr
                  exact (ih s2 o h).weaken (fun x hx => m1.chain (m2.chain hx))
                · exact (hrec _ _ _ h).weaken (fun x hx => m1.chain hx)
          · rename_i ex s1 hsc
            have e1 := hset s r hg _ hsc
            cases e1
          · rename_i hsc
            have e1 := hset s r hg _ hsc
            cases e1
          · cases h

theorem Cell.IsCyclicDependent_materialised (P : String → Option FormulaInterface) :
    ∀ (fuel : Nat) (s : Sheet) (this : Cell) (start : Option Position) (e : Position)
      (o : Outcome Bool), Cell.IsCyclicDependent P fuel s this start e = some o →
      o.Via (Materialised e s) := by
  intro fuel
  induction fuel with
  | zero =>
      intro s this start e o h
      simp [Cell.IsCyclicDependent] at h
  | succ k ih =>
      intro s this start e o h
      simp only [Cell.IsCyclicDependent] at h
      refine probeLoop_materialised _ _ start e ?_ ?_ _ s o h
      · intro s1 r hn o1 h1
        exact Sheet.SetCellWith_materialise P _ k s1 r hn o1 h1
      · intro s1 c o1 h1
        exact ih s1 c start e o1 h1

theorem Invalidated.compose {a b c : Sheet}
    (h1 : Invalidated a b) (h2 : Invalidated b c) : Invalidated a c := by
  induction h1 with
  | refl => exact h2
  | step d cell hv hcell _ ih => exact .step d cell hv hcell (ih h2)

theorem invalidateLoop_invalidated (recur : Sheet → Position → Option (Outcome Unit))
    (hrec : ∀ s p o, recur s p = some o → o.Via (Invalidated s)) :
    ∀ (deps : List Position) (s : Sheet) (o : Outcome Unit),
      invalidateLoop recur deps s = some o → o.Via (Invalidated s) := by
  intro deps
  induction deps with
  | nil =>
      intro s o h
      simp only [invalidateLoop, Option.some.injEq] at h
      subst h
      exact .refl _
  | cons d rest ih =>
      intro s o h
      simp only [invalidateLoop] at h
      split at h
      · rename_i ex hg
        simp only [Option.some.injEq] at h
        subst h
        exact ⟨s.GetCell_error d ex hg, .refl _⟩
      · simp only [Option.some.injEq] at h
        subst h
        trivial
      · rename_i cell hg
        have hv := s.GetCell_ok_valid d _ hg
        have hsl := s.GetCell_ok_slot d _ hg
        have m1 : Invalidated s (s.setSlot d (some cell.InvalidateCache)) :=
          .step d cell hv hsl (.refl _)
        split at h
        · rename_i u s1 hr
          have m2 : Invalidated _ s1 := hrec _ _ _ hr
          exact (ih s1 o h).weaken (fun x hx => m1.compose (m2.compose hx))
        · exact (hrec _ _ _ h).weaken (fun x hx => m1.compose hx)

theorem Sheet.InvalidateCellCash_invalidated :
    ∀ (fuel : Nat) (s : Sheet) (pos : Position) (o : Outcome Unit),
      Sheet.InvalidateCellCash fuel s pos = some o → o.Via (Invalidated s) := by
  intro fuel
  induction fuel with
  | zero =>
      intro s pos o h
      simp [Sheet.InvalidateCellCash] at h
  | succ k ih =>
      intro s pos o h
      simp only [Sheet.InvalidateCellCash] at h
      exact invalidateLoop_invalidated _ (fun s1 p o1 h1 => ih s1 p o1 h1) _ s o h

theorem Position.toNat_ne {a b : Position} (ha : a.IsValid = true) (hb : b.IsValid = true)
    (h : a ≠ b) : ¬ (a.row.toNat = b.row.toNat ∧ a.col.toNat = b.col.toNat) := by
  have va := (Position.IsValid_iff a).1 ha
  have vb := (Position.IsValid_iff b).1 hb
  intro hh
  apply h
  cases a; cases b
  simp only [Position.mk.injEq]
  simp only at va vb hh
  omega

theorem Sheet.slot_materialise (s : Sheet) (p : Position) (hv : p.IsValid = true) (r c : Nat) :
    (s.materialise p).slot r c =
      if r = p.row.toNat ∧ c = p.col.toNat then some ⟨.EmptyImpl⟩ else s.slot r c := by
  unfold Sheet.materialise
  rw [Sheet.UpdatePrintableSize_slot, Sheet.slot_setSlot, Sheet.slot_Reserve]
  by_cases h : r = p.row.toNat ∧ c = p.col.toNat
  · obtain ⟨rfl, rfl⟩ := h
    simp [s.inRange_Reserve_self p hv]
  · have : ¬ (r = p.row.toNat ∧ c = p.col.toNat ∧ (s.Reserve p).InRange r c) :=
      fun hh => h ⟨hh.1, hh.2.1⟩
    rw [if_neg this, if_neg h]

theorem Sheet.inRange_materialise (s : Sheet) (p : Position) (r c : Nat)
    (h : s.InRange r c) : (s.materialise p).InRange r c := by
  unfold Sheet.materialise
  have h1 := s.inRange_Reserve_mono p r c h
  have h2 := ((s.Reserve p).inRange_setSlot p (some ⟨.EmptyImpl⟩) r c).2 h1
  exact h2

theorem Sheet.deps_materialise (s : Sheet) (p : Position) :
    (s.materialise p).cells_dependencies_ = s.cells_dependencies_ := by
  unfold Sheet.materialise Sheet.UpdatePrintableSize Sheet.setSlot
  exact (s.Reserve_fields p).1

theorem Sheet.AreaOk_materialise (s : Sheet) (p : Position) : (s.materialise p).AreaOk :=
  Sheet.UpdatePrintableSize_spec _

theorem Materialised.slot_some {e : Position} {s s' : Sheet} (h : Materialised e s s')
    (r c : Nat) (x : Cell) (hx : s.slot r c = some x) : s'.slot r c = some x := by
  induction h with
  | refl => exact hx
  | step p hne hv hnull _ ih =>
      apply ih
      rw [Sheet.slot_materialise _ p hv]
      by_cases hh : r = p.row.toNat ∧ c = p.col.toNat
      · obtain ⟨rfl, rfl⟩ := hh
        rw [hnull] at hx
        cases hx
      · rw [if_neg hh, hx]

theorem Materialised.slot_none {e : Position} {s s' : Sheet} (h : Materialised e s s')
    (r c : Nat) (hx : s.slot r c = none) :
    s'.slot r c = none ∨ s'.slot r c = some ⟨.EmptyImpl⟩ := by
  induction h with
  | refl => exact Or.inl hx
  | step p hne hv hnull rest ih =>
      by_cases hh : r = p.row.toNat ∧ c = p.col.toNat
      · right
        apply rest.slot_some
        rw [Sheet.slot_materialise _ p hv, if_pos hh]
      · apply ih
        rw [Sheet.slot_materialise _ p hv, if_neg hh, hx]

theorem Materialised.slot_end {e : Position} {s s' : Sheet} (h : Materialised e s s')
    (he : e.IsValid = true) : s'.slot e.row.toNat e.col.toNat = s.slot e.row.toNat e.col.toNat := by
  induction h with
  | refl => rfl
  | step p hne hv hnull _ ih =>
      rw [ih, Sheet.slot_materialise _ p hv]
      have := Position.toNat_ne hv he hne
      rw [if_neg (fun hh => this ⟨hh.1.symm, hh.2.symm⟩)]

theorem Materialised.keeps_inRange {e : Position} {s s' : Sheet} (h : Materialised e s s')
    (r c : Nat) (hr : s.InRange r c) : s'.InRange r c := by
  induction h with
  | refl => exact hr
  | step p hne hv hnull _ ih => exact ih (Sheet.inRange_materialise _ p r c hr)

theorem Materialised.deps {e : Position} {s s' : Sheet} (h : Materialised e s s') :
    s'.cells_dependencies_ = s.cells_dependencies_ := by
  induction h with
  | refl => rfl
  | step p hne hv hnull _ ih => rw [ih, Sheet.deps_materialise]

theorem Materialised.keeps_areaOk {e : Position} {s s' : Sheet} (h : Materialised e s s')
    (ha : s.AreaOk) : s'.AreaOk := by
  induction h with
  | refl => exact ha
  | step p hne hv hnull _ ih => exact ih (Sheet.AreaOk_materialise _ p)

theorem Cell.InvalidateCache_idem (c : Cell) :
    c.InvalidateCache.InvalidateCache = c.InvalidateCache := by
  cases c with
  | mk i => cases i <;> rfl

theorem Cell.GetText_InvalidateCache (c : Cell) : c.InvalidateCache.GetText = c.GetText := by
  cases c with
  | mk i => cases i <;> rfl

theorem Invalidated.slot_map {s s' : Sheet} (h : Invalidated s s') (r c : Nat) :
    (s'.slot r c).map Cell.InvalidateCache = (s.slot r c).map Cell.InvalidateCache := by
  induction h with
  | refl => rfl
  | step d cell hv hcell _ ih =>
      rw [ih, Sheet.slot_setSlot]
      split
      · rename_i hh
        obtain ⟨rfl, rfl, _⟩ := hh
        rw [hcell]
        simp [Cell.InvalidateCache_idem]
      · rfl

theorem Invalidated.isSome {s s' : Sheet} (h : Invalidated s s') (r c : Nat) :
    (s'.slot r c).isSome = (s.slot r c).isSome := by
  have := congrArg Option.isSome (h.slot_map r c)
  simpa using this

theorem Invalidated.inRange_iff {s s' : Sheet} (h : Invalidated s s') (r c : Nat) :
    s'.InRange r c ↔ s.InRange r c := by
  induction h with
  | refl => rfl
  | step d cell hv hcell _ ih => rw [ih, Sheet.inRange_setSlot]

theorem Invalidated.fields {s s' : Sheet} (h : Invalidated s s') :
    s'.cells_dependencies_ = s.cells_dependencies_ ∧ s'.max_row_ = s.max_row_ ∧
      s'.max_col_ = s.max_col_ ∧ s'.area_is_valid_ = s.area_is_valid_ := by
  induction h with
  | refl => exact ⟨rfl, rfl, rfl, rfl⟩
  | step d cell hv hcell _ ih => exact ih

theorem Sheet.AreaOk_of_isSome {s s' : Sheet} (ha : s.AreaOk)
    (hs : ∀ r c, (s'.slot r c).isSome = (s.slot r c).isSome)
    (h1 : s'.max_row_ = s.max_row_) (h2 : s'.max_col_ = s.max_col_)
    (h3 : s'.area_is_valid_ = s.area_is_valid_) : s'.AreaOk := by
  unfold Sheet.AreaOk at *
  rw [h1, h2, h3]
  refine ⟨ha.1, ?_⟩
  exact IsMaxOver.congr ha.2 (fun r c => by rw [hs])

theorem Invalidated.keeps_area {s s' : Sheet} (h : Invalidated s s') (ha : s.AreaOk) : s'.AreaOk :=
  Sheet.AreaOk_of_isSome ha h.isSome h.fields.2.1 h.fields.2.2.1 h.fields.2.2.2

theorem Sheet.SetCell_cases (P : String → Option FormulaInterface) (fuel : Nat) (s : Sheet)
    (pos : Position) (text : String) (o : Outcome Unit)
    (h : Sheet.SetCell P fuel s pos text = some o) :
    (pos.IsValid = false ∧ o = .threw .InvalidPositionException s) ∨
    (pos.IsValid = true ∧
      ((∃ cell, s.slot pos.row.toNat pos.col.toNat = some cell ∧ s.ExistingBranch P pos text cell o) ∨
        (s.slot pos.row.toNat pos.col.toNat = none ∧ s.NewBranch P pos text o))) := by
  unfold Sheet.SetCell Sheet.SetCellWith at h
  by_cases hv : pos.IsValid = true
  · right
    refine ⟨hv, ?_⟩
    simp only [hv, Bool.not_true, Bool.false_eq_true, if_false] at h
    have hg : (s.Reserve pos).GetCell pos = .ok (s.slot pos.row.toNat pos.col.toNat) := by
      rw [Sheet.GetCell_eq _ pos hv, Sheet.slot_Reserve]
    rw [hg] at h
    cases hsl : s.slot pos.row.toNat pos.col.toNat with
    | none =>
        right
        refine ⟨rfl, ?_⟩
        rw [hsl] at h
        simp only at h
        unfold Sheet.NewBranch
        cases hset : Cell.Set P text with
        | error e =>
            left
            rw [hset] at h
            simp only [Option.some.injEq] at h
            exact ⟨e, rfl, h.symm⟩
        | ok nc =>
            right
            refine ⟨nc, rfl, ?_⟩
            rw [hset] at h
            simp only at h
            split at h
            · rename_i s1 hp
              have m := Cell.IsCyclicDependent_materialised P fuel _ _ _ _ _ hp
              simp only [Option.some.injEq] at h
              exact Or.inr ⟨s1, m, Or.inr (Or.inl h.symm)⟩
            · rename_i s1 hp
              have m := Cell.IsCyclicDependent_materialised P fuel _ _ _ _ _ hp
              simp only [Option.some.injEq] at h
              exact Or.inr ⟨s1, m, Or.inr (Or.inr h.symm)⟩
            · rename_i e s1 hp
              have m := Cell.IsCyclicDependent_materialised P fuel _ _ _ _ _ hp
              simp only [Option.some.injEq] at h
              obtain ⟨rfl, m⟩ := m
              exact Or.inr ⟨s1, m, Or.inl h.symm⟩
            · simp only [Option.some.injEq] at h
              exact Or.inl h.symm
            · cases h
    | some cell =>
        left
        refine ⟨cell, rfl, ?_⟩
        rw [hsl] at h
        simp only at h
        unfold Sheet.ExistingBranch
        split at h
        · rename_i u s1 hi
          have mi : Invalidated _ s1 := Sheet.InvalidateCellCash_invalidated fuel _ _ _ hi
          right
          refine ⟨s1, mi, ?_⟩
          cases hset : Cell.Set P text with
          | error e =>
              rw [hset] at h
              simp only [Option.some.injEq] at h
              exact Or.inr (Or.inl ⟨e, rfl, h.symm⟩)
          | ok nc =>
              rw [hset] at h
              simp only at h
              refine Or.inr (Or.inr ⟨nc, rfl, ?_⟩)
              split at h
              · rename_i s5 hp
                have m := Cell.IsCyclicDependent_materialised P fuel _ _ _ _ _ hp
                refine ⟨s5, m, ?_⟩
                split at h
                · rename_i e hr
                  simp only [Option.some.injEq] at h
                  exact Or.inr (Or.inr (Or.inr (Or.inl ⟨e, hr, h.symm⟩)))
                · rename_i restored hr
                  simp only [Option.some.injEq] at h
                  exact Or.inr (Or.inr (Or.inr (Or.inr ⟨restored, hr, h.symm⟩)))
              · rename_i s5 hp
                have m := Cell.IsCyclicDependent_materialised P fuel _ _ _ _ _ hp
                simp only [Option.some.injEq] at h
                exact ⟨s5, m, Or.inr (Or.inr (Or.inl h.symm))⟩
              · rename_i e s5 hp
                have m := Cell.IsCyclicDependent_materialised P fuel _ _ _ _ _ hp
                obtain ⟨rfl, m⟩ := m
                simp only [Option.some.injEq] at h
                exact ⟨s5, m, Or.inr (Or.inl h.symm)⟩
              · simp only [Option.some.injEq] at h
                exact ⟨_, .refl _, Or.inl h.symm⟩
              · cases h
        · rename_i e s1 hi
          have mi := Sheet.InvalidateCellCash_invalidated fuel _ _ _ hi
          obtain ⟨rfl, mi⟩ := mi
          simp only [Option.some.injEq] at h
          exact Or.inr ⟨s1, mi, Or.inl h.symm⟩
        · simp only [Option.some.injEq] at h
          exact Or.inl h.symm
        · cases h
  · left
    have hv' : pos.IsValid = false := by simpa using hv
    simp only [hv', Bool.not_false, if_true, Option.some.injEq] at h
    exact ⟨hv', h.symm⟩

theorem Sheet.slot_congr {s s' : Sheet} (h : s'.sheet_ = s.sheet_) (r c : Nat) :
    s'.slot r c = s.slot r c := by
  unfold Sheet.slot Sheet.rowAt
  rw [h]

theorem Sheet.AreaOk_congr {s s' : Sheet} (ha : s.AreaOk) (h : s'.sheet_ = s.sheet_)
    (h1 : s'.max_row_ = s.max_row_) (h2 : s'.max_col_ = s.max_col_)
    (h3 : s'.area_is_valid_ = s.area_is_valid_) : s'.AreaOk :=
  Sheet.AreaOk_of_isSome ha (fun r c => by rw [Sheet.slot_congr h]) h1 h2 h3

theorem Sheet.Inv_congr {P : String → Option FormulaInterface} {s s' : Sheet} (hi : s.Inv P)
    (h : s'.sheet_ = s.sheet_) (h1 : s'.max_row_ = s.max_row_) (h2 : s'.max_col_ = s.max_col_)
    (h3 : s'.area_is_valid_ = s.area_is_valid_) : s'.Inv P where
  area := Sheet.AreaOk_congr hi.area h h1 h2 h3
  cells := fun r c x hx => hi.cells r c x (by rw [← Sheet.slot_congr h]; exact hx)
  valid := fun r c x hx => hi.valid r c x (by rw [← Sheet.slot_congr h]; exact hx)

theorem Sheet.addReferences_fields (s : Sheet) (refs : List Position) (pos : Position) :
    (s.addReferences refs pos).sheet_ = s.sheet_ ∧
      (s.addReferences refs pos).max_row_ = s.max_row_ ∧
      (s.addReferences refs pos).max_col_ = s.max_col_ ∧
      (s.addReferences refs pos).area_is_valid_ = s.area_is_valid_ := by
  unfold Sheet.addReferences
  induction refs generalizing s with
  | nil => exact ⟨rfl, rfl, rfl, rfl⟩
  | cons a rest ih =>
      simp only [List.foldl_cons]
      exact ih (s.AddDependentCell a pos)

theorem Sheet.Inv_addReferences {P : String → Option FormulaInterface} {s : Sheet}
    (hi : s.Inv P) (refs : List Position) (pos : Position) : (s.addReferences refs pos).Inv P :=
  have h := s.addReferences_fields refs pos
  Sheet.Inv_congr hi h.1 h.2.1 h.2.2.1 h.2.2.2

theorem Sheet.Inv_DeleteDependencies {P : String → Option FormulaInterface} {s : Sheet}
    (hi : s.Inv P) (pos : Position) : (s.DeleteDependencies pos).Inv P :=
  Sheet.Inv_congr hi rfl rfl rfl rfl

theorem Sheet.Inv_Reserve {P : String → Option FormulaInterface} {s : Sheet}
    (hi : s.Inv P) (pos : Position) : (s.Reserve pos).Inv P where
  area := Sheet.AreaOk_of_isSome hi.area (fun r c => by rw [Sheet.slot_Reserve])
    (s.Reserve_fields pos).2.1 (s.Reserve_fields pos).2.2.1 (s.Reserve_fields pos).2.2.2
  cells := fun r c x hx => hi.cells r c x (by rw [← Sheet.slot_Reserve s pos]; exact hx)
  valid := fun r c x hx => hi.valid r c x (by rw [← Sheet.slot_Reserve s pos]; exact hx)

theorem Cell.Set_InvalidateCache (P : String → Option FormulaInterface) (t : String) (x : Cell)
    (h : Cell.Set P t = .ok x) : x.InvalidateCache = x := by
  unfold Cell.Set at h
  split at h
  · cases h; rfl
  · split at h
    · cases h; rfl
    · unfold Impl.newFormulaImpl at h
      split at h
      · rename_i i hi
        split at hi
        · cases hi; cases h; rfl
        · cases hi
      · cases h

theorem Sheet.slot_setSlot_self (s : Sheet) (p : Position) (x : Cell)
    (h : s.slot p.row.toNat p.col.toNat = some x) (r c : Nat) :
    (s.setSlot p (some x)).slot r c = s.slot r c := by
  rw [Sheet.slot_setSlot]
  split
  · rename_i hh
    obtain ⟨rfl, rfl, _⟩ := hh
    exact h.symm
  · rfl

theorem Invalidated.slot_eq {s s' : Sheet} (h : Invalidated s s')
    (hwf : ∀ r c x, s.slot r c = some x → x.InvalidateCache = x) (r c : Nat) :
    s'.slot r c = s.slot r c := by
  induction h with
  | refl => rfl
  | step d cell hv hcell _ ih =>
      have e : cell.InvalidateCache = cell := hwf _ _ _ hcell
      rw [e] at ih
      have hs := Sheet.slot_setSlot_self _ d cell hcell
      rw [ih (fun r c x hx => hwf r c x (by rw [← hs r c]; exact hx)), hs]

theorem Sheet.Inv.noCache {P : String → Option FormulaInterface} {s : Sheet} (hi : s.Inv P) :
    ∀ r c x, s.slot r c = some x → x.InvalidateCache = x := by
  intro r c x hx
  obtain ⟨t, ht⟩ := hi.cells r c x hx
  exact Cell.Set_InvalidateCache P t x ht

theorem Sheet.Inv_Invalidated {P : String → Option FormulaInterface} {s s' : Sheet}
    (hi : s.Inv P) (h : Invalidated s s') : s'.Inv P where
  area := h.keeps_area hi.area
  cells := fun r c x hx => hi.cells r c x (by rw [← h.slot_eq hi.noCache]; exact hx)
  valid := fun r c x hx => hi.valid r c x (by rw [← h.slot_eq hi.noCache]; exact hx)

theorem Materialised.slot_from {e : Position} {s s' : Sheet} (h : Materialised e s s')
    (r c : Nat) (x : Cell) (hx : s'.slot r c = some x) :
    s.slot r c = some x ∨
      (x = ⟨.EmptyImpl⟩ ∧ ∃ p : Position, p.IsValid = true ∧ p.row.toNat = r ∧ p.col.toNat = c) := by
  induction h with
  | refl => exact Or.inl hx
  | step p hne hv hnull _ ih =>
      rcases ih hx with h1 | h1
      · rw [Sheet.slot_materialise _ p hv] at h1
        split at h1
        · rename_i hh
          right
          cases h1
          exact ⟨rfl, p, hv, hh.1.symm, hh.2.symm⟩
        · exact Or.inl h1
      · exact Or.inr h1

theorem Sheet.Inv_Materialised {P : String → Option FormulaInterface} {e : Position}
    {s s' : Sheet} (hi : s.Inv P) (h : Materialised e s s') : s'.Inv P where
  area := h.keeps_areaOk hi.area
  cells := fun r c x hx => by
    rcases h.slot_from r c x hx with h1 | ⟨rfl, _⟩
    · exact hi.cells r c x h1
    · exact ⟨"", rfl⟩
  valid := fun r c x hx => by
    rcases h.slot_from r c x hx with h1 | ⟨_, hp⟩
    · exact hi.valid r c x h1
    · exact hp

theorem Sheet.setSlot_fields (s : Sheet) (p : Position) (v : Option Cell) :
    (s.setSlot p v).cells_dependencies_ = s.cells_dependencies_ ∧
      (s.setSlot p v).max_row_ = s.max_row_ ∧ (s.setSlot p v).max_col_ = s.max_col_ ∧
      (s.setSlot p v).area_is_valid_ = s.area_is_valid_ := ⟨rfl, rfl, rfl, rfl⟩

/-- Overwriting a stored cell by a cell that `Cell::Set` makes keeps the invariants. -/
theorem Sheet.Inv_setSlot_some {P : String → Option FormulaInterface} {s : Sheet} (hi : s.Inv P)
    (p : Position) (old x : Cell) (t : String) (hx : Cell.Set P t = .ok x)
    (hold : s.slot p.row.toNat p.col.toNat = some old) : (s.setSlot p (some x)).Inv P where
  area := by
    refine Sheet.AreaOk_of_isSome hi.area (fun r c => ?_) rfl rfl rfl
    rw [Sheet.slot_setSlot]
    split
    · rename_i hh
      obtain ⟨rfl, rfl, _⟩ := hh
      rw [hold]; rfl
    · rfl
  cells := fun r c y hy => by
    rw [Sheet.slot_setSlot] at hy
    split at hy
    · cases hy; exact ⟨t, hx⟩
    · exact hi.cells r c y hy
  valid := fun r c y hy => by
    rw [Sheet.slot_setSlot] at hy
    split at hy
    · rename_i hh
      obtain ⟨rfl, rfl, _⟩ := hh
      exact hi.valid _ _ old hold
    · exact hi.valid r c y hy

/-- Storing a cell that `Cell::Set` makes at a valid position and rescanning the
printable area keeps the invariants. -/
theorem Sheet.Inv_setSlot_update {P : String → Option FormulaInterface} {s : Sheet} (hi : s.Inv P)
    (p : Position) (hv : p.IsValid = true) (x : Cell) (t : String) (hx : Cell.Set P t = .ok x) :
    ((s.setSlot p (some x)).UpdatePrintableSize).Inv P where
  area := Sheet.UpdatePrintableSize_spec _
  cells := fun r c y hy => by
    rw [Sheet.UpdatePrintableSize_slot, Sheet.slot_setSlot] at hy
    split at hy
    · cases hy; exact ⟨t, hx⟩
    · exact hi.cells r c y hy
  valid := fun r c y hy => by
    rw [Sheet.UpdatePrintableSize_slot, Sheet.slot_setSlot] at hy
    split at hy
    · rename_i hh
      exact ⟨p, hv, hh.1.symm, hh.2.1.symm⟩
    · exact hi.valid r c y hy

theorem Sheet.Inv_SetCell {P : String → Option FormulaInterface} {s : Sheet} (hi : s.Inv P)
    (fuel : Nat) (pos : Position) (text : String) (o : Outcome Unit) (s' : Sheet)
    (h : Sheet.SetCell P fuel s pos text = some o) (hs : o.state? = some s') : s'.Inv P := by
  rcases Sheet.SetCell_cases P fuel s pos text o h with ⟨_, rfl⟩ | ⟨hv, hb⟩
  · cases hs; exact hi
  · have h0 := Sheet.Inv_Reserve hi pos
    rcases hb with ⟨cell, hcell, hb⟩ | ⟨hnull, hb⟩
    · have hc0 : (s.Reserve pos).slot pos.row.toNat pos.col.toNat = some cell := by
        rw [Sheet.slot_Reserve]; exact hcell
      rcases hb with rfl | ⟨s1, mi, hb⟩
      · cases hs
      · have h1 := Sheet.Inv_Invalidated h0 mi
        have hc1 : s1.slot pos.row.toNat pos.col.toNat = some cell := by
          rw [mi.slot_eq h0.noCache]; exact hc0
        have h3 : ((s1.DeleteDependencies pos).setSlot pos (some ⟨.EmptyImpl⟩)).Inv P :=
          Sheet.Inv_setSlot_some (Sheet.Inv_DeleteDependencies h1 pos) pos cell _ ""
            (Cell.Set_empty P) hc1
        have hr3 : ((s1.DeleteDependencies pos).setSlot pos (some ⟨.EmptyImpl⟩)).InRange
            pos.row.toNat pos.col.toNat :=
          (Sheet.inRange_setSlot _ _ _ _ _).2 (Sheet.inRange_of_slot _ _ _ _ hc1)
        have hc3 : ((s1.DeleteDependencies pos).setSlot pos (some ⟨.EmptyImpl⟩)).slot
            pos.row.toNat pos.col.toNat = some ⟨.EmptyImpl⟩ := by
          rw [Sheet.slot_setSlot, if_pos ⟨rfl, rfl, Sheet.inRange_of_slot _ _ _ _ hc1⟩]
        rcases hb with rfl | ⟨e, _, rfl⟩ | ⟨nc, hnc, s5, m, hb⟩
        · cases hs; exact h1
        · cases hs; exact h3
        · have h4 := Sheet.Inv_setSlot_some h3 pos _ nc text hnc hc3
          have h5 := Sheet.Inv_Materialised h4 m
          have hc5 : s5.slot pos.row.toNat pos.col.toNat = some nc := by
            apply m.slot_some
            rw [Sheet.slot_setSlot, if_pos ⟨rfl, rfl, hr3⟩]
          rcases hb with rfl | rfl | rfl | ⟨e, _, rfl⟩ | ⟨restored, hr, rfl⟩
          · cases hs
          · cases hs; exact h5
          · cases hs; exact Sheet.Inv_addReferences h5 _ _
          · cases hs; exact h5
          · cases hs; exact Sheet.Inv_setSlot_some h5 pos nc restored _ hr hc5
    · rcases hb with ⟨e, _, rfl⟩ | ⟨nc, hnc, hb⟩
      · cases hs; exact h0
      · rcases hb with rfl | ⟨s1, m, hb⟩
        · cases hs
        · have h1 := Sheet.Inv_Materialised h0 m
          rcases hb with rfl | rfl | rfl
          · cases hs; exact h1
          · cases hs; exact h1
          · cases hs
            exact Sheet.Inv_setSlot_update (Sheet.Inv_addReferences h1 _ _) pos hv nc text hnc

theorem IsMaxOver.erase {S S' : Nat → Nat → Prop} {R C : Int} (x y : Nat)
    (h : IsMaxOver S R C) (hS : ∀ r c, S' r c ↔ (S r c ∧ ¬ (r = x ∧ c = y)))
    (hx : (x : Int) + 1 ≠ R) (hy : (y : Int) + 1 ≠ C) : IsMaxOver S' R C := by
  obtain ⟨h1, h2, h3⟩ := h
  refine ⟨fun r c hs => h1 r c ((hS r c).1 hs).1, ?_, ?_⟩
  · rcases h2 with h2 | ⟨r, c, hs, e⟩
    · exact Or.inl h2
    · refine Or.inr ⟨r, c, (hS r c).2 ⟨hs, fun hh => ?_⟩, e⟩
      obtain ⟨rfl, rfl⟩ := hh
      exact hx e
  · rcases h3 with h3 | ⟨r, c, hs, e⟩
    · exact Or.inl h3
    · refine Or.inr ⟨r, c, (hS r c).2 ⟨hs, fun hh => ?_⟩, e⟩
      obtain ⟨rfl, rfl⟩ := hh
      exact hy e

theorem Sheet.Inv_ClearCell {P : String → Option FormulaInterface} {s : Sheet} (hi : s.Inv P)
    (pos : Position) (o : Outcome Unit) (s' : Sheet)
    (h : s.ClearCell pos = o) (hs : o.state? = some s') : s'.Inv P := by
  unfold Sheet.ClearCell at h
  by_cases hv : pos.IsValid = true
  · simp only [hv, Bool.not_true, Bool.false_eq_true, if_false] at h
    have hvv := (Position.IsValid_iff pos).1 hv
    by_cases he : s.CellExists pos = true
    · simp only [he, if_true] at h
      have hr : s.InRange pos.row.toNat pos.col.toNat := (s.CellExists_iff pos hv).1 he
      have hcells : ∀ r c x, (s.setSlot pos none).slot r c = some x → s.slot r c = some x := by
        intro r c x hx
        rw [Sheet.slot_setSlot] at hx
        split at hx
        · cases hx
        · exact hx
      split at h
      · subst h
        cases hs
        exact
          { area := Sheet.UpdatePrintableSize_spec _
            cells := fun r c x hx => hi.cells r c x (hcells r c x hx)
            valid := fun r c x hx => hi.valid r c x (hcells r c x hx) }
      · rename_i hf
        subst h
        cases hs
        have hf1 : pos.row + 1 ≠ s.max_row_ := fun e => hf (Or.inl e)
        have hf2 : pos.col + 1 ≠ s.max_col_ := fun e => hf (Or.inr e)
        refine
          { area := ⟨hi.area.1, ?_⟩
            cells := fun r c x hx => hi.cells r c x (hcells r c x hx)
            valid := fun r c x hx => hi.valid r c x (hcells r c x hx) }
        refine IsMaxOver.erase pos.row.toNat pos.col.toNat hi.area.2 (fun r c => ?_)
          (by rw [Int.toNat_of_nonneg hvv.1]; exact hf1)
          (by rw [Int.toNat_of_nonneg hvv.2.1]; exact hf2)
        rw [Sheet.slot_setSlot]
        by_cases hh : r = pos.row.toNat ∧ c = pos.col.toNat
        · obtain ⟨rfl, rfl⟩ := hh
          simp [hr]
        · have : ¬ (r = pos.row.toNat ∧ c = pos.col.toNat ∧ s.InRange r c) :=
            fun k => hh ⟨k.1, k.2.1⟩
          rw [if_neg this]
          simp [hh]
    · simp only [he, if_false, Bool.false_eq_true] at h
      subst h
      cases hs
      exact hi
  · have hv' : pos.IsValid = false := by simpa using hv
    simp only [hv', Bool.not_false, if_true] at h
    subst h
    cases hs
    exact hi

theorem Sheet.Inv_empty (P : String → Option FormulaInterface) : Sheet.empty.Inv P where
  area := ⟨rfl, fun r c h => by simp [Sheet.empty, Sheet.slot, Sheet.rowAt] at h, Or.inl rfl, Or.inl rfl⟩
  cells := fun r c x h => by simp [Sheet.empty, Sheet.slot, Sheet.rowAt] at h
  valid := fun r c x h => by simp [Sheet.empty, Sheet.slot, Sheet.rowAt] at h

theorem Reachable.inv {P : String → Option FormulaInterface} {s : Sheet} (h : Reachable P s) :
    s.Inv P := by
  induction h with
  | empty => exact Sheet.Inv_empty P
  | setCell fuel pos text o _ hcall hstate ih => exact Sheet.Inv_SetCell ih fuel pos text o _ hcall hstate
  | clearCell pos o _ hcall hstate ih => exact Sheet.Inv_ClearCell ih pos o _ hcall hstate

/-- C5: in every sheet reachable from the empty sheet by calls of SetCell and
ClearCell (returning or throwing), GetPrintableSize does not fail and returns
the componentwise maximum of (row+1, col+1) over the slots that hold a cell
(Empty cells included), which is (0,0) when no slot holds a cell. -/
theorem C5_printable_size_is_bounding_box (P : String → Option FormulaInterface) (s : Sheet)
    (h : Reachable P s) :
    ∃ sz : Size, s.GetPrintableSize = .ok sz ∧ s.IsBoundingBox sz.rows sz.cols ∧
      ((∀ r c, s.slot r c = none) → sz = ⟨0, 0⟩) := by
  have hi := h.inv
  refine ⟨⟨s.max_row_, s.max_col_⟩, ?_, hi.area.2, ?_⟩
  · unfold Sheet.GetPrintableSize
    rw [hi.area.1]
    rfl
  · intro hnone
    obtain ⟨_, h2, h3⟩ := hi.area.2
    have e1 : s.max_row_ = 0 := by
      rcases h2 with h2 | ⟨r, c, hs, _⟩
      · exact h2
      · rw [hnone r c] at hs
        cases hs
    have e2 : s.max_col_ = 0 := by
      rcases h3 with h3 | ⟨r, c, hs, _⟩
      · exact h3
      · rw [hnone r c] at hs
        cases hs
    rw [e1, e2]

theorem strEmpty_iff (t : String) : strEmpty t = true ↔ t = "" := by
  unfold strEmpty
  constructor
  · intro h
    apply String.ext
    simpa using h
  · rintro rfl
    rfl

theorem str_eq_sign_iff (t : String) :
    (strFront t = FORMULA_SIGN ∧ t.length = 1) ↔ t = "=" := by
  constructor
  · rintro ⟨h1, h2⟩
    obtain ⟨d⟩ := t
    simp only [strFront, String.length] at h1 h2
    cases d with
    | nil => simp at h2
    | cons c rest =>
        simp only [List.headD_cons] at h1
        simp only [List.length_cons, Nat.add_left_eq_self, List.length_eq_zero] at h2
        subst h1 h2
        rfl
  · rintro rfl
    exact ⟨rfl, rfl⟩

theorem textCond_iff (t : String) (hne : strEmpty t = false) :
    (strFront t ≠ FORMULA_SIGN ∨ (strFront t = FORMULA_SIGN ∧ t.length = 1)) ↔ IsTextInput t := by
  have h0 : t ≠ "" := fun e => by
    rw [(strEmpty_iff t).2 e] at hne
    cases hne
  unfold IsTextInput
  rw [str_eq_sign_iff]
  exact ⟨fun h => ⟨h0, h⟩, fun h => h.2⟩

theorem not_textInput_iff (t : String) (hne : t ≠ "") : ¬ IsTextInput t ↔ IsFormulaInput t := by
  unfold IsTextInput IsFormulaInput
  have hd : t.data ≠ [] := fun e => hne (String.ext (by simpa using e))
  have hl : 0 < t.length := by
    unfold String.length
    exact List.length_pos.2 hd
  constructor
  · intro h
    have h1 : strFront t = FORMULA_SIGN := by
      by_contra hh
      exact h ⟨hne, Or.inl hh⟩
    refine ⟨h1, ?_⟩
    by_contra hh
    have : t.length = 1 := by omega
    exact h ⟨hne, Or.inr ((str_eq_sign_iff t).1 ⟨h1, this⟩)⟩
  · rintro ⟨h1, h2⟩ ⟨_, h3 | h3⟩
    · exact h3 h1
    · subst h3
      exact absurd h2 (by decide)

theorem Cell.Set_of_empty (P : String → Option FormulaInterface) :
    Cell.Set P "" = .ok ⟨.EmptyImpl⟩ := rfl

theorem Cell.Set_of_text (P : String → Option FormulaInterface) (t : String)
    (h : IsTextInput t) : Cell.Set P t = .ok ⟨Impl.newTextImpl t⟩ := by
  have hne : strEmpty t = false := by
    cases he : strEmpty t with
    | false => rfl
    | true => exact absurd ((strEmpty_iff t).1 he) h.1
  unfold Cell.Set
  rw [hne]
  simp only [Bool.false_eq_true, if_false]
  rw [if_pos ((textCond_iff t hne).2 h)]

theorem Cell.Set_of_formula (P : String → Option FormulaInterface) (t : String)
    (h : IsFormulaInput t) :
    Cell.Set P t =
      match P (strTail t) with
      | some f => .ok ⟨.FormulaImpl f none⟩
      | none => .error .FormulaException := by
  have h0 : t ≠ "" := by
    rintro rfl
    exact absurd h.2 (by decide)
  have hne : strEmpty t = false := by
    cases he : strEmpty t with
    | false => rfl
    | true => exact absurd ((strEmpty_iff t).1 he) h0
  have hnt : ¬ IsTextInput t := (not_textInput_iff t h0).2 h
  unfold Cell.Set
  rw [hne]
  simp only [Bool.false_eq_true, if_false]
  rw [if_neg (fun hh => hnt ((textCond_iff t hne).1 hh))]
  unfold Impl.newFormulaImpl
  cases P (strTail t) <;> rfl

theorem input_cases (t : String) : t = "" ∨ IsTextInput t ∨ IsFormulaInput t := by
  by_cases h0 : t = ""
  · exact Or.inl h0
  · by_cases h1 : IsTextInput t
    · exact Or.inr (Or.inl h1)
    · exact Or.inr (Or.inr ((not_textInput_iff t h0).1 h1))

/-- C8: Cell::Set installs the Empty variant iff the text is empty, the Text
variant holding the text verbatim iff the text is classified as Text (not empty,
and first character not `=` or the text exactly "="), and otherwise parses the
text without its first character and installs the Formula variant on success (a
formula-syntax failure otherwise); Set("=") yields a Text cell whose text and
value are both "=". -/
theorem C8_Set_classification (P : String → Option FormulaInterface)
    (Evaluate : FormulaInterface → FormulaValue) (text : String) :
    (Cell.Set P text = .ok ⟨.EmptyImpl⟩ ↔ text = "") ∧
    ((∃ escaped, Cell.Set P text = .ok ⟨.TextImpl text escaped⟩) ↔ IsTextInput text) ∧
    (text ≠ "" → ¬ IsTextInput text →
      Cell.Set P text =
        match P (strTail text) with
        | some f => .ok ⟨.FormulaImpl f none⟩
        | none => .error .FormulaException) ∧
    (∃ c, Cell.Set P "=" = .ok c ∧ c.impl_ = .TextImpl "=" false ∧ c.GetText = "=" ∧
      c.GetValue Evaluate = .text "=") := by
  refine ⟨?_, ?_, ?_, ?_⟩
  · constructor
    · intro h
      rcases input_cases text with h0 | h1 | h2
      · exact h0
      · rw [Cell.Set_of_text P text h1] at h
        cases h
      · rw [Cell.Set_of_formula P text h2] at h
        cases hp : P (strTail text) <;> rw [hp] at h <;> cases h
    · rintro rfl
      rfl
  · constructor
    · rintro ⟨e, h⟩
      rcases input_cases text with h0 | h1 | h2
      · subst h0
        cases h
      · exact h1
      · rw [Cell.Set_of_formula P text h2] at h
        cases hp : P (strTail text) <;> rw [hp] at h <;> cases h
    · intro h
      exact ⟨_, Cell.Set_of_text P text h⟩
  · intro h0 h1
    exact Cell.Set_of_formula P text ((not_textInput_iff text h0).1 h1)
  · exact ⟨_, Cell.Set_of_text P "=" ⟨by decide, Or.inr rfl⟩, by decide, rfl, rfl⟩

/-- C9: for every text classified as Text, the cell that Cell::Set installs has
GetText equal to the text unchanged, and GetValue equal to the text with exactly
one leading apostrophe removed when the text starts with an apostrophe, and to
the text itself otherwise. -/
theorem C9_text_value (P : String → Option FormulaInterface)
    (Evaluate : FormulaInterface → FormulaValue) (t : String) (h : IsTextInput t) :
    ∃ c, Cell.Set P t = .ok c ∧ c.GetText = t ∧
      (∀ rest : String, t = strCons ESCAPE_SIGN rest → c.GetValue Evaluate = .text rest) ∧
      (strFront t ≠ ESCAPE_SIGN → c.GetValue Evaluate = .text t) := by
  refine ⟨_, Cell.Set_of_text P t h, rfl, ?_, ?_⟩
  · rintro rest rfl
    rfl
  · intro hne
    simp [Cell.GetValue, Impl.newTextImpl, Impl.IGetValue, hne]

theorem Cell.Set_error (P : String → Option FormulaInterface) (t : String) (e : Exception)
    (h : Cell.Set P t = .error e) : e = .FormulaException := by
  unfold Cell.Set at h
  split at h
  · cases h
  · split at h
    · cases h
    · split at h
      · cases h
      · cases h; rfl

theorem Cell.Set_GetText (P : String → Option FormulaInterface) (t : String) (c : Cell)
    (h : Cell.Set P t = .ok c) :
    ((t = "" ∨ IsTextInput t) → c.GetText = t) ∧
    (IsFormulaInput t → ∃ f, P (strTail t) = some f ∧ c.impl_ = .FormulaImpl f none ∧
      c.GetText = strCons FORMULA_SIGN f.GetExpression) := by
  constructor
  · rintro (rfl | h1)
    · cases h; rfl
    · rw [Cell.Set_of_text P t h1] at h
      cases h; rfl
  · intro h2
    rw [Cell.Set_of_formula P t h2] at h
    cases hp : P (strTail t) with
    | none => rw [hp] at h; cases h
    | some f =>
        rw [hp] at h
        cases h
        exact ⟨f, rfl, rfl, rfl⟩

/-- C6: if SetCell(pos, t) returns successfully then GetCell(pos) is non-null and
its GetText is t when t is empty or classified as Text, and is "=" followed by
the canonical expression of the parsed formula when t is classified as a
formula. -/
theorem C6_SetCell_then_GetText (P : String → Option FormulaInterface) (fuel : Nat) (s : Sheet)
    (pos : Position) (t : String) (s' : Sheet)
    (h : s.SetCell P fuel pos t = some (.returned () s')) :
    ∃ c, s'.GetCell pos = .ok (some c) ∧
      ((t = "" ∨ IsTextInput t) → c.GetText = t) ∧
      (IsFormulaInput t → ∃ f, P (strTail t) = some f ∧
        c.GetText = strCons FORMULA_SIGN f.GetExpression) := by
  have key : ∃ c, pos.IsValid = true ∧ s'.slot pos.row.toNat pos.col.toNat = some c ∧
      Cell.Set P t = .ok c := by
    rcases Sheet.SetCell_cases P fuel s pos t _ h with ⟨_, hb⟩ | ⟨hv, hb⟩
    · cases hb
    · rcases hb with ⟨cell, hcell, hb⟩ | ⟨hnull, hb⟩
      · rcases hb with hb | ⟨s1, mi, hb⟩
        · cases hb
        · have hc1 : (s1.slot pos.row.toNat pos.col.toNat).isSome = true := by
            rw [mi.isSome, Sheet.slot_Reserve, hcell]; rfl
          obtain ⟨c1, hc1⟩ := Option.isSome_iff_exists.1 hc1
          have hr1 := Sheet.inRange_of_slot _ _ _ _ hc1
          rcases hb with hb | ⟨e, _, hb⟩ | ⟨nc, hnc, s5, m, hb⟩
          · cases hb
          · cases hb
          · rcases hb with hb | hb | hb | ⟨e, _, hb⟩ | ⟨restored, hr, hb⟩
            · cases hb
            · cases hb
            · cases hb
              refine ⟨nc, hv, ?_, hnc⟩
              rw [Sheet.slot_congr (Sheet.addReferences_fields _ _ _).1]
              apply m.slot_some
              rw [Sheet.slot_setSlot, if_pos ⟨rfl, rfl, (Sheet.inRange_setSlot _ _ _ _ _).2 hr1⟩]
            · cases hb
            · cases hb
      · rcases hb with ⟨e, _, hb⟩ | ⟨nc, hnc, hb⟩
        · cases hb
        · rcases hb with hb | ⟨s1, m, hb⟩
          · cases hb
          · rcases hb with hb | hb | hb
            · cases hb
            · cases hb
            · cases hb
              refine ⟨nc, hv, ?_, hnc⟩
              rw [Sheet.UpdatePrintableSize_slot, Sheet.slot_setSlot]
              have hr := m.keeps_inRange _ _ (s.inRange_Reserve_self pos hv)
              have hr' : (s1.addReferences nc.GetReferencedCells pos).InRange
                  pos.row.toNat pos.col.toNat := by
                unfold Sheet.InRange Sheet.rowAt
                rw [(Sheet.addReferences_fields _ _ _).1]
                exact hr
              rw [if_pos ⟨rfl, rfl, hr'⟩]
  obtain ⟨c, hv, hc, hset⟩ := key
  refine ⟨c, ?_, (Cell.Set_GetText P t c hset).1, ?_⟩
  · rw [Sheet.GetCell_eq _ pos hv, hc]
  · intro hf
    obtain ⟨f, h1, _, h2⟩ := (Cell.Set_GetText P t c hset).2 hf
    exact ⟨f, h1, h2⟩

theorem strTail_strCons (c : Char) (s : String) : strTail (strCons c s) = s := rfl

/-- The text of a cell that `Cell::Set` has built is, when it classifies as a
formula input, the sign `=` followed by its tail. -/
theorem Cell.Set_formula_text (P : String → Option FormulaInterface) (t : String) (c : Cell)
    (h : Cell.Set P t = .ok c) (h2 : IsFormulaInput c.GetText) :
    c.GetText = strCons FORMULA_SIGN (strTail c.GetText) := by
  rcases input_cases t with k0 | k1 | k2
  · subst k0
    cases h
    exact absurd h2.2 (by decide)
  · have := (Cell.Set_GetText P t c h).1 (Or.inr k1)
    rw [this] at h2
    exact absurd k1 ((not_textInput_iff t k1.1).2 h2)
  · obtain ⟨f, hp, _, ht⟩ := (Cell.Set_GetText P t c h).2 k2
    rw [ht, strTail_strCons]

/-- What a `SetCell` that fails with circular-dependency leaves of the slots: the
cells other than the one at `pos` as they were, the cell at `pos` with the content
that the rollback `Set(old_text)` has built. -/
theorem Sheet.SetCell_circular_slots (P : String → Option FormulaInterface)
    (fuel : Nat) (s : Sheet) (pos : Position) (text : String)
    (s' : Sheet) (hi : s.Inv P)
    (h : s.SetCell P fuel pos text = some (.threw .CircularDependencyException s')) :
    pos.IsValid = true ∧
    (∀ r c x, s.slot r c = some x → ∃ x', s'.slot r c = some x' ∧
      (¬ (r = pos.row.toNat ∧ c = pos.col.toNat) → x' = x) ∧
      ((r = pos.row.toNat ∧ c = pos.col.toNat) → Cell.Set P x.GetText = .ok x')) ∧
    (∀ r c, s.slot r c = none → s'.slot r c = none ∨
      (¬ (r = pos.row.toNat ∧ c = pos.col.toNat) ∧ s'.slot r c = some ⟨.EmptyImpl⟩)) := by
  rcases Sheet.SetCell_cases P fuel s pos text _ h with ⟨_, hb⟩ | ⟨hv, hb⟩
  · cases hb
  · refine ⟨hv, ?_⟩
    have h0 := Sheet.Inv_Reserve hi pos
    rcases hb with ⟨cell, hcell, hb⟩ | ⟨hnull, hb⟩
    · have hc0 : (s.Reserve pos).slot pos.row.toNat pos.col.toNat = some cell := by
        rw [Sheet.slot_Reserve]; exact hcell
      rcases hb with hb | ⟨s1, mi, hb⟩
      · cases hb
      · have hs1 : ∀ r c, s1.slot r c = s.slot r c := fun r c => by
          rw [mi.slot_eq h0.noCache, Sheet.slot_Reserve]
        have hc1 : s1.slot pos.row.toNat pos.col.toNat = some cell := by
          rw [hs1]; exact hcell
        have hr1 := Sheet.inRange_of_slot _ _ _ _ hc1
        rcases hb with hb | ⟨e, he, hb⟩ | ⟨nc, hnc, s5, m, hb⟩
        · cases hb
        · cases hb
          cases Cell.Set_error P text _ he
        · have hr4 : (((s1.DeleteDependencies pos).setSlot pos (some ⟨.EmptyImpl⟩)).setSlot pos
              (some nc)).InRange pos.row.toNat pos.col.toNat :=
            (Sheet.inRange_setSlot _ _ _ _ _).2 ((Sheet.inRange_setSlot _ _ _ _ _).2 hr1)
          have hs4 : ∀ r c, ¬ (r = pos.row.toNat ∧ c = pos.col.toNat) →
              (((s1.DeleteDependencies pos).setSlot pos (some ⟨.EmptyImpl⟩)).setSlot pos
                (some nc)).slot r c = s.slot r c := by
            intro r c hne
            rw [Sheet.slot_setSlot, if_neg (fun k => hne ⟨k.1, k.2.1⟩), Sheet.slot_setSlot,
              if_neg (fun k => hne ⟨k.1, k.2.1⟩)]
            exact hs1 r c
          rcases hb with hb | hb | hb | ⟨e, he, hb⟩ | ⟨restored, hr, hb⟩
          · cases hb
          · cases hb
          · cases hb
          · cases hb
            cases Cell.Set_error P _ _ he
          · cases hb
            have hr5 := m.keeps_inRange _ _ hr4
            constructor
            · intro r c x hx
              by_cases hp : r = pos.row.toNat ∧ c = pos.col.toNat
              · obtain ⟨rfl, rfl⟩ := hp
                rw [hcell] at hx
                cases hx
                refine ⟨restored, ?_, fun hn => absurd ⟨rfl, rfl⟩ hn, fun _ => hr⟩
                rw [Sheet.slot_setSlot, if_pos ⟨rfl, rfl, hr5⟩]
              · refine ⟨x, ?_, fun _ => rfl, fun hp' => absurd hp' hp⟩
                rw [Sheet.slot_setSlot, if_neg (fun k => hp ⟨k.1, k.2.1⟩)]
                apply m.slot_some
                rw [hs4 r c hp]; exact hx
            · intro r c hx
              have hp : ¬ (r = pos.row.toNat ∧ c = pos.col.toNat) := by
                rintro ⟨rfl, rfl⟩
                rw [hcell] at hx
                cases hx
              rw [Sheet.slot_setSlot, if_neg (fun k => hp ⟨k.1, k.2.1⟩)]
              rcases m.slot_none r c (by rw [hs4 r c hp]; exact hx) with k | k
              · exact Or.inl k
              · exact Or.inr ⟨hp, k⟩
    · rcases hb with ⟨e, he, hb⟩ | ⟨nc, hnc, hb⟩
      · cases hb
        cases Cell.Set_error P text _ he
      · rcases hb with hb | ⟨s1, m, hb⟩
        · cases hb
        · rcases hb with hb | hb | hb
          · cases hb
          · cases hb
            constructor
            · intro r c x hx
              refine ⟨x, m.slot_some r c x (by rw [Sheet.slot_Reserve]; exact hx),
                fun _ => rfl, fun hp => ?_⟩
              obtain ⟨rfl, rfl⟩ := hp
              rw [hnull] at hx
              cases hx
            · intro r c hx
              by_cases hp : r = pos.row.toNat ∧ c = pos.col.toNat
              · obtain ⟨rfl, rfl⟩ := hp
                left
                rw [m.slot_end hv, Sheet.slot_Reserve]
                exact hnull
              · rcases m.slot_none r c (by rw [Sheet.slot_Reserve]; exact hx) with k | k
                · exact Or.inl k
                · exact Or.inr ⟨hp, k⟩
          · cases hb

/-- C1 (amended): in a reachable sheet, a SetCell(pos, text) that fails with
circular-dependency leaves the cell at every position other than pos as it was;
a cell at pos is still there, with the content that the rollback Set(old_text)
builds from its old text: the same text when the old text is empty or a text
input, and when it is a formula input the sign = followed by the canonical
expression of the formula that the collaborator parses from the tail of the old
text, which is the old text when that canonical expression is the tail. A
position that was null is null afterwards or, when it is not pos, holds an Empty
cell that the cycle probe materialised; GetPrintableSize succeeds before and
after, does not shrink, and is unchanged when no cell was materialised. -/
theorem C1_circular_failure_keeps_cells (P : String → Option FormulaInterface)
    (fuel : Nat) (s : Sheet) (pos : Position) (text : String)
    (s' : Sheet) (hreach : Reachable P s)
    (h : s.SetCell P fuel pos text = some (.threw .CircularDependencyException s')) :
    (∀ q c, q ≠ pos → s.GetCell q = .ok (some c) → s'.GetCell q = .ok (some c)) ∧
    (∀ c, s.GetCell pos = .ok (some c) →
      ∃ c', s'.GetCell pos = .ok (some c') ∧ Cell.Set P c.GetText = .ok c' ∧
        ((c.GetText = "" ∨ IsTextInput c.GetText) → c'.GetText = c.GetText) ∧
        (IsFormulaInput c.GetText → ∃ f', P (strTail c.GetText) = some f' ∧
          c'.GetText = strCons FORMULA_SIGN f'.GetExpression ∧
          (f'.GetExpression = strTail c.GetText → c'.GetText = c.GetText))) ∧
    (∀ q, s.GetCell q = .ok none →
      s'.GetCell q = .ok none ∨ (q ≠ pos ∧ s'.GetCell q = .ok (some ⟨.EmptyImpl⟩))) ∧
    (∃ sz sz', s.GetPrintableSize = .ok sz ∧ s'.GetPrintableSize = .ok sz' ∧
      sz.rows ≤ sz'.rows ∧ sz.cols ≤ sz'.cols ∧
      ((∀ q, s.GetCell q = .ok none → s'.GetCell q = .ok none) → sz' = sz)) := by
  have hi := hreach.inv
  have hi' : s'.Inv P := Sheet.Inv_SetCell hi fuel pos text _ s' h rfl
  obtain ⟨hv, hA, hB⟩ := Sheet.SetCell_circular_slots P fuel s pos text s' hi h
  refine ⟨?_, ?_, ?_, ?_⟩
  · intro q c hq hc
    have hqv := s.GetCell_ok_valid q _ hc
    obtain ⟨c', h1, h2, _⟩ := hA _ _ c (s.GetCell_ok_slot q _ hc)
    rw [Sheet.GetCell_eq _ q hqv, h1, h2 (Position.toNat_ne hqv hv hq)]
  · intro c hc
    have hsl := s.GetCell_ok_slot pos _ hc
    obtain ⟨c', h1, _, h3⟩ := hA _ _ c hsl
    have hset := h3 ⟨rfl, rfl⟩
    refine ⟨c', by rw [Sheet.GetCell_eq _ pos hv, h1], hset,
      (Cell.Set_GetText P _ c' hset).1, fun hf => ?_⟩
    obtain ⟨f', hp', _, ht'⟩ := (Cell.Set_GetText P _ c' hset).2 hf
    refine ⟨f', hp', ht', fun he => ?_⟩
    obtain ⟨t0, ht0⟩ := hi.cells _ _ c hsl
    rw [ht', he]
    exact (Cell.Set_formula_text P t0 c ht0 hf).symm
  · intro q hq
    have hqv := s.GetCell_ok_valid q _ hq
    rcases hB _ _ (s.GetCell_ok_slot q _ hq) with k | ⟨k1, k2⟩
    · exact Or.inl (by rw [Sheet.GetCell_eq _ q hqv, k])
    · refine Or.inr ⟨?_, by rw [Sheet.GetCell_eq _ q hqv, k2]⟩
      rintro rfl
      exact k1 ⟨rfl, rfl⟩
  · refine ⟨⟨s.max_row_, s.max_col_⟩, ⟨s'.max_row_, s'.max_col_⟩, ?_, ?_, ?_⟩
    · unfold Sheet.GetPrintableSize
      rw [hi.area.1]; rfl
    · unfold Sheet.GetPrintableSize
      rw [hi'.area.1]; rfl
    · have hsub : ∀ r c, (s.slot r c).isSome = true → (s'.slot r c).isSome = true := by
        intro r c hs
        obtain ⟨x, hx⟩ := Option.isSome_iff_exists.1 hs
        obtain ⟨x', hx', _⟩ := hA r c x hx
        rw [hx']; rfl
      have hm := IsMaxOver.mono hi.area.2 hi'.area.2 hsub
      refine ⟨hm.1, hm.2, ?_⟩
      intro hno
      have hsup : ∀ r c, (s'.slot r c).isSome = true → (s.slot r c).isSome = true := by
        intro r c hs
        obtain ⟨x, hx⟩ := Option.isSome_iff_exists.1 hs
        obtain ⟨q, hqv, rfl, rfl⟩ := hi'.valid r c x hx
        cases hsq : s.slot q.row.toNat q.col.toNat with
        | some y => rfl
        | none =>
            have := hno q (by rw [Sheet.GetCell_eq _ q hqv, hsq])
            rw [Sheet.GetCell_eq _ q hqv, hx] at this
            cases this
      have hm' := IsMaxOver.mono hi'.area.2 hi.area.2 hsup
      have e1 : s'.max_row_ = s.max_row_ := by omega
      have e2 : s'.max_col_ = s.max_col_ := by omega
      rw [e1, e2]

theorem sampleParse_expression (str : String) (f : FormulaInterface)
    (h : sampleParse str = some f) : f.GetExpression = str := by
  unfold sampleParse at h
  split at h
  · cases h; rename_i e; exact e.symm
  · split at h
    · cases h; rename_i e; exact e.symm
    · split at h
      · cases h; rename_i e; exact e.symm
      · split at h
        · cases h; rename_i e; exact e.symm
        · cases h

theorem run_A1refB1 :
    Sheet.empty.SetCell sampleParse 5 A1 "=B1" = some (.returned () sheetA1refB1) := by decide

theorem run_A1hello :
    Sheet.empty.SetCell sampleParse 5 A1 "hello" = some (.returned () sheetA1hello) := by decide

theorem reachable_A1refB1 : Reachable sampleParse sheetA1refB1 :=
  .setCell 5 A1 "=B1" _ .empty run_A1refB1 rfl

theorem reachable_A1hello : Reachable sampleParse sheetA1hello :=
  .setCell 5 A1 "hello" _ .empty run_A1hello rfl

/-- C1 (counterexample): on the empty sheet, SetCell(B1, "=A1+B1") fails with
circular-dependency, yet GetCell(A1) was null before and is an Empty cell after,
and GetPrintableSize was (0,0) before and is (1,1) after. -/
theorem C1_counterexample :
    Sheet.empty.SetCell sampleParse 5 B1 "=A1+B1" =
        some (.threw .CircularDependencyException sheetA1empty) ∧
      Sheet.empty.GetCell A1 = .ok none ∧
      sheetA1empty.GetCell A1 = .ok (some ⟨.EmptyImpl⟩) ∧
      Sheet.empty.GetPrintableSize = .ok ⟨0, 0⟩ ∧
      sheetA1empty.GetPrintableSize = .ok ⟨1, 1⟩ :=
  ⟨by decide, rfl, rfl, rfl, rfl⟩

/-- C2 (failing input): after SetCell(A1, "=B1"), GetDependentCells(B1) is {A1};
SetCell(B1, "=A1") fails with circular-dependency, and afterwards
GetDependentCells(B1) is empty although A1 still holds the formula that reads
B1. -/
theorem C2_graph_lost_on_circular_failure :
    Sheet.empty.SetCell sampleParse 5 A1 "=B1" = some (.returned () sheetA1refB1) ∧
      sheetA1refB1.GetDependentCells B1 = [A1] ∧
      sheetA1refB1.SetCell sampleParse 5 B1 "=A1" =
        some (.threw .CircularDependencyException sheetA1refB1_noDeps) ∧
      sheetA1refB1_noDeps.GetDependentCells B1 = [] ∧
      sheetA1refB1_noDeps.GetCell A1 = .ok (some ⟨.FormulaImpl ⟨"B1", [B1]⟩ none⟩) :=
  ⟨by decide, by decide, by decide, by decide, rfl⟩

/-- C3 (failing input): after SetCell(A1, "hello"), the call SetCell(A1, "=bad")
with an expression that the parser rejects fails with formula-syntax, and
afterwards the cell at A1 is Empty: its text is "" and no longer "hello". -/
theorem C3_text_lost_on_syntax_failure :
    sampleParse (strTail "=bad") = none ∧
      Sheet.empty.SetCell sampleParse 5 A1 "hello" = some (.returned () sheetA1hello) ∧
      sheetA1hello.GetCell A1 = .ok (some ⟨.TextImpl "hello" false⟩) ∧
      sheetA1hello.SetCell sampleParse 5 A1 "=bad" =
        some (.threw .FormulaException sheetA1wiped) ∧
      sheetA1wiped.GetCell A1 = .ok (some ⟨.EmptyImpl⟩) ∧
      (⟨.EmptyImpl⟩ : Cell).GetText = "" :=
  ⟨by decide, by decide, rfl, by decide, rfl, rfl⟩

/-- C4 (failing input): after SetCell(A1, "=B1") and ClearCell(A1), the formula
"=B1" set at B1 references its own position, but the call dereferences the null
pointer that GetCell(A1) returns inside InvalidateCellCash(B1) and never reaches
the cycle probe: it does not fail with circular-dependency, whatever the fuel. -/
theorem C4_self_reference_after_clear :
    Sheet.empty.SetCell sampleParse 5 A1 "=B1" = some (.returned () sheetA1refB1) ∧
      sheetA1refB1.ClearCell A1 = .returned () sheetA1cleared ∧
      sampleParse (strTail "=B1") = some ⟨"B1", [B1]⟩ ∧
      (∀ fuel, sheetA1cleared.SetCell sampleParse (fuel + 1) B1 "=B1" = some .undefined) ∧
      sheetA1cleared.SetCell sampleParse 0 B1 "=B1" = none := by
  refine ⟨by decide, by decide, by decide, ?_, by decide⟩
  intro fuel
  rfl

/-- C7: for every sheet and every invalid position, SetCell (for any text),
GetCell and ClearCell fail with invalid-position, and the sheet in which SetCell
and ClearCell end is the sheet before the call (GetCell is const). -/
theorem C7_invalid_position (P : String → Option FormulaInterface) (fuel : Nat) (s : Sheet)
    (pos : Position) (text : String) (h : pos.IsValid = false) :
    s.SetCell P fuel pos text = some (.threw .InvalidPositionException s) ∧
      s.GetCell pos = .error .InvalidPositionException ∧
      s.ClearCell pos = .threw .InvalidPositionException s := by
  refine ⟨?_, s.GetCell_invalid pos h, ?_⟩
  · unfold Sheet.SetCell Sheet.SetCellWith
    simp [h]
  · unfold Sheet.ClearCell
    simp [h]

/-- C7 (witness): the position (-1, -1) on the sheet that holds "hello" at A1. -/
theorem C7_invalid_position_witness :
    (⟨-1, -1⟩ : Position).IsValid = false ∧
      sheetA1hello.SetCell sampleParse 0 ⟨-1, -1⟩ "x" =
        some (.threw .InvalidPositionException sheetA1hello) ∧
      sheetA1hello.GetCell ⟨-1, -1⟩ = .error .InvalidPositionException ∧
      sheetA1hello.ClearCell ⟨-1, -1⟩ = .threw .InvalidPositionException sheetA1hello :=
  ⟨by decide, C7_invalid_position sampleParse 0 sheetA1hello ⟨-1, -1⟩ "x" (by decide)⟩

/-- C10 (failing input): for every formula cell whose cache is stale, a call of
GetValue returns the evaluated value (the number when it is finite, Div0 when it
is not, the error otherwise) and leaves the cache stale: IsCacheValid is false
after the call, because no code path assigns `cached_value_`. -/
theorem C10_GetValue_leaves_cache_stale (Evaluate : FormulaInterface → FormulaValue)
    (f : FormulaInterface) :
    ((⟨.FormulaImpl f none⟩ : Cell).callGetValue Evaluate).2.IsCacheValid = false ∧
      ((⟨.FormulaImpl f none⟩ : Cell).callGetValue Evaluate).1 =
        (match Evaluate f with
          | .number d => if d.isfinite then .number d else .error .Div0
          | .error e => .error e) ∧
      (⟨.FormulaImpl f none⟩ : Cell).IsCacheValid = false :=
  ⟨rfl, rfl, rfl⟩

/-- In every reachable sheet every formula cell has a stale cache. -/
theorem Reachable.cache_stale {P : String → Option FormulaInterface} {s : Sheet}
    (h : Reachable P s) (q : Position) (f : FormulaInterface) (cached : Option Value)
    (hc : s.GetCell q = .ok (some ⟨.FormulaImpl f cached⟩)) : cached = none := by
  have := h.inv.noCache _ _ _ (s.GetCell_ok_slot q _ hc)
  simp only [Cell.InvalidateCache, Impl.IInvalidateCache, Cell.mk.injEq, Impl.FormulaImpl.injEq,
    true_and] at this
  exact this.symm

theorem run_B1const :
    Sheet.empty.SetCell sampleParse 5 B1 "=1" = some (.returned () sheetB1const) := by decide

theorem reachable_B1const : Reachable sampleParse sheetB1const :=
  .setCell 5 B1 "=1" _ .empty run_B1const rfl

/-- C1 (witness): the failing call SetCell(B1, "=A1+B1") on the sheet that holds the
formula "=1" at B1: the probe materialises A1 and the rollback re-parses "=1". -/
theorem C1_circular_failure_keeps_cells_witness :
    Reachable sampleParse sheetB1const ∧
      sheetB1const.SetCell sampleParse 5 B1 "=A1+B1" =
        some (.threw .CircularDependencyException sheetB1const_A1empty) ∧
      ((∀ q c, q ≠ B1 → sheetB1const.GetCell q = .ok (some c) →
        sheetB1const_A1empty.GetCell q = .ok (some c)) ∧
      (∀ c, sheetB1const.GetCell B1 = .ok (some c) →
        ∃ c', sheetB1const_A1empty.GetCell B1 = .ok (some c') ∧
          Cell.Set sampleParse c.GetText = .ok c' ∧
          ((c.GetText = "" ∨ IsTextInput c.GetText) → c'.GetText = c.GetText) ∧
          (IsFormulaInput c.GetText → ∃ f', sampleParse (strTail c.GetText) = some f' ∧
            c'.GetText = strCons FORMULA_SIGN f'.GetExpression ∧
            (f'.GetExpression = strTail c.GetText → c'.GetText = c.GetText))) ∧
      (∀ q, sheetB1const.GetCell q = .ok none →
        sheetB1const_A1empty.GetCell q = .ok none ∨
          (q ≠ B1 ∧ sheetB1const_A1empty.GetCell q = .ok (some ⟨.EmptyImpl⟩))) ∧
      (∃ sz sz', sheetB1const.GetPrintableSize = .ok sz ∧
        sheetB1const_A1empty.GetPrintableSize = .ok sz' ∧
        sz.rows ≤ sz'.rows ∧ sz.cols ≤ sz'.cols ∧
        ((∀ q, sheetB1const.GetCell q = .ok none → sheetB1const_A1empty.GetCell q = .ok none) →
          sz' = sz))) :=
  ⟨reachable_B1const, by decide,
    C1_circular_failure_keeps_cells sampleParse 5 sheetB1const B1 "=A1+B1"
      sheetB1const_A1empty reachable_B1const (by decide)⟩

/-- C5 (witness): the sheet after SetCell(A1, "=B1") has printable size (1, 2). -/
theorem C5_printable_size_is_bounding_box_witness :
    Reachable sampleParse sheetA1refB1 ∧
      ∃ sz : Size, sheetA1refB1.GetPrintableSize = .ok sz ∧
        sheetA1refB1.IsBoundingBox sz.rows sz.cols ∧
        ((∀ r c, sheetA1refB1.slot r c = none) → sz = ⟨0, 0⟩) :=
  ⟨reachable_A1refB1, C5_printable_size_is_bounding_box sampleParse sheetA1refB1 reachable_A1refB1⟩

/-- C6 (witness): SetCell(A1, "=B1") on the empty sheet. -/
theorem C6_SetCell_then_GetText_witness :
    Sheet.empty.SetCell sampleParse 5 A1 "=B1" = some (.returned () sheetA1refB1) ∧
      ∃ c, sheetA1refB1.GetCell A1 = .ok (some c) ∧
        (("=B1" = "" ∨ IsTextInput "=B1") → c.GetText = "=B1") ∧
        (IsFormulaInput "=B1" → ∃ f, sampleParse (strTail "=B1") = some f ∧
          c.GetText = strCons FORMULA_SIGN f.GetExpression) :=
  ⟨run_A1refB1, C6_SetCell_then_GetText sampleParse 5 Sheet.empty A1 "=B1" sheetA1refB1 run_A1refB1⟩

/-- C9 (witness): the text "''a" has the value "'a". -/
theorem C9_text_value_witness :
    IsTextInput "''a" ∧
      ∃ c, Cell.Set sampleParse "''a" = .ok c ∧ c.GetText = "''a" ∧
        (∀ rest : String, "''a" = strCons ESCAPE_SIGN rest →
          c.GetValue sampleEvaluate = .text rest) ∧
        (strFront "''a" ≠ ESCAPE_SIGN → c.GetValue sampleEvaluate = .text "''a") :=
  ⟨⟨by decide, Or.inl (by decide)⟩,
    C9_text_value sampleParse sampleEvaluate "''a" ⟨by decide, Or.inl (by decide)⟩⟩

theorem invalidateLoop_fuel (recur recur' : Sheet → Position → Option (Outcome Unit))
    (hrec : ∀ s p o, recur s p = some o → recur' s p = some o) :
    ∀ (deps : List Position) (s : Sheet) (o : Outcome Unit),
      invalidateLoop recur deps s = some o → invalidateLoop recur' deps s = some o := by
  intro deps
  induction deps with
  | nil =>
      intro s o h
      simpa only [invalidateLoop] using h
  | cons d rest ih =>
      intro s o h
      simp only [invalidateLoop] at h ⊢
      split at h
      · exact h
      · exact h
      · rename_i cell hg
        split at h
        · rename_i u s1 hr
          simp only [hrec _ _ _ hr]
          exact ih s1 o h
        · rename_i hno
          have h' := hrec _ _ _ h
          simp only [h']
          cases o with
          | returned u s1 => exact absurd h (hno u s1)
          | threw ex s1 => rfl
          | undefined => rfl

theorem Sheet.InvalidateCellCash_fuel :
    ∀ (fuel : Nat) (s : Sheet) (pos : Position) (o : Outcome Unit),
      Sheet.InvalidateCellCash fuel s pos = some o →
      Sheet.InvalidateCellCash (fuel + 1) s pos = some o := by
  intro fuel
  induction fuel with
  | zero =>
      intro s pos o h
      simp [Sheet.InvalidateCellCash] at h
  | succ k ih =>
      intro s pos o h
      rw [Sheet.InvalidateCellCash] at h ⊢
      exact invalidateLoop_fuel _ _ (fun s1 p o1 h1 => ih s1 p o1 h1) _ s o h

theorem probeLoop_fuel
    (setCell setCell' : Sheet → Position → String → Option (Outcome Unit))
    (recur recur' : Sheet → Cell → Option (Outcome Bool))
    (start : Option Position) (e : Position)
    (hset : ∀ s p t o, setCell s p t = some o → setCell' s p t = some o)
    (hrec : ∀ s c o, recur s c = some o → recur' s c = some o) :
    ∀ (refs : List Position) (s : Sheet) (o : Outcome Bool),
      probeLoop setCell recur start e refs s = some o →
      probeLoop setCell' recur' start e refs s = some o := by
  intro refs
  induction refs with
  | nil =>
      intro s o h
      simpa only [probeLoop] using h
  | cons r rest ih =>
      intro s o h
      simp only [probeLoop] at h ⊢
      split at h
      · rename_i heq
        rw [if_pos heq]
        exact h
      · rename_i hne
        rw [if_neg hne]
        split at h
        · exact h
        · split at h
          · rename_i hst
            rw [if_pos hst]
            exact h
          · rename_i hst
            rw [if_neg hst]
            split at h
            · rename_i s1 hr
              simp only [hrec _ _ _ hr]
              exact h
            · rename_i s1 hr
              simp only [hrec _ _ _ hr]
              exact ih s1 o h
            · rename_i hn1 hn2
              have h' := hrec _ _ _ h
              simp only [h']
              cases o with
              | returned b s1 =>
                  cases b with
                  | true => exact absurd h (hn1 s1)
                  | false => exact absurd h (hn2 s1)
              | threw ex s1 => rfl
              | undefined => rfl
        · split at h
          · rename_i u s1 hsc
            simp only [hset _ _ _ _ hsc]
            split at h
            · exact h
            · exact h
            · split at h
              · rename_i hst
                rw [if_pos hst]
                exact h
              · rename_i hst
                rw [if_neg hst]
                split at h
                · rename_i s2 hr
                  simp only [hrec _ _ _ hr]
                  exact h
                · rename_i s2 hr
                  simp only [hrec _ _ _ hr]
                  exact ih s2 o h
                · rename_i hn1 hn2
                  have h' := hrec _ _ _ h
                  simp only [h']
                  cases o with
                  | returned b s2 =>
                      cases b with
                      | true => exact absurd h (hn1 s2)
                      | false => exact absurd h (hn2 s2)
                  | threw ex s2 => rfl
                  | undefined => rfl
          · rename_i ex s1 hsc
            simp only [hset _ _ _ _ hsc]
            exact h
          · rename_i hsc
            simp only [hset _ _ _ _ hsc]
            exact h
          · cases h

theorem Sheet.SetCellWith_fuel (P : String → Option FormulaInterface)
    (inv inv' : Sheet → Position → Option (Outcome Unit))
    (probe probe' : Sheet → Cell → Option Position → Position → Option (Outcome Bool))
    (hinv : ∀ s p o, inv s p = some o → inv' s p = some o)
    (hprobe : ∀ s c st e o, probe s c st e = some o → probe' s c st e = some o)
    (s : Sheet) (pos : Position) (text : String) (o : Outcome Unit)
    (h : Sheet.SetCellWith P inv probe s pos text = some o) :
    Sheet.SetCellWith P inv' probe' s pos text = some o := by
  unfold Sheet.SetCellWith at h ⊢
  by_cases hv : pos.IsValid = true
  · simp only [hv, Bool.not_true, Bool.false_eq_true, if_false] at h ⊢
    split at h
    · exact h
    · split at h
      · rename_i u s1 hi
        simp only [hinv _ _ _ hi]
        split at h
        · exact h
        · split at h
          · rename_i s5 hp
            simp only [hprobe _ _ _ _ _ hp]
            exact h
          · rename_i s5 hp
            simp only [hprobe _ _ _ _ _ hp]
            exact h
          · rename_i ex s5 hp
            simp only [hprobe _ _ _ _ _ hp]
            exact h
          · rename_i hp
            simp only [hprobe _ _ _ _ _ hp]
            exact h
          · cases h
      · rename_i ex s1 hi
        simp only [hinv _ _ _ hi]
        exact h
      · rename_i hi
        simp only [hinv _ _ _ hi]
        exact h
      · cases h
    · split at h
      · exact h
      · split at h
        · rename_i s1 hp
          simp only [hprobe _ _ _ _ _ hp]
          exact h
        · rename_i s1 hp
          simp only [hprobe _ _ _ _ _ hp]
          exact h
        · rename_i ex s1 hp
          simp only [hprobe _ _ _ _ _ hp]
          exact h
        · rename_i hp
          simp only [hprobe _ _ _ _ _ hp]
          exact h
        · cases h
  · have hv' : pos.IsValid = false := by simpa using hv
    simp only [hv', Bool.not_false, if_true] at h ⊢
    exact h

theorem Cell.IsCyclicDependent_fuel (P : String → Option FormulaInterface) :
    ∀ (fuel : Nat) (s : Sheet) (this : Cell) (start : Option Position) (e : Position)
      (o : Outcome Bool), Cell.IsCyclicDependent P fuel s this start e = some o →
      Cell.IsCyclicDependent P (fuel + 1) s this start e = some o := by
  intro fuel
  induction fuel with
  | zero =>
      intro s this start e o h
      simp [Cell.IsCyclicDependent] at h
  | succ k ih =>
      intro s this start e o h
      rw [Cell.IsCyclicDependent] at h ⊢
      refine probeLoop_fuel _ _ _ _ start e ?_ ?_ _ s o h
      · intro s1 p t o1 h1
        exact Sheet.SetCellWith_fuel P _ _ _ _
          (fun s2 q o2 h2 => Sheet.InvalidateCellCash_fuel k s2 q o2 h2)
          (fun s2 c st e2 o2 h2 => ih s2 c st e2 o2 h2) s1 p t o1 h1
      · intro s1 c o1 h1
        exact ih s1 c start e o1 h1

/-- A result of `SetCell` does not depend on the fuel: more fuel gives the same
result. -/
theorem Sheet.SetCell_fuel (P : String → Option FormulaInterface) (fuel : Nat) (s : Sheet)
    (pos : Position) (text : String) (o : Outcome Unit)
    (h : s.SetCell P fuel pos text = some o) (extra : Nat) :
    s.SetCell P (fuel + extra) pos text = some o := by
  induction extra with
  | zero => exact h
  | succ k ih =>
      exact Sheet.SetCellWith_fuel P _ _ _ _
        (fun s2 q o2 h2 => Sheet.InvalidateCellCash_fuel (fuel + k) s2 q o2 h2)
        (fun s2 c st e2 o2 h2 => Cell.IsCyclicDependent_fuel P (fuel + k) s2 c st e2 o2 h2)
        s pos text o ih

theorem Materialised.refs_iff {e : Position} {s s' : Sheet} (h : Materialised e s s')
    (x y : Position) : s'.Refs x y ↔ s.Refs x y := by
  unfold Sheet.Refs
  constructor
  · rintro ⟨c, hc, hy⟩
    have hv := s'.GetCell_ok_valid x _ hc
    have hs := s'.GetCell_ok_slot x _ hc
    rcases h.slot_from _ _ c hs with h1 | ⟨rfl, _⟩
    · exact ⟨c, by rw [Sheet.GetCell_eq _ x hv, h1], hy⟩
    · cases hy
  · rintro ⟨c, hc, hy⟩
    have hv := s.GetCell_ok_valid x _ hc
    have hs := s.GetCell_ok_slot x _ hc
    exact ⟨c, by rw [Sheet.GetCell_eq _ x hv, h.slot_some _ _ c hs], hy⟩

theorem Materialised.reaches_iff {e : Position} {s s' : Sheet} (h : Materialised e s s')
    (e' : Position) (refs : List Position) : s'.ReachesFrom e' refs ↔ s.ReachesFrom e' refs := by
  have hrel : s'.RefsAvoiding e' = s.RefsAvoiding e' := by
    funext x y
    unfold Sheet.RefsAvoiding
    rw [h.refs_iff]
  unfold Sheet.ReachesFrom
  rw [hrel]

theorem Sheet.GetCell_materialise (s : Sheet) (r : Position) (hv : r.IsValid = true) :
    (s.materialise r).GetCell r = .ok (some ⟨.EmptyImpl⟩) := by
  rw [Sheet.GetCell_eq _ r hv, Sheet.slot_materialise _ r hv, if_pos ⟨rfl, rfl⟩]

theorem Sheet.reaches_cons (s : Sheet) (e r : Position) (rest : List Position) :
    s.ReachesFrom e (r :: rest) ↔
      (Relation.ReflTransGen (s.RefsAvoiding e) r e ∨ s.ReachesFrom e rest) := by
  unfold Sheet.ReachesFrom
  simp only [List.mem_cons, exists_eq_or_imp]

/-- A path from `r` to `e`, for `r` other than `e`, starts with a reference of the
cell at `r`. -/
theorem Sheet.reaches_step (s : Sheet) (e r : Position) (hne : r ≠ e) :
    Relation.ReflTransGen (s.RefsAvoiding e) r e ↔
      ∃ c, s.GetCell r = .ok (some c) ∧ s.ReachesFrom e c.GetReferencedCells := by
  constructor
  · intro h
    rcases Relation.ReflTransGen.cases_head h with h0 | ⟨y, hstep, hrest⟩
    · exact absurd h0 hne
    · obtain ⟨_, c, hc, hy⟩ := hstep
      exact ⟨c, hc, y, hy, hrest⟩
  · rintro ⟨c, hc, y, hy, hrest⟩
    exact Relation.ReflTransGen.head ⟨hne, c, hc, hy⟩ hrest

theorem probeLoop_spec
    (setCell : Sheet → Position → String → Option (Outcome Unit))
    (recur : Sheet → Cell → Option (Outcome Bool))
    (start : Option Position) (e : Position) (hstart : start = none ∨ start = some e)
    (hset : ∀ s r, s.GetCell r = .ok none → ∀ o, setCell s r "" = some o →
      o = .returned () (s.materialise r))
    (hrec : ∀ s c b s', recur s c = some (.returned b s') →
      Materialised e s s' ∧ (b = true ↔ s.ReachesFrom e c.GetReferencedCells)) :
    ∀ (refs : List Position) (s : Sheet) (b : Bool) (s' : Sheet),
      probeLoop setCell recur start e refs s = some (.returned b s') →
      (b = true ↔ s.ReachesFrom e refs) := by
  intro refs
  induction refs with
  | nil =>
      intro s b s' h
      simp only [probeLoop, Option.some.injEq, Outcome.returned.injEq] at h
      obtain ⟨rfl, _⟩ := h
      simp [Sheet.ReachesFrom]
  | cons r rest ih =>
      intro s b s' h
      rw [Sheet.reaches_cons]
      simp only [probeLoop] at h
      split at h
      · rename_i heq
        simp only [Option.some.injEq, Outcome.returned.injEq] at h
        obtain ⟨rfl, _⟩ := h
        subst heq
        exact ⟨fun _ => Or.inl .refl, fun _ => rfl⟩
      · rename_i hne
        have hst : ¬ start = some r := by
          rcases hstart with h0 | h0
          · rw [h0]; simp
          · rw [h0]
            simp only [Option.some.injEq]
            exact fun k => hne k.symm
        rw [Sheet.reaches_step s e r hne]
        split at h
        · cases h
        · rename_i ref_cell hg
          rw [if_neg hst] at h
          split at h
          · rename_i s1 hr
            simp only [Option.some.injEq, Outcome.returned.injEq] at h
            obtain ⟨rfl, _⟩ := h
            have := (hrec _ _ _ _ hr).2.1 rfl
            exact ⟨fun _ => Or.inl ⟨ref_cell, hg, this⟩, fun _ => rfl⟩
          · rename_i s1 hr
            have hm := (hrec _ _ _ _ hr).1
            have hno : ¬ s.ReachesFrom e ref_cell.GetReferencedCells := fun k => by
              have := (hrec _ _ _ _ hr).2.2 k
              cases this
            rw [ih s1 b s' h, hm.reaches_iff]
            constructor
            · exact fun k => Or.inr k
            · rintro (⟨c, hc, k⟩ | k)
              · rw [hg] at hc
                cases hc
                exact absurd k hno
              · exact k
          · rename_i hn1 hn2
            cases b with
            | true => exact absurd h (hn1 s')
            | false => exact absurd h (hn2 s')
        · rename_i hg
          have hv := s.GetCell_ok_valid r none hg
          have hsl := s.GetCell_ok_slot r none hg
          have hnor : ¬ ∃ c, s.GetCell r = .ok (some c) ∧ s.ReachesFrom e c.GetReferencedCells := by
            rintro ⟨c, hc, _⟩
            rw [hg] at hc
            cases hc
          split at h
          · rename_i u s1 hsc
            have e1 := hset s r hg _ hsc
            simp only [Outcome.returned.injEq] at e1
            obtain ⟨_, rfl⟩ := e1
            have m1 : Materialised e s (s.materialise r) :=
              .step r hne hv hsl (.refl _)
            rw [Sheet.GetCell_materialise s r hv] at h
            simp only [if_neg hst] at h
            split at h
            · rename_i s2 hr
              have := (hrec _ _ _ _ hr).2.1 rfl
              obtain ⟨y, hy, _⟩ := this
              cases hy
            · rename_i s2 hr
              have hm := (hrec _ _ _ _ hr).1
              rw [ih s2 b s' h, hm.reaches_iff, m1.reaches_iff]
              constructor
              · exact fun k => Or.inr k
              · rintro (k | k)
                · exact absurd k hnor
                · exact k
            · rename_i hn1 hn2
              cases b with
              | true => exact absurd h (hn1 s')
              | false => exact absurd h (hn2 s')
          · cases h
          · cases h
          · cases h

/-- The cycle probe returns true exactly when `end_pos` is reached from the
referenced cells of `this` along references of cells other than `end_pos`. -/
theorem Cell.IsCyclicDependent_spec (P : String → Option FormulaInterface) :
    ∀ (fuel : Nat) (s : Sheet) (this : Cell) (start : Option Position) (e : Position)
      (b : Bool) (s' : Sheet), (start = none ∨ start = some e) →
      Cell.IsCyclicDependent P fuel s this start e = some (.returned b s') →
      (b = true ↔ s.ReachesFrom e this.GetReferencedCells) := by
  intro fuel
  induction fuel with
  | zero =>
      intro s this start e b s' _ h
      simp [Cell.IsCyclicDependent] at h
  | succ k ih =>
      intro s this start e b s' hstart h
      rw [Cell.IsCyclicDependent] at h
      refine probeLoop_spec _ _ start e hstart ?_ ?_ _ s b s' h
      · intro s1 r hn o1 h1
        exact Sheet.SetCellWith_materialise P _ k s1 r hn o1 h1
      · intro s1 c b1 s1' h1
        exact ⟨Cell.IsCyclicDependent_materialised P k s1 c start e _ h1,
          ih s1 c start e b1 s1' hstart h1⟩

theorem Materialised.ranked {e : Position} {s s' : Sheet} (h : Materialised e s s')
    (e' : Position) (rank : Position → Nat) (hr : s.Ranked e' rank) : s'.Ranked e' rank := by
  intro x y hxy
  exact hr x y ⟨hxy.1, (h.refs_iff x y).1 hxy.2⟩

theorem Sheet.SetCellWith_materialise_some (P : String → Option FormulaInterface)
    (inv : Sheet → Position → Option (Outcome Unit)) (fuel : Nat) (s : Sheet) (r : Position)
    (hn : s.GetCell r = .ok none) :
    Sheet.SetCellWith P inv (fun s2 c st e => Cell.IsCyclicDependent P (fuel + 1) s2 c st e) s r ""
      = some (.returned () (s.materialise r)) := by
  have hv := s.GetCell_ok_valid r none hn
  have hs := s.GetCell_ok_slot r none hn
  have h0 : (s.Reserve r).GetCell r = .ok none := by
    rw [Sheet.GetCell_eq _ r hv, Sheet.slot_Reserve, hs]
  unfold Sheet.SetCellWith
  simp only [hv, Bool.not_true, Bool.false_eq_true, if_false, h0, Cell.Set_empty,
    Cell.IsCyclicDependent, Cell.GetReferencedCells, Impl.IGetReferencedCells,
    probeLoop, Sheet.addReferences, List.foldl_nil]
  rfl

theorem probeLoop_terminates
    (setCell : Sheet → Position → String → Option (Outcome Unit))
    (recur : Sheet → Cell → Option (Outcome Bool))
    (start : Option Position) (e : Position) (rank : Position → Nat)
    (hset : ∀ s r, s.GetCell r = .ok none →
      setCell s r "" = some (.returned () (s.materialise r)))
    (hmat : ∀ s c o, recur s c = some o → o.Via (Materialised e s))
    (good : Position → Prop)
    (hrec : ∀ s r c, s.Ranked e rank → good r → r ≠ e → s.GetCell r = .ok (some c) →
      ∃ b s', recur s c = some (.returned b s')) :
    ∀ (refs : List Position) (s : Sheet), s.Ranked e rank →
      (∀ r ∈ refs, r.IsValid = true ∧ good r) →
      ∃ b s', probeLoop setCell recur start e refs s = some (.returned b s') := by
  intro refs
  induction refs with
  | nil =>
      intro s _ _
      exact ⟨false, s, rfl⟩
  | cons r rest ih =>
      intro s hs hrefs
      have hr := hrefs r (List.mem_cons_self _ _)
      have hrest : ∀ x ∈ rest, x.IsValid = true ∧ good x :=
        fun x hx => hrefs x (List.mem_cons_of_mem _ hx)
      simp only [probeLoop]
      by_cases heq : r = e
      · rw [if_pos heq]
        exact ⟨true, s, rfl⟩
      · rw [if_neg heq, Sheet.GetCell_eq s r hr.1]
        cases hsl : s.slot r.row.toNat r.col.toNat with
        | some ref_cell =>
            simp only
            by_cases hst : start = some r
            · rw [if_pos hst]
              exact ⟨true, s, rfl⟩
            · rw [if_neg hst]
              have hg : s.GetCell r = .ok (some ref_cell) := by
                rw [Sheet.GetCell_eq s r hr.1, hsl]
              obtain ⟨b, s1, h1⟩ := hrec s r ref_cell hs hr.2 heq hg
              have m1 : Materialised e s s1 := hmat _ _ _ h1
              rw [h1]
              cases b with
              | true => exact ⟨true, s1, rfl⟩
              | false => exact ih s1 (m1.ranked e rank hs) hrest
        | none =>
            simp only
            have hg : s.GetCell r = .ok none := by
              rw [Sheet.GetCell_eq s r hr.1, hsl]
            rw [hset s r hg]
            simp only [Sheet.GetCell_materialise s r hr.1]
            have m1 : Materialised e s (s.materialise r) :=
              .step r heq hr.1 hsl (.refl _)
            by_cases hst : start = some r
            · rw [if_pos hst]
              exact ⟨true, _, rfl⟩
            · rw [if_neg hst]
              obtain ⟨b, s1, h1⟩ := hrec (s.materialise r) r ⟨.EmptyImpl⟩
                (m1.ranked e rank hs) hr.2 heq (Sheet.GetCell_materialise s r hr.1)
              have m2 : Materialised e (s.materialise r) s1 := hmat _ _ _ h1
              rw [h1]
              cases b with
              | true => exact ⟨true, s1, rfl⟩
              | false => exact ih s1 (m2.ranked e rank (m1.ranked e rank hs)) hrest

/-- The cycle probe returns when the references it follows form a directed acyclic
graph: fuel beyond the rank of the referenced cells suffices. -/
theorem Cell.IsCyclicDependent_terminates (P : String → Option FormulaInterface)
    (start : Option Position) (e : Position) (rank : Position → Nat) :
    ∀ (n : Nat) (s : Sheet) (this : Cell), s.Ranked e rank →
      (∀ r ∈ this.GetReferencedCells, r.IsValid = true ∧ rank r < n) →
      ∃ b s', Cell.IsCyclicDependent P (n + 1) s this start e = some (.returned b s') := by
  intro n
  induction n with
  | zero =>
      intro s this _ hrefs
      have : this.GetReferencedCells = [] := by
        cases hl : this.GetReferencedCells with
        | nil => rfl
        | cons r rest =>
            have := (hrefs r (by rw [hl]; exact List.mem_cons_self _ _)).2
            omega
      rw [Cell.IsCyclicDependent, this]
      exact ⟨false, s, rfl⟩
  | succ m ih =>
      intro s this hs hrefs
      rw [Cell.IsCyclicDependent]
      refine probeLoop_terminates _ _ start e rank ?_ ?_ (fun r => rank r < m + 1) ?_ _ s hs hrefs
      · intro s1 r hn
        exact Sheet.SetCellWith_materialise_some P _ m s1 r hn
      · intro s1 c o h1
        exact Cell.IsCyclicDependent_materialised P (m + 1) s1 c start e o h1
      · intro s1 r c hs1 hr hne hg
        refine ih s1 c hs1 (fun y hy => ?_)
        have := hs1 r y ⟨hne, c, hg, hy⟩
        exact ⟨this.2, by omega⟩

theorem Sheet.InvalidateCellCash_fuel_le (n m : Nat) (hnm : n ≤ m) (s : Sheet) (pos : Position)
    (o : Outcome Unit) (h : Sheet.InvalidateCellCash n s pos = some o) :
    Sheet.InvalidateCellCash m s pos = some o := by
  induction m with
  | zero =>
      have : n = 0 := by omega
      subst this
      exact h
  | succ k ih =>
      by_cases hk : n ≤ k
      · exact Sheet.InvalidateCellCash_fuel k s pos o (ih hk)
      · have : n = k + 1 := by omega
        subst this
        exact h

theorem Cell.IsCyclicDependent_fuel_le (P : String → Option FormulaInterface) (n m : Nat)
    (hnm : n ≤ m) (s : Sheet) (this : Cell) (start : Option Position) (e : Position)
    (o : Outcome Bool) (h : Cell.IsCyclicDependent P n s this start e = some o) :
    Cell.IsCyclicDependent P m s this start e = some o := by
  induction m with
  | zero =>
      have : n = 0 := by omega
      subst this
      exact h
  | succ k ih =>
      by_cases hk : n ≤ k
      · exact Cell.IsCyclicDependent_fuel P k s this start e o (ih hk)
      · have : n = k + 1 := by omega
        subst this
        exact h

theorem exists_rank_bound (rank : Position → Nat) (l : List Position) :
    ∃ N, ∀ r ∈ l, rank r < N := by
  induction l with
  | nil => exact ⟨0, fun r hr => by cases hr⟩
  | cons a rest ih =>
      obtain ⟨N, hN⟩ := ih
      refine ⟨max N (rank a + 1), fun r hr => ?_⟩
      rcases List.mem_cons.1 hr with rfl | hr
      · omega
      · have := hN r hr
        omega

/-- The probe for `e` follows the same references in two sheets whose slots other
than the slot of `e` hold cells with the same referenced cells. -/
theorem Sheet.refsAvoiding_congr {s s' : Sheet} (e : Position) (he : e.IsValid = true)
    (h : ∀ r c, ¬ (r = e.row.toNat ∧ c = e.col.toNat) →
      (s'.slot r c).map Cell.GetReferencedCells = (s.slot r c).map Cell.GetReferencedCells) :
    s'.RefsAvoiding e = s.RefsAvoiding e := by
  have key : ∀ (a b : Sheet), (∀ r c, ¬ (r = e.row.toNat ∧ c = e.col.toNat) →
      (b.slot r c).map Cell.GetReferencedCells = (a.slot r c).map Cell.GetReferencedCells) →
      ∀ x y, a.RefsAvoiding e x y → b.RefsAvoiding e x y := by
    intro a b hab x y hxy
    obtain ⟨hne, c, hc, hy⟩ := hxy
    have hv := a.GetCell_ok_valid x _ hc
    have hs := a.GetCell_ok_slot x _ hc
    have hidx := Position.toNat_ne hv he hne
    have := hab _ _ hidx
    rw [hs] at this
    cases hb : b.slot x.row.toNat x.col.toNat with
    | none => rw [hb] at this; cases this
    | some c' =>
        rw [hb] at this
        simp only [Option.map_some', Option.some.injEq] at this
        exact ⟨hne, c', by rw [Sheet.GetCell_eq _ x hv, hb], by rw [this]; exact hy⟩
  funext x y
  exact propext ⟨key s' s (fun r c hrc => (h r c hrc).symm) x y, key s s' h x y⟩

theorem Cell.GetReferencedCells_InvalidateCache (c : Cell) :
    c.InvalidateCache.GetReferencedCells = c.GetReferencedCells := by
  cases c with
  | mk i => cases i <;> rfl

theorem Invalidated.refs_map {s s' : Sheet} (h : Invalidated s s') (r c : Nat) :
    (s'.slot r c).map Cell.GetReferencedCells = (s.slot r c).map Cell.GetReferencedCells := by
  have := congrArg (Option.map Cell.GetReferencedCells) (h.slot_map r c)
  simpa only [Option.map_map, Function.comp_def, Cell.GetReferencedCells_InvalidateCache]
    using this

/-- The cycle probe of `SetCell(pos, text)`, run with enough fuel on a sheet `t`
whose cells other than the one at `pos` reference what they reference in `s`,
returns whether `pos` is reached from the new content. -/
theorem Cell.IsCyclicDependent_decides (P : String → Option FormulaInterface) (s t : Sheet)
    (pos : Position) (nc : Cell) (start : Option Position) (rank : Position → Nat)
    (hstart : start = none ∨ start = some pos) (hv : pos.IsValid = true)
    (hnew : ∀ r ∈ nc.GetReferencedCells, r.IsValid = true) (hdag : s.Ranked pos rank)
    (hst : ∀ r c, ¬ (r = pos.row.toNat ∧ c = pos.col.toNat) →
      (t.slot r c).map Cell.GetReferencedCells = (s.slot r c).map Cell.GetReferencedCells) :
    ∃ N, ∀ fuel, N ≤ fuel → ∃ b t',
      Cell.IsCyclicDependent P fuel t nc start pos = some (.returned b t') ∧
      (b = true ↔ s.ReachesFrom pos nc.GetReferencedCells) := by
  have hrel := Sheet.refsAvoiding_congr pos hv hst
  have hdag' : t.Ranked pos rank := by
    intro x y hxy
    rw [hrel] at hxy
    exact hdag x y hxy
  obtain ⟨N, hN⟩ := exists_rank_bound rank nc.GetReferencedCells
  refine ⟨N + 1, fun fuel hf => ?_⟩
  obtain ⟨b, t', hb⟩ := Cell.IsCyclicDependent_terminates P start pos rank N t nc hdag'
    (fun r hr => ⟨hnew r hr, hN r hr⟩)
  have hb' := Cell.IsCyclicDependent_fuel_le P (N + 1) fuel hf t nc start pos _ hb
  refine ⟨b, t', hb', ?_⟩
  rw [Cell.IsCyclicDependent_spec P fuel t nc start pos b t' hstart hb']
  unfold Sheet.ReachesFrom
  rw [hrel]

/-- The probe of `SetCell` decides the cycle: on a sheet whose references (of the
cells other than the one at `pos`) form a directed acyclic graph over valid
positions, for a text that `Cell::Set` accepts with valid referenced cells, and
provided that, when a cell lives at `pos`, the invalidation pass from `pos`
returns and the text of that cell can be set again, `SetCell(pos, text)` fails
with circular-dependency when `pos` is reached from the new content along
references, and returns when it is not. -/
theorem Sheet.SetCell_decides_cycle (P : String → Option FormulaInterface) (s : Sheet)
    (pos : Position) (text : String) (nc : Cell) (rank : Position → Nat)
    (hv : pos.IsValid = true) (hset : Cell.Set P text = .ok nc)
    (hnew : ∀ r ∈ nc.GetReferencedCells, r.IsValid = true) (hdag : s.Ranked pos rank)
    (hold : ∀ c, s.GetCell pos = .ok (some c) →
      (∃ n s1, Sheet.InvalidateCellCash n (s.Reserve pos) pos = some (.returned () s1)) ∧
      (∃ c', Cell.Set P c.GetText = .ok c')) :
    (s.ReachesFrom pos nc.GetReferencedCells →
      ∃ fuel s', s.SetCell P fuel pos text = some (.threw .CircularDependencyException s')) ∧
    (¬ s.ReachesFrom pos nc.GetReferencedCells →
      ∃ fuel s', s.SetCell P fuel pos text = some (.returned () s')) := by
  have hg0 : (s.Reserve pos).GetCell pos = s.GetCell pos := by
    rw [Sheet.GetCell_eq _ pos hv, Sheet.GetCell_eq _ pos hv, Sheet.slot_Reserve]
  cases hcell : s.slot pos.row.toNat pos.col.toNat with
  | none =>
      have hg : (s.Reserve pos).GetCell pos = .ok none := by
        rw [hg0, Sheet.GetCell_eq _ pos hv, hcell]
      obtain ⟨N, hN⟩ := Cell.IsCyclicDependent_decides P s (s.Reserve pos) pos nc none rank
        (Or.inl rfl) hv hnew hdag (fun r c _ => by rw [Sheet.slot_Reserve])
      obtain ⟨b, t', hb, hiff⟩ := hN N (Nat.le_refl _)
      have hrun : ∀ o, (match (some (Outcome.returned b t') : Option (Outcome Bool)) with
          | some (.returned true s1) => some (.threw .CircularDependencyException s1)
          | some (.returned false s1) =>
              some (.returned ()
                ((s1.addReferences nc.GetReferencedCells pos).setSlot pos (some nc)).UpdatePrintableSize)
          | some (.threw e s1) => some (.threw e s1)
          | some .undefined => some .undefined
          | none => none) = some o → s.SetCell P N pos text = some o := by
        intro o ho
        unfold Sheet.SetCell Sheet.SetCellWith
        simp only [hv, Bool.not_true, Bool.false_eq_true, if_false, hg, hset, hb]
        exact ho
      constructor
      · intro hreach
        have : b = true := hiff.2 hreach
        subst this
        exact ⟨N, t', hrun _ rfl⟩
      · intro hno
        have : b = false := by
          cases b with
          | false => rfl
          | true => exact absurd (hiff.1 rfl) hno
        subst this
        exact ⟨N, _, hrun _ rfl⟩
  | some cell =>
      have hgs : s.GetCell pos = .ok (some cell) := by
        rw [Sheet.GetCell_eq _ pos hv, hcell]
      have hg : (s.Reserve pos).GetCell pos = .ok (some cell) := by rw [hg0, hgs]
      obtain ⟨⟨n, s1, hinv⟩, ⟨c', hc'⟩⟩ := hold cell hgs
      have mi : Invalidated (s.Reserve pos) s1 :=
        Sheet.InvalidateCellCash_invalidated n _ _ _ hinv
      obtain ⟨N, hN⟩ := Cell.IsCyclicDependent_decides P s
        (((s1.DeleteDependencies pos).setSlot pos (some (Cell.Clear cell))).setSlot pos (some nc))
        pos nc (some pos) rank (Or.inr rfl) hv hnew hdag (fun r c hrc => by
          rw [Sheet.slot_setSlot, if_neg (fun k => hrc ⟨k.1, k.2.1⟩), Sheet.slot_setSlot,
            if_neg (fun k => hrc ⟨k.1, k.2.1⟩)]
          have := mi.refs_map r c
          rw [Sheet.slot_Reserve] at this
          exact this)
      obtain ⟨b, t', hb, hiff⟩ := hN (max n N) (Nat.le_max_right _ _)
      have hinv' := Sheet.InvalidateCellCash_fuel_le n (max n N) (Nat.le_max_left _ _) _ _ _ hinv
      have hrun : ∀ o, (match (some (Outcome.returned b t') : Option (Outcome Bool)) with
          | some (.returned true s5) =>
              (match Cell.Set P cell.GetText with
                | .error e => some (.threw e s5)
                | .ok restored =>
                    some (.threw .CircularDependencyException (s5.setSlot pos (some restored))))
          | some (.returned false s5) =>
              some (.returned () (s5.addReferences nc.GetReferencedCells pos))
          | some (.threw e s5) => some (.threw e s5)
          | some .undefined => some .undefined
          | none => none) = some o → s.SetCell P (max n N) pos text = some o := by
        intro o ho
        unfold Sheet.SetCell Sheet.SetCellWith
        simp only [hv, Bool.not_true, Bool.false_eq_true, if_false, hg, hinv', hset, hb]
        exact ho
      constructor
      · intro hreach
        have : b = true := hiff.2 hreach
        subst this
        refine ⟨max n N, t'.setSlot pos (some c'), hrun _ ?_⟩
        simp only [hc']
      · intro hno
        have : b = false := by
          cases b with
          | false => rfl
          | true => exact absurd (hiff.1 rfl) hno
        subst this
        exact ⟨max n N, _, hrun _ rfl⟩

theorem Sheet.SetCell_add_comm (P : String → Option FormulaInterface) (s : Sheet)
    (pos : Position) (text : String) (f1 f2 : Nat) (o1 o2 : Outcome Unit)
    (h1 : s.SetCell P f1 pos text = some o1) (h2 : s.SetCell P f2 pos text = some o2) :
    o1 = o2 := by
  have a := Sheet.SetCell_fuel P f1 s pos text o1 h1 f2
  have b := Sheet.SetCell_fuel P f2 s pos text o2 h2 f1
  rw [Nat.add_comm] at b
  rw [a] at b
  cases b
  rfl

/-- Under the conditions of `SetCell_decides_cycle`, `SetCell(pos, text)` fails with
circular-dependency if and only if `pos` is reached from the new content along
references. -/
theorem Sheet.SetCell_circular_iff (P : String → Option FormulaInterface) (s : Sheet)
    (pos : Position) (text : String) (nc : Cell) (rank : Position → Nat)
    (hv : pos.IsValid = true) (hset : Cell.Set P text = .ok nc)
    (hnew : ∀ r ∈ nc.GetReferencedCells, r.IsValid = true) (hdag : s.Ranked pos rank)
    (hold : ∀ c, s.GetCell pos = .ok (some c) →
      (∃ n s1, Sheet.InvalidateCellCash n (s.Reserve pos) pos = some (.returned () s1)) ∧
      (∃ c', Cell.Set P c.GetText = .ok c')) :
    (∃ fuel s', s.SetCell P fuel pos text = some (.threw .CircularDependencyException s')) ↔
      s.ReachesFrom pos nc.GetReferencedCells := by
  have hd := Sheet.SetCell_decides_cycle P s pos text nc rank hv hset hnew hdag hold
  constructor
  · rintro ⟨f1, s1, h1⟩
    by_contra hno
    obtain ⟨f2, s2, h2⟩ := hd.2 hno
    have := Sheet.SetCell_add_comm P s pos text f1 f2 _ _ h1 h2
    cases this
  · exact hd.1

/-- A path of references to `e` contains a path that does not leave `e` before it
ends there. -/
theorem Sheet.reaches_of_path (s : Sheet) (e r : Position)
    (h : Relation.ReflTransGen s.Refs r e) : Relation.ReflTransGen (s.RefsAvoiding e) r e := by
  induction h using Relation.ReflTransGen.head_induction_on with
  | refl => exact .refl
  | @head a c hstep _ ih =>
      by_cases ha : a = e
      · subst ha
        exact .refl
      · exact Relation.ReflTransGen.head ⟨ha, hstep⟩ ih

/-- The position `pos` is reached from the new content exactly when the installed
configuration has a reference cycle through `pos`. -/
theorem Sheet.reachesFrom_iff_cycle (s : Sheet) (pos : Position) (nc : Cell)
    (hv : pos.IsValid = true) :
    s.ReachesFrom pos nc.GetReferencedCells ↔
      Relation.TransGen (s.installed pos nc).Refs pos pos := by
  have hin : (s.Reserve pos).InRange pos.row.toNat pos.col.toNat := s.inRange_Reserve_self pos hv
  have hpos : (s.installed pos nc).GetCell pos = .ok (some nc) := by
    unfold Sheet.installed
    rw [Sheet.GetCell_eq _ pos hv, Sheet.slot_setSlot, if_pos ⟨rfl, rfl, hin⟩]
  have hrel : (s.installed pos nc).RefsAvoiding pos = s.RefsAvoiding pos := by
    apply Sheet.refsAvoiding_congr pos hv
    intro r c hrc
    unfold Sheet.installed
    rw [Sheet.slot_setSlot, if_neg (fun k => hrc ⟨k.1, k.2.1⟩), Sheet.slot_Reserve]
  constructor
  · rintro ⟨r, hr, hpath⟩
    rw [← hrel] at hpath
    have hpath' : Relation.ReflTransGen (s.installed pos nc).Refs r pos :=
      Relation.ReflTransGen.mono (fun a b hab => hab.2) hpath
    exact Relation.TransGen.head' ⟨nc, hpos, hr⟩ hpath'
  · intro h
    rcases Relation.TransGen.head'_iff.1 h with ⟨r, ⟨c, hc, hr⟩, hpath⟩
    rw [hpos] at hc
    cases hc
    refine ⟨r, hr, ?_⟩
    rw [← hrel]
    exact Sheet.reaches_of_path _ pos r hpath

/-- The text of a cell of a sheet that satisfies the invariants can be set again. -/
theorem Sheet.Inv.settable {P : String → Option FormulaInterface} {s : Sheet} (hi : s.Inv P)
    (hre : Reparses P) (q : Position) (c : Cell) (hc : s.GetCell q = .ok (some c)) :
    ∃ c', Cell.Set P c.GetText = .ok c' := by
  obtain ⟨t0, ht0⟩ := hi.cells _ _ c (s.GetCell_ok_slot q _ hc)
  rcases input_cases c.GetText with h0 | h1 | h2
  · rw [h0]
    exact ⟨_, rfl⟩
  · exact ⟨_, Cell.Set_of_text P _ h1⟩
  · rcases input_cases t0 with k0 | k1 | k2
    · subst k0
      cases ht0
      exact absurd h2.2 (by decide)
    · have := (Cell.Set_GetText P t0 c ht0).1 (Or.inr k1)
      rw [this] at h2
      exact absurd k1 ((not_textInput_iff t0 k1.1).2 h2)
    · obtain ⟨f, hp, _, ht⟩ := (Cell.Set_GetText P t0 c ht0).2 k2
      obtain ⟨f', hf'⟩ := hre _ f hp
      rw [Cell.Set_of_formula P _ h2, ht, strTail_strCons, hf']
      exact ⟨_, rfl⟩

/-- C11 (counterexample): after SetCell(A2, "x") the cell at A2 is the only cell and
the printable size is (2, 1); SetCell(A2, "") returns, the cell at A2 is still
there (as an Empty cell) and the printable size is still (2, 1). -/
theorem C11_counterexample :
    Sheet.empty.SetCell sampleParse 5 A2 "x" = some (.returned () sheetA2x) ∧
      sheetA2x.GetPrintableSize = .ok ⟨2, 1⟩ ∧
      sheetA2x.SetCell sampleParse 5 A2 "" = some (.returned () sheetA2blank) ∧
      sheetA2blank.GetCell A2 = .ok (some ⟨.EmptyImpl⟩) ∧
      sheetA2blank.GetPrintableSize = .ok ⟨2, 1⟩ :=
  ⟨by decide, rfl, by decide, rfl, rfl⟩

/-- C15 (failing input): after SetCell(A1, "=B1") and SetCell(B1, "2"), the cell at
A1 holds a formula whose referenced cells are [B1], but GetDependentCells(B1) is
empty: A1 is not a member. -/
theorem C15_reference_without_edge :
    Sheet.empty.SetCell sampleParse 5 A1 "=B1" = some (.returned () sheetA1refB1) ∧
      sheetA1refB1.GetDependentCells B1 = [A1] ∧
      sheetA1refB1.SetCell sampleParse 5 B1 "2" = some (.returned () sheetA1refB1_B1two) ∧
      sheetA1refB1_B1two.GetCell A1 = .ok (some ⟨.FormulaImpl ⟨"B1", [B1]⟩ none⟩) ∧
      (⟨.FormulaImpl ⟨"B1", [B1]⟩ none⟩ : Cell).GetReferencedCells = [B1] ∧
      sheetA1refB1_B1two.GetDependentCells B1 = [] :=
  ⟨by decide, by decide, by decide, rfl, rfl, by decide⟩

/-- C16 (failing input): after SetCell(A1, "=B1") and a successful SetCell(A1, "5"),
the new content of A1 references no cell, but A1 is still a member of
GetDependentCells(B1): the edge of the previous content is not gone. -/
theorem C16_stale_edge_after_overwrite :
    Sheet.empty.SetCell sampleParse 5 A1 "=B1" = some (.returned () sheetA1refB1) ∧
      sheetA1refB1.SetCell sampleParse 5 A1 "5" = some (.returned () sheetA1five) ∧
      sheetA1five.GetCell A1 = .ok (some ⟨.TextImpl "5" false⟩) ∧
      (⟨.TextImpl "5" false⟩ : Cell).GetReferencedCells = [] ∧
      sheetA1five.GetDependentCells B1 = [A1] :=
  ⟨by decide, by decide, rfl, rfl, by decide⟩

theorem sheetStoredCycle_invalidate_diverges :
    ∀ fuel, sheetStoredCycle.InvalidateCellCash fuel A1 = none ∧
      sheetStoredCycle.InvalidateCellCash fuel B1 = none := by
  intro fuel
  induction fuel with
  | zero => exact ⟨rfl, rfl⟩
  | succ k ih =>
      have hA : sheetStoredCycle.GetDependentCells A1 = [B1] := by decide
      have hB : sheetStoredCycle.GetDependentCells B1 = [A1] := by decide
      have gA : sheetStoredCycle.GetCell A1 = .ok (some ⟨.FormulaImpl ⟨"B1", [B1]⟩ none⟩) := rfl
      have gB : sheetStoredCycle.GetCell B1 = .ok (some ⟨.TextImpl "1" false⟩) := rfl
      have sA : sheetStoredCycle.setSlot A1
          (some (Cell.InvalidateCache ⟨.FormulaImpl ⟨"B1", [B1]⟩ none⟩)) = sheetStoredCycle := by
        decide
      have sB : sheetStoredCycle.setSlot B1
          (some (Cell.InvalidateCache ⟨.TextImpl "1" false⟩)) = sheetStoredCycle := by decide
      constructor
      · rw [Sheet.InvalidateCellCash, hA]
        simp only [invalidateLoop, gB, sB, ih.2]
      · rw [Sheet.InvalidateCellCash, hB]
        simp only [invalidateLoop, gA, sA, ih.1]

/-- C17 (failing input): after SetCell(B1, "=A1"), SetCell(B1, "1"), ClearCell(A1) and
SetCell(A1, "=B1"), all of which return, B1 is a member of GetDependentCells(A1)
and A1 is a member of GetDependentCells(B1): the stored graph has a cycle, and the
recursion of InvalidateCellCash from A1 and from B1 exhausts every fuel, as does
a following SetCell(A1, "x"). -/
theorem C17_stored_graph_cycle :
    Sheet.empty.SetCell sampleParse 5 B1 "=A1" = some (.returned () sheetB1refA1) ∧
      sheetB1refA1.SetCell sampleParse 5 B1 "1" = some (.returned () sheetB1one) ∧
      sheetB1one.ClearCell A1 = .returned () sheetB1one_A1cleared ∧
      sheetB1one_A1cleared.SetCell sampleParse 5 A1 "=B1" = some (.returned () sheetStoredCycle) ∧
      sheetStoredCycle.GetDependentCells A1 = [B1] ∧
      sheetStoredCycle.GetDependentCells B1 = [A1] ∧
      (∀ fuel, sheetStoredCycle.InvalidateCellCash fuel A1 = none ∧
        sheetStoredCycle.InvalidateCellCash fuel B1 = none) ∧
      (∀ fuel, sheetStoredCycle.SetCell sampleParse fuel A1 "x" = none) := by
  refine ⟨by decide, by decide, by decide, by decide, by decide, by decide,
    sheetStoredCycle_invalidate_diverges, ?_⟩
  intro fuel
  have hR : sheetStoredCycle.Reserve A1 = sheetStoredCycle := by decide
  have gA : sheetStoredCycle.GetCell A1 = .ok (some ⟨.FormulaImpl ⟨"B1", [B1]⟩ none⟩) := rfl
  have hv : A1.IsValid = true := by decide
  unfold Sheet.SetCell Sheet.SetCellWith
  simp only [hv, Bool.not_true, Bool.false_eq_true, if_false, hR, gA,
    (sheetStoredCycle_invalidate_diverges fuel).1]

/-- C20 (failing input): after SetCell(A1, "=B1") and ClearCell(A1), A1 is listed in
GetDependentCells(B1) but GetCell(A1) returns null; InvalidateCellCash(B1) and
hence SetCell(B1, "2") call InvalidateCache on that null pointer. -/
theorem C20_dependent_cell_is_null :
    Sheet.empty.SetCell sampleParse 5 A1 "=B1" = some (.returned () sheetA1refB1) ∧
      sheetA1refB1.ClearCell A1 = .returned () sheetA1cleared ∧
      sheetA1cleared.GetDependentCells B1 = [A1] ∧
      sheetA1cleared.GetCell A1 = .ok none ∧
      (∀ fuel, sheetA1cleared.InvalidateCellCash (fuel + 1) B1 = some .undefined) ∧
      (∀ fuel, sheetA1cleared.SetCell sampleParse (fuel + 1) B1 "2" = some .undefined) :=
  ⟨by decide, by decide, by decide, rfl, fun _ => rfl, fun _ => rfl⟩

/-- C12: for every sheet and every valid position pos, ClearCell(pos) returns, and
afterwards GetCell(pos) is null, GetCell at every other position returns what it
returned before (the same cell with the same content and cache), and the
dependency graph is unchanged. -/
theorem C12_ClearCell_frame (s : Sheet) (pos : Position) (hv : pos.IsValid = true) :
    ∃ s', s.ClearCell pos = .returned () s' ∧ s'.GetCell pos = .ok none ∧
      (∀ q, q ≠ pos → s'.GetCell q = s.GetCell q) ∧
      s'.cells_dependencies_ = s.cells_dependencies_ ∧
      (∀ p, s'.GetDependentCells p = s.GetDependentCells p) := by
  have key : ∀ t : Sheet, t.sheet_ = (s.setSlot pos none).sheet_ →
      s.InRange pos.row.toNat pos.col.toNat →
      t.GetCell pos = .ok none ∧ (∀ q, q ≠ pos → t.GetCell q = s.GetCell q) := by
    intro t ht hr
    constructor
    · rw [Sheet.GetCell_eq _ pos hv, Sheet.slot_congr ht, Sheet.slot_setSlot,
        if_pos ⟨rfl, rfl, hr⟩]
    · intro q hq
      by_cases hqv : q.IsValid = true
      · rw [Sheet.GetCell_eq _ q hqv, Sheet.GetCell_eq _ q hqv, Sheet.slot_congr ht,
          Sheet.slot_setSlot]
        have := Position.toNat_ne hqv hv hq
        rw [if_neg (fun k => this ⟨k.1, k.2.1⟩)]
      · have hqv' : q.IsValid = false := by simpa using hqv
        rw [Sheet.GetCell_invalid _ q hqv', Sheet.GetCell_invalid _ q hqv']
  unfold Sheet.ClearCell
  simp only [hv, Bool.not_true, Bool.false_eq_true, if_false]
  by_cases he : s.CellExists pos = true
  · have hr := (s.CellExists_iff pos hv).1 he
    simp only [he, if_true]
    split
    · refine ⟨_, rfl, (key _ rfl hr).1, (key _ rfl hr).2, rfl, fun p => rfl⟩
    · refine ⟨_, rfl, (key _ rfl hr).1, (key _ rfl hr).2, rfl, fun p => rfl⟩
  · simp only [he, Bool.false_eq_true, if_false]
    refine ⟨s, rfl, ?_, fun q _ => rfl, rfl, fun p => rfl⟩
    have hn : ¬ s.InRange pos.row.toNat pos.col.toNat :=
      fun k => he ((s.CellExists_iff pos hv).2 k)
    rw [Sheet.GetCell_eq _ pos hv, s.slot_eq_none_of_not_inRange _ _ hn]

/-- C12 (witness): ClearCell(A1) on the sheet that holds "=B1" at A1. -/
theorem C12_ClearCell_frame_witness :
    A1.IsValid = true ∧
      ∃ s', sheetA1refB1.ClearCell A1 = .returned () s' ∧ s'.GetCell A1 = .ok none ∧
        (∀ q, q ≠ A1 → s'.GetCell q = sheetA1refB1.GetCell q) ∧
        s'.cells_dependencies_ = sheetA1refB1.cells_dependencies_ ∧
        (∀ p, s'.GetDependentCells p = sheetA1refB1.GetDependentCells p) :=
  ⟨by decide, C12_ClearCell_frame sheetA1refB1 A1 (by decide)⟩

/-- C11 (amended): when a cell lives at pos and SetCell(pos, "") returns, the cell at
pos is still there, as an Empty cell with text "", and GetPrintableSize returns
what it returned before the call. -/
theorem C11_SetCell_empty_keeps_size (P : String → Option FormulaInterface) (fuel : Nat)
    (s : Sheet) (pos : Position) (cell : Cell) (s' : Sheet)
    (hc : s.GetCell pos = .ok (some cell))
    (h : s.SetCell P fuel pos "" = some (.returned () s')) :
    s'.GetCell pos = .ok (some ⟨.EmptyImpl⟩) ∧ (⟨.EmptyImpl⟩ : Cell).GetText = "" ∧
      s'.GetPrintableSize = s.GetPrintableSize := by
  have hv := s.GetCell_ok_valid pos _ hc
  have hsl := s.GetCell_ok_slot pos _ hc
  have hg : (s.Reserve pos).GetCell pos = .ok (some cell) := by
    rw [Sheet.GetCell_eq _ pos hv, Sheet.slot_Reserve, hsl]
  unfold Sheet.SetCell Sheet.SetCellWith at h
  simp only [hv, Bool.not_true, Bool.false_eq_true, if_false, hg, Cell.Set_empty] at h
  split at h
  · rename_i u s1 hi
    have mi : Invalidated (s.Reserve pos) s1 := Sheet.InvalidateCellCash_invalidated fuel _ _ _ hi
    have hr1 : s1.InRange pos.row.toNat pos.col.toNat :=
      (mi.inRange_iff _ _).2 ((s.Reserve pos).inRange_of_slot _ _ cell
        (by rw [Sheet.slot_Reserve]; exact hsl))
    cases fuel with
    | zero => simp [Cell.IsCyclicDependent] at h
    | succ k =>
        simp only [Cell.IsCyclicDependent, Cell.GetReferencedCells, Impl.IGetReferencedCells,
          probeLoop, Sheet.addReferences, List.foldl_nil, Option.some.injEq,
          Outcome.returned.injEq, true_and] at h
        subst h
        refine ⟨?_, rfl, ?_⟩
        · rw [Sheet.GetCell_eq _ pos hv, Sheet.slot_setSlot,
            if_pos ⟨rfl, rfl, (Sheet.inRange_setSlot _ _ _ _ _).2 hr1⟩]
        · have hf := mi.fields
          have hf0 := s.Reserve_fields pos
          unfold Sheet.GetPrintableSize
          simp only [Sheet.setSlot, Sheet.DeleteDependencies, hf.2.1, hf.2.2.1, hf.2.2.2,
            hf0.2.1, hf0.2.2.1, hf0.2.2.2]
  · cases h
  · cases h
  · cases h

/-- C11 (witness): SetCell(A2, "") on the sheet that holds "x" at A2. -/
theorem C11_SetCell_empty_keeps_size_witness :
    sheetA2x.GetCell A2 = .ok (some ⟨.TextImpl "x" false⟩) ∧
      sheetA2x.SetCell sampleParse 5 A2 "" = some (.returned () sheetA2blank) ∧
      (sheetA2blank.GetCell A2 = .ok (some ⟨.EmptyImpl⟩) ∧ (⟨.EmptyImpl⟩ : Cell).GetText = "" ∧
        sheetA2blank.GetPrintableSize = sheetA2x.GetPrintableSize) :=
  ⟨rfl, by decide,
    C11_SetCell_empty_keeps_size sampleParse 5 sheetA2x A2 _ sheetA2blank rfl (by decide)⟩

theorem Sheet.printTextsRow_sep (s : Sheet) (x : Nat) (hx : x < s.sheet_.length) :
    ∀ (ys : List Nat) (output : String),
      s.printTextsRow x ys true output =
        some (output ++ tabbedFields (ys.map fun c => s.textField x c)) := by
  intro ys
  induction ys with
  | nil =>
      intro output
      simp [Sheet.printTextsRow, tabbedFields]
  | cons y ys ih =>
      intro output
      simp only [Sheet.printTextsRow, if_true, hx, List.map_cons, tabbedFields]
      cases hs : s.slot x y with
      | none =>
          have hf : s.textField x y = "" := by simp [Sheet.textField, hs]
          simp only [ih, hf, String.append_empty, String.append_assoc]
      | some cell =>
          have hf : s.textField x y = cell.GetText := by simp [Sheet.textField, hs]
          simp only [ih, hf, String.append_assoc]

theorem Sheet.printTextsRow_spec (s : Sheet) (x : Nat) (hx : x < s.sheet_.length)
    (ys : List Nat) (output : String) :
    s.printTextsRow x ys false output =
      some (output ++ joinTabs (ys.map fun c => s.textField x c)) := by
  cases ys with
  | nil => simp [Sheet.printTextsRow, joinTabs]
  | cons y ys =>
      simp only [Sheet.printTextsRow, hx, if_true, List.map_cons, joinTabs,
        Bool.false_eq_true, if_false]
      cases hs : s.slot x y with
      | none =>
          have hf : s.textField x y = "" := by simp [Sheet.textField, hs]
          simp only [Sheet.printTextsRow_sep s x hx, hf, String.empty_append]
      | some cell =>
          have hf : s.textField x y = cell.GetText := by simp [Sheet.textField, hs]
          simp only [Sheet.printTextsRow_sep s x hx, hf, String.append_assoc]

theorem Sheet.printTextsRows_spec (s : Sheet) :
    ∀ (xs : List Nat) (output : String), (∀ x ∈ xs, x < s.sheet_.length) →
      s.printTextsRows xs output =
        some (output ++
          joinRows (xs.map fun r => (List.range s.max_col_.toNat).map fun c => s.textField r c)) := by
  intro xs
  induction xs with
  | nil =>
      intro output _
      simp [Sheet.printTextsRows, joinRows]
  | cons x xs ih =>
      intro output hxs
      have hx := hxs x (List.mem_cons_self _ _)
      simp only [Sheet.printTextsRows, Sheet.printTextsRow_spec s x hx, List.map_cons, joinRows]
      rw [ih _ (fun y hy => hxs y (List.mem_cons_of_mem _ hy))]
      simp only [String.append_assoc]

theorem Sheet.AreaOk.rows_le {s : Sheet} (ha : s.AreaOk) : s.max_row_.toNat ≤ s.sheet_.length := by
  obtain ⟨_, _, h2, _⟩ := ha
  rcases h2 with h2 | ⟨r, c, hs, e⟩
  · rw [h2]; exact Nat.zero_le _
  · obtain ⟨v, hv⟩ := Option.isSome_iff_exists.1 hs
    have := (s.inRange_of_slot r c v hv).1
    omega

/-- C13: in every reachable sheet, with printable size (R, C), PrintTexts writes the
concatenation, for the rows 0 .. R-1 in order, of the C fields of the row joined
by single tabs and followed by one newline, where the field of (r, c) is the
GetText of the cell in that slot, and the empty string when the slot holds no cell
or the stored row is shorter: R rows of C fields each, nothing else. -/
theorem C13_PrintTexts_output (P : String → Option FormulaInterface) (s : Sheet)
    (h : Reachable P s) (output : String) :
    ∃ R C : Nat, s.GetPrintableSize = .ok ⟨(R : Int), (C : Int)⟩ ∧
      s.PrintTexts output = some (output ++ s.printedTexts R C) ∧
      ((List.range R).map fun r => (List.range C).map fun c => s.textField r c).length = R ∧
      (∀ row ∈ (List.range R).map fun r => (List.range C).map fun c => s.textField r c,
        row.length = C) ∧
      (∀ r c, (∀ cell, s.slot r c = some cell → s.textField r c = cell.GetText) ∧
        (s.slot r c = none → s.textField r c = "")) := by
  have hi := h.inv
  have hn := hi.area.2.nonneg
  refine ⟨s.max_row_.toNat, s.max_col_.toNat, ?_, ?_, ?_, ?_, ?_⟩
  · unfold Sheet.GetPrintableSize
    rw [hi.area.1, Int.toNat_of_nonneg hn.1, Int.toNat_of_nonneg hn.2]
    rfl
  · unfold Sheet.PrintTexts Sheet.printedTexts
    refine Sheet.printTextsRows_spec s _ output (fun x hx => ?_)
    have := hi.area.rows_le
    have := List.mem_range.1 hx
    omega
  · simp
  · intro row hrow
    simp only [List.mem_map, List.mem_range] at hrow
    obtain ⟨r, _, rfl⟩ := hrow
    simp
  · intro r c
    constructor
    · intro cell hc
      simp [Sheet.textField, hc]
    · intro hc
      simp [Sheet.textField, hc]

/-- C14 (failing input): after SetCell(A1, "") on the empty sheet, PrintValues
writes the formatted number 0.0 (the digit 0 for a stream) and a newline, not an
empty field; on the sheet with a null slot at A1 and an Empty cell at B1 it
writes nothing for A1, a tab, and the formatted 0.0 for B1. -/
theorem C14_empty_cell_prints_zero (Evaluate : FormulaInterface → FormulaValue)
    (formatDouble : Double → String) :
    Sheet.empty.SetCell sampleParse 5 A1 "" = some (.returned () sheetA1blank) ∧
      (⟨.EmptyImpl⟩ : Cell).GetValue Evaluate = .number (.finite 0) ∧
      sheetA1blank.PrintValues Evaluate formatDouble "" =
        some (formatDouble (.finite 0) ++ "\n") ∧
      sheetA1cleared.PrintValues Evaluate formatDouble "" =
        some ("\t" ++ formatDouble (.finite 0) ++ "\n") :=
  ⟨by decide, rfl, rfl, rfl⟩

/-- C13 (witness): the sheet after SetCell(A1, "=B1"). -/
theorem C13_PrintTexts_output_witness :
    Reachable sampleParse sheetA1refB1 ∧
    ∃ R C : Nat, sheetA1refB1.GetPrintableSize = .ok ⟨(R : Int), (C : Int)⟩ ∧
      sheetA1refB1.PrintTexts "" = some ("" ++ sheetA1refB1.printedTexts R C) ∧
      ((List.range R).map fun r => (List.range C).map fun c => sheetA1refB1.textField r c).length = R ∧
      (∀ row ∈ (List.range R).map fun r => (List.range C).map fun c => sheetA1refB1.textField r c,
        row.length = C) ∧
      (∀ r c, (∀ cell, sheetA1refB1.slot r c = some cell →
          sheetA1refB1.textField r c = cell.GetText) ∧
        (sheetA1refB1.slot r c = none → sheetA1refB1.textField r c = "")) :=
  ⟨reachable_A1refB1, C13_PrintTexts_output sampleParse sheetA1refB1 reachable_A1refB1 ""⟩

theorem Materialised.keeps_refsValid {e : Position} {s s' : Sheet} (h : Materialised e s s')
    (hs : s.RefsValid) : s'.RefsValid :=
  fun x y hxy => hs x y ((h.refs_iff x y).1 hxy)

theorem probeLoop_returns
    (setCell : Sheet → Position → String → Option (Outcome Unit))
    (recur : Sheet → Cell → Option (Outcome Bool))
    (start : Option Position) (e : Position)
    (hset : ∀ s r, s.GetCell r = .ok none → ∀ o, setCell s r "" = some o →
      o = .returned () (s.materialise r))
    (hmat : ∀ s c o, recur s c = some o → o.Via (Materialised e s))
    (hrec : ∀ s c o, s.RefsValid → (∀ y ∈ c.GetReferencedCells, y.IsValid = true) →
      recur s c = some o → ∃ b s', o = .returned b s') :
    ∀ (refs : List Position) (s : Sheet) (o : Outcome Bool), s.RefsValid →
      (∀ r ∈ refs, r.IsValid = true) →
      probeLoop setCell recur start e refs s = some o → ∃ b s', o = .returned b s' := by
  intro refs
  induction refs with
  | nil =>
      intro s o _ _ h
      simp only [probeLoop, Option.some.injEq] at h
      exact ⟨false, s, h.symm⟩
  | cons r rest ih =>
      intro s o hs hrefs h
      have hr := hrefs r (List.mem_cons_self _ _)
      have hrest : ∀ x ∈ rest, x.IsValid = true :=
        fun x hx => hrefs x (List.mem_cons_of_mem _ hx)
      simp only [probeLoop] at h
      split at h
      · simp only [Option.some.injEq] at h
        exact ⟨true, s, h.symm⟩
      · rename_i hne
        split at h
        · rename_i ex hg
          rw [Sheet.GetCell_eq s r hr] at hg
          cases hg
        · rename_i ref_cell hg
          have hcell : ∀ y ∈ ref_cell.GetReferencedCells, y.IsValid = true :=
            fun y hy => hs r y ⟨ref_cell, hg, hy⟩
          split at h
          · simp only [Option.some.injEq] at h
            exact ⟨true, s, h.symm⟩
          · split at h
            · rename_i s1 hr1
              simp only [Option.some.injEq] at h
              exact ⟨true, s1, h.symm⟩
            · rename_i s1 hr1
              have m1 : Materialised e s s1 := hmat _ _ _ hr1
              exact ih s1 o (m1.keeps_refsValid hs) hrest h
            · exact hrec _ _ _ hs hcell h
        · rename_i hg
          have hsl := s.GetCell_ok_slot r none hg
          split at h
          · rename_i u s1 hsc
            have e1 := hset s r hg _ hsc
            simp only [Outcome.returned.injEq] at e1
            obtain ⟨_, rfl⟩ := e1
            have m1 : Materialised e s (s.materialise r) :=
              .step r hne hr hsl (.refl _)
            rw [Sheet.GetCell_materialise s r hr] at h
            simp only at h
            split at h
            · simp only [Option.some.injEq] at h
              exact ⟨true, _, h.symm⟩
            · split at h
              · rename_i s2 hr2
                simp only [Option.some.injEq] at h
                exact ⟨true, s2, h.symm⟩
              · rename_i s2 hr2
                have m2 : Materialised e (s.materialise r) s2 := hmat _ _ _ hr2
                exact ih s2 o (m2.keeps_refsValid (m1.keeps_refsValid hs)) hrest h
              · exact hrec _ _ _ (m1.keeps_refsValid hs) (fun y hy => by cases hy) h
          · rename_i ex s1 hsc
            cases hset s r hg _ hsc
          · rename_i hsc
            cases hset s r hg _ hsc
          · cases h

/-- On a sheet whose references all go to valid positions, the cycle probe of a
content whose references are valid ends by returning. -/
theorem Cell.IsCyclicDependent_returns (P : String → Option FormulaInterface) :
    ∀ (fuel : Nat) (s : Sheet) (this : Cell) (start : Option Position) (e : Position)
      (o : Outcome Bool), s.RefsValid → (∀ r ∈ this.GetReferencedCells, r.IsValid = true) →
      Cell.IsCyclicDependent P fuel s this start e = some o → ∃ b s', o = .returned b s' := by
  intro fuel
  induction fuel with
  | zero =>
      intro s this start e o _ _ h
      simp [Cell.IsCyclicDependent] at h
  | succ k ih =>
      intro s this start e o hs hrefs h
      rw [Cell.IsCyclicDependent] at h
      refine probeLoop_returns _ _ start e ?_ ?_ ?_ _ s o hs hrefs h
      · intro s1 r hn o1 h1
        exact Sheet.SetCellWith_materialise P _ k s1 r hn o1 h1
      · intro s1 c o1 h1
        exact Cell.IsCyclicDependent_materialised P k s1 c start e o1 h1
      · intro s1 c o1 hs1 hc h1
        exact ih s1 c start e o1 hs1 hc h1

/-- The paths of `SetCell`, with the call of the cycle probe and its result. -/
theorem Sheet.SetCell_outcome (P : String → Option FormulaInterface) (fuel : Nat) (s : Sheet)
    (pos : Position) (text : String) (o : Outcome Unit)
    (h : s.SetCell P fuel pos text = some o) :
    (pos.IsValid = false ∧ o = .threw .InvalidPositionException s) ∨
    (pos.IsValid = true ∧
      ((∃ cell, s.slot pos.row.toNat pos.col.toNat = some cell ∧
          (o = .undefined ∨
            ∃ s1, Invalidated (s.Reserve pos) s1 ∧
              (o = .threw .InvalidPositionException s1 ∨
                (∃ e, Cell.Set P text = .error e ∧
                  o = .threw e ((s1.DeleteDependencies pos).setSlot pos (some ⟨.EmptyImpl⟩))) ∨
                (∃ nc probed, Cell.Set P text = .ok nc ∧
                  Cell.IsCyclicDependent P fuel
                    (((s1.DeleteDependencies pos).setSlot pos (some ⟨.EmptyImpl⟩)).setSlot pos
                      (some nc)) nc (some pos) pos = some probed ∧
                  o = Sheet.finishExisting P pos cell.GetText nc probed)))) ∨
        (s.slot pos.row.toNat pos.col.toNat = none ∧
          ((∃ e, Cell.Set P text = .error e ∧ o = .threw e (s.Reserve pos)) ∨
            (∃ nc probed, Cell.Set P text = .ok nc ∧
              Cell.IsCyclicDependent P fuel (s.Reserve pos) nc none pos = some probed ∧
              o = Sheet.finishNew pos nc probed))))) := by
  unfold Sheet.SetCell Sheet.SetCellWith at h
  by_cases hv : pos.IsValid = true
  · right
    refine ⟨hv, ?_⟩
    simp only [hv, Bool.not_true, Bool.false_eq_true, if_false] at h
    have hg : (s.Reserve pos).GetCell pos = .ok (s.slot pos.row.toNat pos.col.toNat) := by
      rw [Sheet.GetCell_eq _ pos hv, Sheet.slot_Reserve]
    rw [hg] at h
    cases hsl : s.slot pos.row.toNat pos.col.toNat with
    | none =>
        right
        refine ⟨rfl, ?_⟩
        rw [hsl] at h
        simp only at h
        cases hset : Cell.Set P text with
        | error e =>
            rw [hset] at h
            simp only [Option.some.injEq] at h
            exact Or.inl ⟨e, rfl, h.symm⟩
        | ok nc =>
            rw [hset] at h
            simp only at h
            cases hp : Cell.IsCyclicDependent P fuel (s.Reserve pos) nc none pos with
            | none => rw [hp] at h; cases h
            | some probed =>
                rw [hp] at h
                refine Or.inr ⟨nc, probed, rfl, hp, ?_⟩
                cases probed with
                | returned b s1 =>
                    cases b <;> (simp only [Option.some.injEq] at h; exact h.symm)
                | threw e s1 => simp only [Option.some.injEq] at h; exact h.symm
                | undefined => simp only [Option.some.injEq] at h; exact h.symm
    | some cell =>
        left
        refine ⟨cell, rfl, ?_⟩
        rw [hsl] at h
        simp only at h
        split at h
        · rename_i u s1 hi
          have mi : Invalidated _ s1 := Sheet.InvalidateCellCash_invalidated fuel _ _ _ hi
          right
          refine ⟨s1, mi, ?_⟩
          cases hset : Cell.Set P text with
          | error e =>
              rw [hset] at h
              simp only [Option.some.injEq] at h
              exact Or.inr (Or.inl ⟨e, rfl, h.symm⟩)
          | ok nc =>
              rw [hset] at h
              simp only at h
              cases hp : Cell.IsCyclicDependent P fuel
                  (((s1.DeleteDependencies pos).setSlot pos (some (Cell.Clear cell))).setSlot pos
                    (some nc)) nc (some pos) pos with
              | none => rw [hp] at h; cases h
              | some probed =>
                  rw [hp] at h
                  refine Or.inr (Or.inr ⟨nc, probed, rfl, hp, ?_⟩)
                  cases probed with
                  | returned b s5 =>
                      cases b with
                      | false => simp only [Option.some.injEq] at h; exact h.symm
                      | true =>
                          simp only at h
                          unfold Sheet.finishExisting
                          cases hr : Cell.Set P cell.GetText with
                          | error e =>
                              rw [hr] at h
                              simp only [Option.some.injEq] at h
                              exact h.symm
                          | ok restored =>
                              rw [hr] at h
                              simp only [Option.some.injEq] at h
                              exact h.symm
                  | threw e s5 => simp only [Option.some.injEq] at h; exact h.symm
                  | undefined => simp only [Option.some.injEq] at h; exact h.symm
        · rename_i e s1 hi
          have mi := Sheet.InvalidateCellCash_invalidated fuel _ _ _ hi
          obtain ⟨rfl, mi⟩ := mi
          simp only [Option.some.injEq] at h
          exact Or.inr ⟨s1, mi, Or.inl h.symm⟩
        · simp only [Option.some.injEq] at h
          exact Or.inl h.symm
        · cases h
  · left
    have hv' : pos.IsValid = false := by simpa using hv
    simp only [hv', Bool.not_false, if_true, Option.some.injEq] at h
    exact ⟨hv', h.symm⟩

theorem Sheet.refs_iff_slot (s : Sheet) (x y : Position) :
    s.Refs x y ↔ x.IsValid = true ∧
      ∃ c, s.slot x.row.toNat x.col.toNat = some c ∧ y ∈ c.GetReferencedCells := by
  unfold Sheet.Refs
  constructor
  · rintro ⟨c, hc, hy⟩
    exact ⟨s.GetCell_ok_valid x _ hc, c, s.GetCell_ok_slot x _ hc, hy⟩
  · rintro ⟨hv, c, hc, hy⟩
    exact ⟨c, by rw [Sheet.GetCell_eq _ x hv, hc], hy⟩

/-- The references of `s'` are references of `s` when every reference of a cell of
`s'` is a reference of the cell of `s` in the same slot. -/
theorem Sheet.refs_sub {s s' : Sheet}
    (h : ∀ r c c', s'.slot r c = some c' → ∀ y ∈ c'.GetReferencedCells,
      ∃ c0, s.slot r c = some c0 ∧ y ∈ c0.GetReferencedCells) :
    ∀ x y, s'.Refs x y → s.Refs x y := by
  intro x y hxy
  obtain ⟨hv, c', hc', hy⟩ := (s'.refs_iff_slot x y).1 hxy
  obtain ⟨c0, hc0, hy0⟩ := h _ _ c' hc' y hy
  exact (s.refs_iff_slot x y).2 ⟨hv, c0, hc0, hy0⟩

theorem Sheet.refs_sub_of_slots {s s' : Sheet}
    (h : ∀ r c c', s'.slot r c = some c' → s.slot r c = some c') :
    ∀ x y, s'.Refs x y → s.Refs x y :=
  Sheet.refs_sub (fun r c c' hc' _ hy => ⟨c', h r c c' hc', hy⟩)

theorem Sheet.Acyclic.of_sub {s s' : Sheet} (hac : s.Acyclic)
    (h : ∀ x y, s'.Refs x y → s.Refs x y) : s'.Acyclic :=
  fun x hx => hac x (Relation.TransGen.mono h hx)

theorem Sheet.refsAvoiding_of_refs_iff {s s' : Sheet} (e : Position)
    (h : ∀ x y, s'.Refs x y ↔ s.Refs x y) : s'.RefsAvoiding e = s.RefsAvoiding e := by
  funext x y
  unfold Sheet.RefsAvoiding
  rw [h]

/-- A path either never leaves `e`, or it reaches `e` and goes on from there. -/
theorem transGen_avoiding_or_through (R : Position → Position → Prop) (e : Position)
    {a b : Position} (h : Relation.TransGen R a b) :
    Relation.TransGen (fun x y => x ≠ e ∧ R x y) a b ∨
      (Relation.ReflTransGen R a e ∧ Relation.TransGen R e b) := by
  induction h using Relation.TransGen.head_induction_on with
  | @base a hab =>
      by_cases ha : a = e
      · subst ha
        exact Or.inr ⟨.refl, .single hab⟩
      · exact Or.inl (.single ⟨ha, hab⟩)
  | @ih a c hac hcb ih =>
      by_cases ha : a = e
      · subst ha
        exact Or.inr ⟨.refl, Relation.TransGen.head hac hcb⟩
      · rcases ih with h1 | ⟨h1, h2⟩
        · exact Or.inl (Relation.TransGen.head ⟨ha, hac⟩ h1)
        · exact Or.inr ⟨Relation.ReflTransGen.head hac h1, h2⟩

/-- Installing at `pos` a content from which `pos` is not reached keeps the reference
graph acyclic. -/
theorem Sheet.Acyclic.install {s s' : Sheet} (hac : s.Acyclic) (pos : Position) (nc : Cell)
    (hoff : s'.RefsAvoiding pos = s.RefsAvoiding pos)
    (hpos : s'.GetCell pos = .ok (some nc))
    (hno : ¬ s.ReachesFrom pos nc.GetReferencedCells) : s'.Acyclic := by
  intro x hx
  rcases transGen_avoiding_or_through s'.Refs pos hx with h1 | ⟨h1, h2⟩
  · have h1' : Relation.TransGen (s'.RefsAvoiding pos) x x := h1
    rw [hoff] at h1'
    exact hac x (Relation.TransGen.mono (fun a b hab => hab.2) h1')
  · have hcyc : Relation.TransGen s'.Refs pos pos := Relation.TransGen.trans_left h2 h1
    rcases Relation.TransGen.head'_iff.1 hcyc with ⟨r, ⟨c, hc, hr⟩, hpath⟩
    rw [hpos] at hc
    cases hc
    apply hno
    refine ⟨r, hr, ?_⟩
    rw [← hoff]
    exact Sheet.reaches_of_path _ pos r hpath

theorem Cell.Set_refs_valid (P : String → Option FormulaInterface) (hvr : ValidRefs P)
    (t : String) (c : Cell) (h : Cell.Set P t = .ok c) :
    ∀ r ∈ c.GetReferencedCells, r.IsValid = true := by
  rcases input_cases t with h0 | h1 | h2
  · subst h0
    cases h
    intro r hr
    cases hr
  · rw [Cell.Set_of_text P t h1] at h
    cases h
    intro r hr
    cases hr
  · obtain ⟨f, hp, hf, _⟩ := (Cell.Set_GetText P t c h).2 h2
    intro r hr
    have : c.GetReferencedCells = f.GetReferencedCells := by
      unfold Cell.GetReferencedCells
      rw [hf]
      rfl
    rw [this] at hr
    exact hvr _ f hp r hr

theorem Sheet.Inv.refsValid {P : String → Option FormulaInterface} {s : Sheet} (hi : s.Inv P)
    (hvr : ValidRefs P) : s.RefsValid := by
  intro x y hxy
  obtain ⟨_, c, hc, hy⟩ := (s.refs_iff_slot x y).1 hxy
  obtain ⟨t, ht⟩ := hi.cells _ _ c hc
  exact Cell.Set_refs_valid P hvr t c ht y hy

/-- Setting the text of a cell again gives a cell that references nothing but what
the cell referenced. -/
theorem Cell.Set_restore_refs (P : String → Option FormulaInterface) (hfix : CanonicalFixed P)
    (t : String) (c c' : Cell) (h : Cell.Set P t = .ok c) (h' : Cell.Set P c.GetText = .ok c') :
    ∀ r ∈ c'.GetReferencedCells, r ∈ c.GetReferencedCells := by
  rcases input_cases c.GetText with h0 | h1 | h2
  · rw [h0] at h'
    cases h'
    intro r hr
    cases hr
  · rw [Cell.Set_of_text P _ h1] at h'
    cases h'
    intro r hr
    cases hr
  · rcases input_cases t with k0 | k1 | k2
    · subst k0
      cases h
      exact absurd h2.2 (by decide)
    · have := (Cell.Set_GetText P t c h).1 (Or.inr k1)
      rw [this] at h2
      exact absurd k1 ((not_textInput_iff t k1.1).2 h2)
    · obtain ⟨f, hp, hf, ht⟩ := (Cell.Set_GetText P t c h).2 k2
      obtain ⟨f', hp', hf', _⟩ := (Cell.Set_GetText P _ c' h').2 h2
      rw [ht, strTail_strCons, hfix _ f hp] at hp'
      cases hp'
      intro r hr
      unfold Cell.GetReferencedCells at hr ⊢
      rw [hf'] at hr
      rw [hf]
      exact hr

theorem CanonicalFixed.reparses {P : String → Option FormulaInterface} (hfix : CanonicalFixed P) :
    Reparses P :=
  fun str f h => ⟨f, hfix str f h⟩

theorem Sheet.refs_congr {s s' : Sheet} (h : s'.sheet_ = s.sheet_) (x y : Position) :
    s'.Refs x y ↔ s.Refs x y := by
  rw [Sheet.refs_iff_slot, Sheet.refs_iff_slot, Sheet.slot_congr h]

theorem Sheet.refs_Reserve (s : Sheet) (pos x y : Position) :
    (s.Reserve pos).Refs x y ↔ s.Refs x y := by
  rw [Sheet.refs_iff_slot, Sheet.refs_iff_slot, Sheet.slot_Reserve]

/-- The existing-cell path of `SetCell` keeps the reference graph acyclic. -/
theorem Sheet.Acyclic.after_SetCell_existing {P : String → Option FormulaInterface} {s : Sheet}
    (hvr : ValidRefs P) (hfix : CanonicalFixed P) (hi : s.Inv P) (hac : s.Acyclic)
    (fuel : Nat) (pos : Position) (hv : pos.IsValid = true) (cell nc : Cell) (text : String)
    (hcell : s.slot pos.row.toNat pos.col.toNat = some cell) (s1 : Sheet)
    (mi : Invalidated (s.Reserve pos) s1) (hnc : Cell.Set P text = .ok nc)
    (probed : Outcome Bool)
    (hp : Cell.IsCyclicDependent P fuel
      (((s1.DeleteDependencies pos).setSlot pos (some ⟨.EmptyImpl⟩)).setSlot pos (some nc))
      nc (some pos) pos = some probed)
    (s' : Sheet)
    (hs : (Sheet.finishExisting P pos cell.GetText nc probed).state? = some s') :
    s'.Acyclic := by
  have h0 := Sheet.Inv_Reserve hi pos
  have hs1 : ∀ r c, s1.slot r c = s.slot r c := fun r c => by
    rw [mi.slot_eq h0.noCache, Sheet.slot_Reserve]
  have hr1 : s1.InRange pos.row.toNat pos.col.toNat :=
    Sheet.inRange_of_slot _ _ _ cell (by rw [hs1]; exact hcell)
  have hr3 : ((s1.DeleteDependencies pos).setSlot pos (some ⟨.EmptyImpl⟩)).InRange
      pos.row.toNat pos.col.toNat := (Sheet.inRange_setSlot _ _ _ _ _).2 hr1
  have hr4 : (((s1.DeleteDependencies pos).setSlot pos (some ⟨.EmptyImpl⟩)).setSlot pos
      (some nc)).InRange pos.row.toNat pos.col.toNat := (Sheet.inRange_setSlot _ _ _ _ _).2 hr3
  have hs4 : ∀ r c, ¬ (r = pos.row.toNat ∧ c = pos.col.toNat) →
      (((s1.DeleteDependencies pos).setSlot pos (some ⟨.EmptyImpl⟩)).setSlot pos
        (some nc)).slot r c = s.slot r c := by
    intro r c hne
    rw [Sheet.slot_setSlot, if_neg (fun k => hne ⟨k.1, k.2.1⟩), Sheet.slot_setSlot,
      if_neg (fun k => hne ⟨k.1, k.2.1⟩)]
    exact hs1 r c
  have hp4 : (((s1.DeleteDependencies pos).setSlot pos (some ⟨.EmptyImpl⟩)).setSlot pos
      (some nc)).slot pos.row.toNat pos.col.toNat = some nc := by
    rw [Sheet.slot_setSlot, if_pos ⟨rfl, rfl, hr3⟩]
  have hncv := Cell.Set_refs_valid P hvr text nc hnc
  have hval4 : (((s1.DeleteDependencies pos).setSlot pos (some ⟨.EmptyImpl⟩)).setSlot pos
      (some nc)).RefsValid := by
    intro x y hxy
    obtain ⟨hxv, c, hc, hy⟩ := (Sheet.refs_iff_slot _ x y).1 hxy
    by_cases hat : x.row.toNat = pos.row.toNat ∧ x.col.toNat = pos.col.toNat
    · rw [hat.1, hat.2, hp4] at hc
      cases hc
      exact hncv y hy
    · rw [hs4 _ _ hat] at hc
      exact hi.refsValid hvr x y ((s.refs_iff_slot x y).2 ⟨hxv, c, hc, hy⟩)
  have hav4 : (((s1.DeleteDependencies pos).setSlot pos (some ⟨.EmptyImpl⟩)).setSlot pos
      (some nc)).RefsAvoiding pos = s.RefsAvoiding pos :=
    Sheet.refsAvoiding_congr pos hv (fun r c hrc => by rw [hs4 r c hrc])
  obtain ⟨b, s5, rfl⟩ := Cell.IsCyclicDependent_returns P fuel _ nc (some pos) pos probed
    hval4 hncv hp
  have m : Materialised pos _ s5 := Cell.IsCyclicDependent_materialised P fuel _ nc _ pos _ hp
  have hspec := Cell.IsCyclicDependent_spec P fuel _ nc (some pos) pos b s5 (Or.inr rfl) hp
  have hr5 := m.keeps_inRange _ _ hr4
  have hp5 : s5.slot pos.row.toNat pos.col.toNat = some nc := m.slot_some _ _ nc hp4
  cases b with
  | false =>
      simp only [Sheet.finishExisting, Outcome.state?, Option.some.injEq] at hs
      subst hs
      have hsheet := (Sheet.addReferences_fields s5 nc.GetReferencedCells pos).1
      refine hac.install pos nc ?_ ?_ ?_
      · rw [Sheet.refsAvoiding_of_refs_iff pos
          (fun x y => (Sheet.refs_congr hsheet x y).trans (m.refs_iff x y)), hav4]
      · rw [Sheet.GetCell_eq _ pos hv, Sheet.slot_congr hsheet, hp5]
      · intro hreach
        have : (((s1.DeleteDependencies pos).setSlot pos (some ⟨.EmptyImpl⟩)).setSlot pos
            (some nc)).ReachesFrom pos nc.GetReferencedCells := by
          unfold Sheet.ReachesFrom at hreach ⊢
          rw [hav4]
          exact hreach
        have := hspec.2 this
        cases this
  | true =>
      have hgc : s.GetCell pos = .ok (some cell) := by
        rw [Sheet.GetCell_eq _ pos hv, hcell]
      obtain ⟨restored, hrest⟩ := hi.settable hfix.reparses pos cell hgc
      simp only [Sheet.finishExisting, hrest, Outcome.state?, Option.some.injEq] at hs
      subst hs
      obtain ⟨t0, ht0⟩ := hi.cells _ _ cell hcell
      have hsub := Cell.Set_restore_refs P hfix t0 cell restored ht0 hrest
      refine hac.of_sub (Sheet.refs_sub (fun r c c' hc' y hy => ?_))
      by_cases hat : r = pos.row.toNat ∧ c = pos.col.toNat
      · obtain ⟨rfl, rfl⟩ := hat
        rw [Sheet.slot_setSlot, if_pos ⟨rfl, rfl, hr5⟩] at hc'
        cases hc'
        exact ⟨cell, hcell, hsub y hy⟩
      · rw [Sheet.slot_setSlot, if_neg (fun k => hat ⟨k.1, k.2.1⟩)] at hc'
        rcases m.slot_from r c c' hc' with k | ⟨rfl, _⟩
        · rw [hs4 r c hat] at k
          exact ⟨c', k, hy⟩
        · cases hy

/-- The new-cell path of `SetCell` keeps the reference graph acyclic. -/
theorem Sheet.Acyclic.after_SetCell_new {P : String → Option FormulaInterface} {s : Sheet}
    (hvr : ValidRefs P) (hi : s.Inv P) (hac : s.Acyclic)
    (fuel : Nat) (pos : Position) (hv : pos.IsValid = true) (nc : Cell) (text : String)
    (hnc : Cell.Set P text = .ok nc) (probed : Outcome Bool)
    (hp : Cell.IsCyclicDependent P fuel (s.Reserve pos) nc none pos = some probed)
    (s' : Sheet) (hs : (Sheet.finishNew pos nc probed).state? = some s') :
    s'.Acyclic := by
  have hncv := Cell.Set_refs_valid P hvr text nc hnc
  have hval0 : (s.Reserve pos).RefsValid :=
    fun x y hxy => hi.refsValid hvr x y ((s.refs_Reserve pos x y).1 hxy)
  obtain ⟨b, s1, rfl⟩ := Cell.IsCyclicDependent_returns P fuel _ nc none pos probed hval0 hncv hp
  have m : Materialised pos _ s1 := Cell.IsCyclicDependent_materialised P fuel _ nc _ pos _ hp
  have hspec := Cell.IsCyclicDependent_spec P fuel _ nc none pos b s1 (Or.inl rfl) hp
  have hav0 : (s.Reserve pos).RefsAvoiding pos = s.RefsAvoiding pos :=
    Sheet.refsAvoiding_of_refs_iff pos (s.refs_Reserve pos)
  cases b with
  | true =>
      simp only [Sheet.finishNew, Outcome.state?, Option.some.injEq] at hs
      subst hs
      exact hac.of_sub (fun x y hxy => (s.refs_Reserve pos x y).1 ((m.refs_iff x y).1 hxy))
  | false =>
      simp only [Sheet.finishNew, Outcome.state?, Option.some.injEq] at hs
      subst hs
      have hsheet := (Sheet.addReferences_fields s1 nc.GetReferencedCells pos).1
      have hr1 := m.keeps_inRange _ _ (s.inRange_Reserve_self pos hv)
      have hr2 : (s1.addReferences nc.GetReferencedCells pos).InRange
          pos.row.toNat pos.col.toNat := by
        unfold Sheet.InRange Sheet.rowAt
        rw [hsheet]
        exact hr1
      refine hac.install pos nc ?_ ?_ ?_
      · have e1 : (((s1.addReferences nc.GetReferencedCells pos).setSlot pos
            (some nc)).UpdatePrintableSize).RefsAvoiding pos = s1.RefsAvoiding pos :=
          Sheet.refsAvoiding_congr pos hv (fun r c hrc => by
            rw [Sheet.UpdatePrintableSize_slot, Sheet.slot_setSlot,
              if_neg (fun k => hrc ⟨k.1, k.2.1⟩), Sheet.slot_congr hsheet])
        rw [e1, Sheet.refsAvoiding_of_refs_iff pos (m.refs_iff), hav0]
      · rw [Sheet.GetCell_eq _ pos hv, Sheet.UpdatePrintableSize_slot, Sheet.slot_setSlot,
          if_pos ⟨rfl, rfl, hr2⟩]
      · intro hreach
        have : (s.Reserve pos).ReachesFrom pos nc.GetReferencedCells := by
          unfold Sheet.ReachesFrom at hreach ⊢
          rw [hav0]
          exact hreach
        have := hspec.2 this
        cases this

/-- A call of `SetCell` that returns or throws keeps the reference graph acyclic. -/
theorem Sheet.Acyclic.after_SetCell {P : String → Option FormulaInterface} {s : Sheet}
    (hvr : ValidRefs P) (hfix : CanonicalFixed P) (hi : s.Inv P) (hac : s.Acyclic)
    (fuel : Nat) (pos : Position) (text : String) (o : Outcome Unit) (s' : Sheet)
    (h : s.SetCell P fuel pos text = some o) (hs : o.state? = some s') : s'.Acyclic := by
  rcases Sheet.SetCell_outcome P fuel s pos text o h with ⟨_, rfl⟩ | ⟨hv, hb⟩
  · cases hs
    exact hac
  · have h0 := Sheet.Inv_Reserve hi pos
    rcases hb with ⟨cell, hcell, hb⟩ | ⟨hnull, hb⟩
    · rcases hb with rfl | ⟨s1, mi, hb⟩
      · cases hs
      · have hs1 : ∀ r c, s1.slot r c = s.slot r c := fun r c => by
          rw [mi.slot_eq h0.noCache, Sheet.slot_Reserve]
        rcases hb with rfl | ⟨e, _, rfl⟩ | ⟨nc, probed, hnc, hp, rfl⟩
        · cases hs
          exact hac.of_sub (Sheet.refs_sub_of_slots (fun r c c' hc' => by
            rw [hs1] at hc'; exact hc'))
        · cases hs
          refine hac.of_sub (Sheet.refs_sub (fun r c c' hc' y hy => ?_))
          rw [Sheet.slot_setSlot] at hc'
          split at hc'
          · cases hc'
            cases hy
          · exact ⟨c', by rw [← hs1]; exact hc', hy⟩
        · exact Sheet.Acyclic.after_SetCell_existing hvr hfix hi hac fuel pos hv cell nc text hcell
            s1 mi hnc probed hp s' hs
    · rcases hb with ⟨e, _, rfl⟩ | ⟨nc, probed, hnc, hp, rfl⟩
      · cases hs
        exact hac.of_sub (fun x y hxy => (s.refs_Reserve pos x y).1 hxy)
      · exact Sheet.Acyclic.after_SetCell_new hvr hi hac fuel pos hv nc text hnc probed hp s' hs

theorem Sheet.Acyclic.after_ClearCell {s : Sheet} (hac : s.Acyclic) (pos : Position)
    (o : Outcome Unit) (s' : Sheet) (h : s.ClearCell pos = o) (hs : o.state? = some s') :
    s'.Acyclic := by
  have key : ∀ t : Sheet, (∀ r c, t.slot r c = (s.setSlot pos none).slot r c) →
      t.Acyclic := by
    intro t ht
    refine hac.of_sub (Sheet.refs_sub_of_slots (fun r c c' hc' => ?_))
    rw [ht, Sheet.slot_setSlot] at hc'
    split at hc'
    · cases hc'
    · exact hc'
  unfold Sheet.ClearCell at h
  split at h
  · subst h; cases hs; exact hac
  · split at h
    · dsimp only at h
      split at h
      · subst h; cases hs; exact key _ (fun r c => Sheet.UpdatePrintableSize_slot _ r c)
      · subst h; cases hs; exact key _ (fun _ _ => rfl)
    · subst h; cases hs; exact hac

theorem Sheet.Acyclic.of_empty : Sheet.empty.Acyclic := by
  intro x hx
  rcases Relation.TransGen.head'_iff.1 hx with ⟨r, ⟨c, hc, _⟩, _⟩
  have := Sheet.empty.GetCell_ok_slot x _ hc
  simp [Sheet.empty, Sheet.slot, Sheet.rowAt] at this

/-- With a formula collaborator that reports only valid referenced cells and parses
the canonical expression of a formula back to that formula, the reference graph
(an edge X -> Y whenever the cell at X holds a formula whose GetReferencedCells
contains Y) of every reachable sheet has no cycle. -/
theorem Reachable.refs_acyclic (P : String → Option FormulaInterface)
    (hvr : ValidRefs P) (hfix : CanonicalFixed P) (s : Sheet) (h : Reachable P s) :
    ∀ x, ¬ Relation.TransGen s.Refs x x := by
  induction h with
  | empty => exact Sheet.Acyclic.of_empty
  | setCell fuel pos text o hprev hcall hstate ih =>
      exact Sheet.Acyclic.after_SetCell hvr hfix hprev.inv ih fuel pos text o _ hcall hstate
  | clearCell pos o _ hcall hstate ih =>
      exact Sheet.Acyclic.after_ClearCell ih pos o _ hcall hstate

/-- The rollback of a call that fails with circular-dependency parses the old text
again: with a collaborator whose canonical expression parses to another formula
(`sampleParseAlias`), SetCell(A1, "=A1") on the sheet that holds the formula of
"=B1+0" at A1 fails and leaves at A1 a formula that references A1. -/
theorem rollback_reparse_self_reference :
    Sheet.empty.SetCell sampleParseAlias 5 A1 "=B1+0" = some (.returned () sheetA1alias) ∧
      sheetA1alias.SetCell sampleParseAlias 5 A1 "=A1" =
        some (.threw .CircularDependencyException sheetA1aliasSelf) ∧
      Relation.TransGen sheetA1aliasSelf.Refs A1 A1 :=
  ⟨by decide, by decide, .single ⟨_, rfl, List.mem_cons_self _ _⟩⟩

theorem sampleParse_validRefs : ValidRefs sampleParse := by
  intro str f h r hr
  unfold sampleParse at h
  split_ifs at h <;> cases h <;> revert r <;> decide

theorem sampleParse_fixed : CanonicalFixed sampleParse := by
  intro str f h
  rw [sampleParse_expression str f h]
  exact h

theorem mem_of_getD {α : Type} (l : List α) (i : Nat) (d x : α) (h : l.getD i d = x)
    (hne : x ≠ d) : x ∈ l := by
  induction l generalizing i with
  | nil =>
      simp only [List.getD_nil] at h
      exact absurd h.symm hne
  | cons a rest ih =>
      cases i with
      | zero =>
          simp only [List.getD_cons_zero] at h
          subst h
          exact List.mem_cons_self _ _
      | succ j =>
          simp only [List.getD_cons_succ] at h
          exact List.mem_cons_of_mem _ (ih j h)

/-- A relation without a cycle whose targets lie in a finite set decreases a rank. -/
theorem exists_rank_of_acyclic {α : Type} (R : α → α → Prop) (S : Finset α)
    (hS : ∀ x y, R x y → y ∈ S) (hac : ∀ x, ¬ Relation.TransGen R x x) :
    ∃ rank : α → Nat, ∀ x y, R x y → rank y < rank x := by
  classical
  refine ⟨fun x => (S.filter (fun y => Relation.TransGen R x y)).card, fun x y hxy => ?_⟩
  refine Finset.card_lt_card ⟨fun z hz => ?_, fun hsub => ?_⟩
  · rw [Finset.mem_filter] at hz ⊢
    exact ⟨hz.1, Relation.TransGen.head hxy hz.2⟩
  · have hy : y ∈ S.filter (fun z => Relation.TransGen R x z) :=
      Finset.mem_filter.2 ⟨hS x y hxy, Relation.TransGen.single hxy⟩
    exact hac y (Finset.mem_filter.1 (hsub hy)).2

/-- The references that the probe for `e` follows decrease a rank when they form no
cycle: the referenced positions are those of the finitely many stored cells. -/
theorem Sheet.exists_rank (s : Sheet) (e : Position)
    (hac : ∀ x, ¬ Relation.TransGen (s.RefsAvoiding e) x x) :
    ∃ rank : Position → Nat, ∀ x y, s.RefsAvoiding e x y → rank y < rank x := by
  classical
  refine exists_rank_of_acyclic _
    (((s.sheet_.flatten.filterMap id).flatMap Cell.GetReferencedCells).toFinset) ?_ hac
  rintro x y ⟨_, hxy⟩
  obtain ⟨_, c, hc, hy⟩ := (s.refs_iff_slot x y).1 hxy
  rw [List.mem_toFinset, List.mem_flatMap]
  refine ⟨c, ?_, hy⟩
  rw [List.mem_filterMap]
  refine ⟨some c, ?_, rfl⟩
  rw [List.mem_flatten]
  have hrow : s.rowAt x.row.toNat ∈ s.sheet_ := by
    refine mem_of_getD s.sheet_ x.row.toNat [] _ rfl (fun hnil => ?_)
    unfold Sheet.slot at hc
    rw [hnil] at hc
    simp at hc
  exact ⟨_, hrow, mem_of_getD _ _ none _ hc (by simp)⟩

theorem probeLoop_halts
    (setCell : Sheet → Position → String → Option (Outcome Unit))
    (recur : Sheet → Cell → Option (Outcome Bool))
    (start : Option Position) (e : Position) (rank : Position → Nat)
    (hset : ∀ s r, s.GetCell r = .ok none →
      setCell s r "" = some (.returned () (s.materialise r)))
    (hmat : ∀ s c o, recur s c = some o → o.Via (Materialised e s))
    (good : Position → Prop)
    (hrec : ∀ s r c, (∀ x y, s.RefsAvoiding e x y → rank y < rank x) → good r → r ≠ e →
      s.GetCell r = .ok (some c) → ∃ o, recur s c = some o ∧ o ≠ .undefined) :
    ∀ (refs : List Position) (s : Sheet), (∀ x y, s.RefsAvoiding e x y → rank y < rank x) →
      (∀ r ∈ refs, good r) →
      ∃ o, probeLoop setCell recur start e refs s = some o ∧ o ≠ .undefined := by
  have keep : ∀ s s', Materialised e s s' →
      (∀ x y, s.RefsAvoiding e x y → rank y < rank x) →
      ∀ x y, s'.RefsAvoiding e x y → rank y < rank x :=
    fun s s' m hs x y hxy => hs x y ⟨hxy.1, (m.refs_iff x y).1 hxy.2⟩
  intro refs
  induction refs with
  | nil =>
      intro s _ _
      exact ⟨_, rfl, fun k => nomatch k⟩
  | cons r rest ih =>
      intro s hs hrefs
      have hr := hrefs r (List.mem_cons_self _ _)
      have hrest : ∀ x ∈ rest, good x := fun x hx => hrefs x (List.mem_cons_of_mem _ hx)
      simp only [probeLoop]
      by_cases heq : r = e
      · rw [if_pos heq]
        exact ⟨_, rfl, fun k => nomatch k⟩
      · rw [if_neg heq]
        cases hg : s.GetCell r with
        | error ex => exact ⟨_, rfl, fun k => nomatch k⟩
        | ok v =>
            cases v with
            | some ref_cell =>
                simp only
                by_cases hst : start = some r
                · rw [if_pos hst]
                  exact ⟨_, rfl, fun k => nomatch k⟩
                · rw [if_neg hst]
                  obtain ⟨o1, h1, hne1⟩ := hrec s r ref_cell hs hr heq hg
                  have m1 := hmat _ _ _ h1
                  rw [h1]
                  cases o1 with
                  | returned b s1 =>
                      cases b with
                      | true => exact ⟨_, rfl, fun k => nomatch k⟩
                      | false => exact ih s1 (keep _ _ m1 hs) hrest
                  | threw ex s1 => exact ⟨_, rfl, fun k => nomatch k⟩
                  | undefined => exact absurd rfl hne1
            | none =>
                simp only
                have hv := s.GetCell_ok_valid r none hg
                have hsl := s.GetCell_ok_slot r none hg
                rw [hset s r hg]
                simp only [Sheet.GetCell_materialise s r hv]
                have m1 : Materialised e s (s.materialise r) :=
                  .step r heq hv hsl (.refl _)
                by_cases hst : start = some r
                · rw [if_pos hst]
                  exact ⟨_, rfl, fun k => nomatch k⟩
                · rw [if_neg hst]
                  obtain ⟨o1, h1, hne1⟩ := hrec (s.materialise r) r ⟨.EmptyImpl⟩
                    (keep _ _ m1 hs) hr heq (Sheet.GetCell_materialise s r hv)
                  have m2 := hmat _ _ _ h1
                  rw [h1]
                  cases o1 with
                  | returned b s1 =>
                      cases b with
                      | true => exact ⟨_, rfl, fun k => nomatch k⟩
                      | false => exact ih s1 (keep _ _ m2 (keep _ _ m1 hs)) hrest
                  | threw ex s1 => exact ⟨_, rfl, fun k => nomatch k⟩
                  | undefined => exact absurd rfl hne1

/-- The cycle probe ends, and not in undefined behaviour, when the references it
follows decrease a rank: fuel beyond the rank of the referenced cells suffices. -/
theorem Cell.IsCyclicDependent_halts (P : String → Option FormulaInterface)
    (start : Option Position) (e : Position) (rank : Position → Nat) :
    ∀ (n : Nat) (s : Sheet) (this : Cell),
      (∀ x y, s.RefsAvoiding e x y → rank y < rank x) →
      (∀ r ∈ this.GetReferencedCells, rank r < n) →
      ∃ o, Cell.IsCyclicDependent P (n + 1) s this start e = some o ∧ o ≠ .undefined := by
  intro n
  induction n with
  | zero =>
      intro s this _ hrefs
      have : this.GetReferencedCells = [] := by
        cases hl : this.GetReferencedCells with
        | nil => rfl
        | cons r rest =>
            have := hrefs r (by rw [hl]; exact List.mem_cons_self _ _)
            omega
      rw [Cell.IsCyclicDependent, this]
      exact ⟨_, rfl, fun k => nomatch k⟩
  | succ m ih =>
      intro s this hs hrefs
      rw [Cell.IsCyclicDependent]
      refine probeLoop_halts _ _ start e rank ?_ ?_ (fun r => rank r < m + 1) ?_ _ s hs hrefs
      · intro s1 r hn
        exact Sheet.SetCellWith_materialise_some P _ m s1 r hn
      · intro s1 c o h1
        exact Cell.IsCyclicDependent_materialised P (m + 1) s1 c start e o h1
      · intro s1 r c hs1 hr hne hg
        refine ih s1 c hs1 (fun y hy => ?_)
        have := hs1 r y ⟨hne, c, hg, hy⟩
        omega

/-- C19: let the reference graph of the sheet `s` be acyclic, let `pos` be a valid
position and let `t` be a sheet whose slots other than the slot of `pos` hold cells
with the same referenced cells as in `s` (the sheet in which SetCell has installed
or is about to install the content `this` at `pos`). Then the recursion of
Cell::IsCyclicDependent(start, pos) on `this` terminates: from some amount of fuel
on it ends with one outcome, which is not undefined behaviour, in a sheet that
arises from `t` by materialising Empty cells at null slots of valid positions other
than `pos`; and when all referenced positions are valid the probe returns. -/
theorem C19_probe_terminates (P : String → Option FormulaInterface) (s t : Sheet)
    (pos : Position) (this : Cell) (start : Option Position)
    (hac : ∀ x, ¬ Relation.TransGen s.Refs x x) (hv : pos.IsValid = true)
    (hoff : ∀ r c, ¬ (r = pos.row.toNat ∧ c = pos.col.toNat) →
      (t.slot r c).map Cell.GetReferencedCells = (s.slot r c).map Cell.GetReferencedCells) :
    ∃ (n : Nat) (o : Outcome Bool),
      (∀ fuel, n ≤ fuel → Cell.IsCyclicDependent P fuel t this start pos = some o) ∧
      o ≠ .undefined ∧ o.Via (Materialised pos t) ∧
      (t.RefsValid → (∀ r ∈ this.GetReferencedCells, r.IsValid = true) →
        ∃ b t', o = .returned b t') := by
  have hav := Sheet.refsAvoiding_congr pos hv hoff
  have hac' : ∀ x, ¬ Relation.TransGen (t.RefsAvoiding pos) x x := by
    intro x hx
    rw [hav] at hx
    exact hac x (Relation.TransGen.mono (fun a b hab => hab.2) hx)
  obtain ⟨rank, hrank⟩ := t.exists_rank pos hac'
  obtain ⟨N, hN⟩ := exists_rank_bound rank this.GetReferencedCells
  obtain ⟨o, ho, hne⟩ := Cell.IsCyclicDependent_halts P start pos rank N t this hrank hN
  refine ⟨N + 1, o, fun fuel hf => Cell.IsCyclicDependent_fuel_le P _ _ hf _ _ _ _ _ ho, hne,
    Cell.IsCyclicDependent_materialised P _ _ _ _ _ _ ho, fun hval hthis => ?_⟩
  exact Cell.IsCyclicDependent_returns P _ _ _ _ _ _ hval hthis ho

theorem sheetA1refB1_acyclic : sheetA1refB1.Acyclic :=
  Sheet.Acyclic.after_SetCell sampleParse_validRefs sampleParse_fixed (Sheet.Inv_empty _)
    Sheet.Acyclic.of_empty 5 A1 "=B1" _ _ run_A1refB1 rfl

theorem sheetA1refB1_installed_off (nc : Cell) (r c : Nat)
    (hrc : ¬ (r = B1.row.toNat ∧ c = B1.col.toNat)) :
    ((sheetA1refB1.installed B1 nc).slot r c).map Cell.GetReferencedCells =
      (sheetA1refB1.slot r c).map Cell.GetReferencedCells := by
  unfold Sheet.installed
  rw [Sheet.slot_setSlot, if_neg (fun k => hrc ⟨k.1, k.2.1⟩), Sheet.slot_Reserve]

/-- C19 (witness): the probe of SetCell(B1, "=A1") on the sheet that holds "=B1" at
A1, where the new content of B1 closes a cycle through A1. -/
theorem C19_probe_terminates_witness :
    (∀ x, ¬ Relation.TransGen sheetA1refB1.Refs x x) ∧ B1.IsValid = true ∧
      (∀ r c, ¬ (r = B1.row.toNat ∧ c = B1.col.toNat) →
        ((sheetA1refB1.installed B1 ⟨.FormulaImpl ⟨"A1", [A1]⟩ none⟩).slot r c).map
            Cell.GetReferencedCells =
          (sheetA1refB1.slot r c).map Cell.GetReferencedCells) ∧
      ∃ (n : Nat) (o : Outcome Bool),
        (∀ fuel, n ≤ fuel → Cell.IsCyclicDependent sampleParse fuel
          (sheetA1refB1.installed B1 ⟨.FormulaImpl ⟨"A1", [A1]⟩ none⟩)
          ⟨.FormulaImpl ⟨"A1", [A1]⟩ none⟩ (some B1) B1 = some o) ∧
        o ≠ .undefined ∧
        o.Via (Materialised B1 (sheetA1refB1.installed B1 ⟨.FormulaImpl ⟨"A1", [A1]⟩ none⟩)) ∧
        ((sheetA1refB1.installed B1 ⟨.FormulaImpl ⟨"A1", [A1]⟩ none⟩).RefsValid →
          (∀ r ∈ (⟨.FormulaImpl ⟨"A1", [A1]⟩ none⟩ : Cell).GetReferencedCells,
            r.IsValid = true) →
          ∃ b t', o = .returned b t') :=
  ⟨sheetA1refB1_acyclic, by decide, sheetA1refB1_installed_off _,
    C19_probe_terminates sampleParse sheetA1refB1
      (sheetA1refB1.installed B1 ⟨.FormulaImpl ⟨"A1", [A1]⟩ none⟩) B1
      ⟨.FormulaImpl ⟨"A1", [A1]⟩ none⟩ (some B1) sheetA1refB1_acyclic (by decide)
      (sheetA1refB1_installed_off _)⟩

end Spreadsheet
